import Mathlib

/-!
# Module loading and symbol linking (lib/ast/module.cpp)

A shallow embedding of `Module::loadBinary` and `Module::loadCompiled`.

* The byte cursor (`FileMgr`), the per-section decoders and the symbol provider
  (`LDMgr`) are declared outside `module.cpp`; they are taken as parameters.
* Every call `module.cpp` makes on a collaborator (a read, a decoder, a log line)
  is appended to a trace, in program order.
* `while (true)` is run on fuel: `none` means the fuel ran out.
* `front()` on an empty vector has no defined result: `loadCompiled` returns `none`.
-/

namespace SSVM
namespace AST

/-- One octet of the input. -/
abbrev Byte := Fin 256

/-- The error codes `module.cpp` names, and `Other` for every further code a
collaborator may return. -/
inductive ErrCode where
  | EndOfFile
  | InvalidGrammar
  | InvalidGlobalIdx
  | InvalidMemoryIdx
  | Other (code : Nat)
  deriving DecidableEq, Repr

/-- The node attributes `module.cpp` logs. `NodeAttr` of a `Module` is `Module`. -/
inductive ASTNodeAttr where
  | Module
  | Sec_Import
  | Desc_Import
  deriving DecidableEq, Repr

/-- One `LOG(ERROR) << ...` line. -/
inductive LogEntry where
  | Code (e : ErrCode)
  | InfoLoading (off : Nat)
  | InfoAST (a : ASTNodeAttr)
  deriving DecidableEq, Repr

/-- The thirteen section members of `Module`. -/
inductive SecId where
  | CustomSec
  | TypeSec
  | ImportSec
  | FunctionSec
  | TableSec
  | MemorySec
  | GlobalSec
  | ExportSec
  | StartSec
  | ElementSec
  | CodeSec
  | DataSec
  | DataCountSec
  deriving DecidableEq, Repr

/-- The tag byte of each section member, as in the `case` labels of the switch. -/
def SecId.tag : SecId → Byte
  | .CustomSec => 0x00
  | .TypeSec => 0x01
  | .ImportSec => 0x02
  | .FunctionSec => 0x03
  | .TableSec => 0x04
  | .MemorySec => 0x05
  | .GlobalSec => 0x06
  | .ExportSec => 0x07
  | .StartSec => 0x08
  | .ElementSec => 0x09
  | .CodeSec => 0x0A
  | .DataSec => 0x0B
  | .DataCountSec => 0x0C

/-- One call made by `Module::loadBinary` on a collaborator. -/
inductive Event where
  | readBytes (n : Nat)
  | readByte
  | decode (k : SecId)
  | log (l : LogEntry)
  deriving DecidableEq, Repr

/-- `ExternalType` of an import descriptor. -/
inductive ExternalType where
  | Function
  | Table
  | Memory
  | Global
  deriving DecidableEq, Repr

/-- A declaration that carries a bound symbol (`setSymbol`): a function type, a
global, a code segment, a table type or a memory type. `Body` is its decoded
content, which `module.cpp` never reads. -/
structure Decl (P Sym : Type) where
  Body : P
  Symbol : Sym
  deriving DecidableEq, Repr

/-- An import descriptor. -/
structure ImportDesc (P Sym : Type) where
  ModName : String
  ExtName : String
  ExtType : ExternalType
  Body : P
  Symbol : Sym
  deriving DecidableEq, Repr

/-- Custom section: raw bytes. -/
structure CustomSection where
  Content : List Byte := []
  deriving DecidableEq, Repr

/-- A section that wraps an ordered sequence of declarations. -/
structure Section (α : Type) where
  Content : List α := []
  deriving DecidableEq, Repr

/-- Data count section: the declared number of data segments. -/
structure DataCountSection where
  Content : Nat := 0
  deriving DecidableEq, Repr

/-- The `Module` node: two markers and thirteen owning pointers, `none` for null. -/
structure Module (P Sym : Type) where
  Magic : List Byte := []
  Version : List Byte := []
  CustomSec : Option CustomSection := none
  TypeSec : Option (Section (Decl P Sym)) := none
  ImportSec : Option (Section (ImportDesc P Sym)) := none
  FunctionSec : Option (Section P) := none
  TableSec : Option (Section (Decl P Sym)) := none
  MemorySec : Option (Section (Decl P Sym)) := none
  GlobalSec : Option (Section (Decl P Sym)) := none
  ExportSec : Option (Section P) := none
  StartSec : Option (Section P) := none
  ElementSec : Option (Section P) := none
  CodeSec : Option (Section (Decl P Sym)) := none
  DataSec : Option (Section P) := none
  DataCountSec : Option DataCountSection := none
  deriving DecidableEq, Repr

/-- The byte cursor `FileMgr`, over a state `σ`. A read returns its result and the
cursor after it. `getOffset` is an unsigned integer of `offBits` bits. -/
structure FileMgr (σ : Type) where
  readBytes : Nat → σ → Except ErrCode (List Byte) × σ
  readByte : σ → Except ErrCode Byte × σ
  getOffset : σ → Nat
  offBits : Nat

/-- Result of a section decoder `XSection::loadBinary(Mgr)`: its return value,
the section after it and the cursor after it. -/
abbrev Decoder (σ S : Type) := S → σ → Except ErrCode Unit × S × σ

/-- The thirteen section decoders. -/
structure SectionLoaders (σ P Sym : Type) where
  Custom : Decoder σ CustomSection
  Type_ : Decoder σ (Section (Decl P Sym))
  Import : Decoder σ (Section (ImportDesc P Sym))
  Function : Decoder σ (Section P)
  Table : Decoder σ (Section (Decl P Sym))
  Memory : Decoder σ (Section (Decl P Sym))
  Global : Decoder σ (Section (Decl P Sym))
  Export : Decoder σ (Section P)
  Start : Decoder σ (Section P)
  Element : Decoder σ (Section P)
  Code : Decoder σ (Section (Decl P Sym))
  Data : Decoder σ (Section P)
  DataCount : Decoder σ DataCountSection

/-- What `loadBinary` has changed so far: the module, the cursor, the trace. -/
structure LoadState (σ P Sym : Type) where
  Mod : Module P Sym
  Mgr : σ
  Trace : List Event
  deriving DecidableEq, Repr

/-- Unsigned subtraction `a - b` on `w` bits. -/
def offSub (w a b : Nat) : Nat := (a % 2 ^ w + 2 ^ w - b % 2 ^ w) % 2 ^ w

def WasmMagic : List Byte := [0x00, 0x61, 0x73, 0x6D]

def WasmVersion : List Byte := [0x01, 0x00, 0x00, 0x00]

section Load

variable {σ P Sym : Type}

/-- The statements `if (XSec == nullptr) XSec = make_unique<X>(); XSec->loadBinary(Mgr)`
of the switch arm of member `k`: the decoder's return value, the module and the
cursor after it. -/
def loadSec (D : SectionLoaders σ P Sym) (k : SecId) (m : Module P Sym) (s : σ) :
    Except ErrCode Unit × Module P Sym × σ :=
  match k with
  | .CustomSec =>
    let r := D.Custom (m.CustomSec.getD {}) s
    (r.1, { m with CustomSec := some r.2.1 }, r.2.2)
  | .TypeSec =>
    let r := D.Type_ (m.TypeSec.getD {}) s
    (r.1, { m with TypeSec := some r.2.1 }, r.2.2)
  | .ImportSec =>
    let r := D.Import (m.ImportSec.getD {}) s
    (r.1, { m with ImportSec := some r.2.1 }, r.2.2)
  | .FunctionSec =>
    let r := D.Function (m.FunctionSec.getD {}) s
    (r.1, { m with FunctionSec := some r.2.1 }, r.2.2)
  | .TableSec =>
    let r := D.Table (m.TableSec.getD {}) s
    (r.1, { m with TableSec := some r.2.1 }, r.2.2)
  | .MemorySec =>
    let r := D.Memory (m.MemorySec.getD {}) s
    (r.1, { m with MemorySec := some r.2.1 }, r.2.2)
  | .GlobalSec =>
    let r := D.Global (m.GlobalSec.getD {}) s
    (r.1, { m with GlobalSec := some r.2.1 }, r.2.2)
  | .ExportSec =>
    let r := D.Export (m.ExportSec.getD {}) s
    (r.1, { m with ExportSec := some r.2.1 }, r.2.2)
  | .StartSec =>
    let r := D.Start (m.StartSec.getD {}) s
    (r.1, { m with StartSec := some r.2.1 }, r.2.2)
  | .ElementSec =>
    let r := D.Element (m.ElementSec.getD {}) s
    (r.1, { m with ElementSec := some r.2.1 }, r.2.2)
  | .CodeSec =>
    let r := D.Code (m.CodeSec.getD {}) s
    (r.1, { m with CodeSec := some r.2.1 }, r.2.2)
  | .DataSec =>
    let r := D.Data (m.DataSec.getD {}) s
    (r.1, { m with DataSec := some r.2.1 }, r.2.2)
  | .DataCountSec =>
    let r := D.DataCount (m.DataCountSec.getD {}) s
    (r.1, { m with DataCountSec := some r.2.1 }, r.2.2)

/-- One `case` of the switch: run the arm of member `k`; when the decoder fails, log
`InfoAST(NodeAttr)` and return its error, otherwise `break` out of the switch. -/
def arm (D : SectionLoaders σ P Sym) (k : SecId) (st : LoadState σ P Sym) :
    Except ErrCode Unit × LoadState σ P Sym :=
  match loadSec D k st.Mod st.Mgr with
  | (.ok _, m, s) => (.ok (), ⟨m, s, st.Trace ++ [.decode k]⟩)
  | (.error e, m, s) =>
    (.error e, ⟨m, s, st.Trace ++ [.decode k, .log (.InfoAST .Module)]⟩)

/-- The statement `switch (NewSectionId)`. -/
def dispatch (M : FileMgr σ) (D : SectionLoaders σ P Sym) (NewSectionId : Byte)
    (st : LoadState σ P Sym) : Except ErrCode Unit × LoadState σ P Sym :=
  match NewSectionId.val with
  | 0x00 => arm D .CustomSec st
  | 0x01 => arm D .TypeSec st
  | 0x02 => arm D .ImportSec st
  | 0x03 => arm D .FunctionSec st
  | 0x04 => arm D .TableSec st
  | 0x05 => arm D .MemorySec st
  | 0x06 => arm D .GlobalSec st
  | 0x07 => arm D .ExportSec st
  | 0x08 => arm D .StartSec st
  | 0x09 => arm D .ElementSec st
  | 0x0A => arm D .CodeSec st
  | 0x0B => arm D .DataSec st
  | 0x0C => arm D .DataCountSec st
  | _ =>
    (.error .InvalidGrammar,
      ⟨st.Mod, st.Mgr, st.Trace ++
        [.log (.Code .InvalidGrammar),
         .log (.InfoLoading (offSub M.offBits (M.getOffset st.Mgr) 1)),
         .log (.InfoAST .Module)]⟩)

/-- The loop `while (true)` of `loadBinary`, on fuel. The result `.ok` is the
`break` taken when the tag-byte read reports `EndOfFile`. -/
def loadSections (M : FileMgr σ) (D : SectionLoaders σ P Sym) :
    Nat → LoadState σ P Sym → Option (Except ErrCode Unit × LoadState σ P Sym)
  | 0, _ => none
  | fuel + 1, st =>
    match M.readByte st.Mgr with
    | (.ok b, s) =>
      match dispatch M D b ⟨st.Mod, s, st.Trace ++ [.readByte]⟩ with
      | (.ok _, st1) => loadSections M D fuel st1
      | (.error e, st1) => some (.error e, st1)
    | (.error e, s) =>
      if e = .EndOfFile then
        some (.ok (), ⟨st.Mod, s, st.Trace ++ [.readByte]⟩)
      else
        some (.error e, ⟨st.Mod, s, st.Trace ++
          [.readByte, .log (.Code e), .log (.InfoLoading (M.getOffset s)),
           .log (.InfoAST .Module)]⟩)

/-- The statements that read and compare `Magic` and `Version`. -/
def loadHeader (M : FileMgr σ) (m : Module P Sym) (s : σ) :
    Except ErrCode Unit × LoadState σ P Sym :=
  match M.readBytes 4 s with
  | (.error e, s1) =>
    (.error e, ⟨m, s1,
      [.readBytes 4, .log (.Code e), .log (.InfoLoading (M.getOffset s1)),
       .log (.InfoAST .Module)]⟩)
  | (.ok Res, s1) =>
    if Res ≠ WasmMagic then
      (.error .InvalidGrammar, ⟨{ m with Magic := Res }, s1,
        [.readBytes 4, .log (.Code .InvalidGrammar),
         .log (.InfoLoading (offSub M.offBits (M.getOffset s1) 4)),
         .log (.InfoAST .Module)]⟩)
    else
      match M.readBytes 4 s1 with
      | (.error e, s2) =>
        (.error e, ⟨{ m with Magic := Res }, s2,
          [.readBytes 4, .readBytes 4, .log (.Code e),
           .log (.InfoLoading (M.getOffset s2)), .log (.InfoAST .Module)]⟩)
      | (.ok Res2, s2) =>
        if Res2 ≠ WasmVersion then
          (.error .InvalidGrammar, ⟨{ m with Magic := Res, Version := Res2 }, s2,
            [.readBytes 4, .readBytes 4, .log (.Code .InvalidGrammar),
             .log (.InfoLoading (offSub M.offBits (M.getOffset s2) 4)),
             .log (.InfoAST .Module)]⟩)
        else
          (.ok (), ⟨{ m with Magic := Res, Version := Res2 }, s2,
            [.readBytes 4, .readBytes 4]⟩)

/-- The statements after the loop: the data count section and the data segments
must match. -/
def checkDataCount (st : LoadState σ P Sym) : Except ErrCode Unit × LoadState σ P Sym :=
  match st.Mod.DataCountSec with
  | some dc =>
    match st.Mod.DataSec with
    | some d =>
      if d.Content.length ≠ dc.Content then
        (.error .InvalidGrammar, ⟨st.Mod, st.Mgr, st.Trace ++
          [.log (.Code .InvalidGrammar), .log (.InfoAST .Module)]⟩)
      else (.ok (), st)
    | none =>
      if dc.Content ≠ 0 then
        (.error .InvalidGrammar, ⟨st.Mod, st.Mgr, st.Trace ++
          [.log (.Code .InvalidGrammar), .log (.InfoAST .Module)]⟩)
      else (.ok (), st)
  | none => (.ok (), st)

/-- `Module::loadBinary(FileMgr &Mgr)`. -/
def loadBinary (M : FileMgr σ) (D : SectionLoaders σ P Sym) (fuel : Nat)
    (m : Module P Sym) (s : σ) : Option (Except ErrCode Unit × LoadState σ P Sym) :=
  match loadHeader M m s with
  | (.error e, st) => some (.error e, st)
  | (.ok _, st) =>
    match loadSections M D fuel st with
    | none => none
    | some (.error e, st1) => some (.error e, st1)
    | some (.ok _, st1) => some (checkDataCount st1)

end Load

section Link

variable {P Sym : Type}

/-- The symbol provider `LDMgr` and the operations of its `Symbol` objects, over a
type `Sym` of symbol objects: lookup by name, `operator bool`, `index(I)` and
`deref()`. -/
structure LDMgr (Sym : Type) where
  getSymbol : String → Sym
  valid : Sym → Bool
  index : Sym → Nat → Sym
  deref : Sym → Sym

/-- The loop `for (auto &ImpDesc : ImportSec->getContent())` of `loadCompiled`: its
result, the descriptors after it, and the lines it logs. -/
def linkImports (toExportName : String → String) (L : LDMgr Sym) :
    List (ImportDesc P Sym) → Except ErrCode Unit × List (ImportDesc P Sym) × List LogEntry
  | [] => (.ok (), [], [])
  | ImpDesc :: rest =>
    let FullName := toExportName (ImpDesc.ModName ++ "." ++ ImpDesc.ExtName)
    match ImpDesc.ExtType with
    | .Function =>
      let r := linkImports toExportName L rest
      (r.1, ImpDesc :: r.2.1, r.2.2)
    | .Table =>
      let r := linkImports toExportName L rest
      (r.1, ImpDesc :: r.2.1, r.2.2)
    | .Global =>
      if L.valid (L.getSymbol FullName) then
        let r := linkImports toExportName L rest
        (r.1, { ImpDesc with Symbol := L.getSymbol FullName } :: r.2.1, r.2.2)
      else
        (.error .InvalidGlobalIdx, ImpDesc :: rest,
          [.Code .InvalidGlobalIdx, .InfoAST .Desc_Import, .InfoAST .Sec_Import,
           .InfoAST .Module])
    | .Memory =>
      if L.valid (L.getSymbol FullName) then
        let r := linkImports toExportName L rest
        (r.1, { ImpDesc with Symbol := L.getSymbol FullName } :: r.2.1, r.2.2)
      else
        (.error .InvalidMemoryIdx, ImpDesc :: rest,
          [.Code .InvalidMemoryIdx, .InfoAST .Desc_Import, .InfoAST .Sec_Import,
           .InfoAST .Module])

/-- The loop `for (size_t I = 0; I < Secs.size(); ++I) Secs[I]->setSymbol(f I)`,
from index `I` on. -/
def setSymbols (f : Nat → Sym) : Nat → List (Decl P Sym) → List (Decl P Sym)
  | _, [] => []
  | I, d :: ds => { d with Symbol := f I } :: setSymbols f (I + 1) ds

/-- The block `if (ImportSec)`. -/
def linkImportSec (toExportName : String → String) (L : LDMgr Sym) (m : Module P Sym) :
    Except ErrCode Unit × Module P Sym × List LogEntry :=
  match m.ImportSec with
  | some sec =>
    let r := linkImports toExportName L sec.Content
    (r.1, { m with ImportSec := some ⟨r.2.1⟩ }, r.2.2)
  | none => (.ok (), m, [])

/-- The block `if (GlobalSec)`. -/
def linkGlobalSec (L : LDMgr Sym) (m : Module P Sym) : Module P Sym :=
  match m.GlobalSec with
  | some sec =>
    if L.valid (L.getSymbol "globals") then
      let GlobalSecs := setSymbols (fun I => L.index (L.getSymbol "globals") I) 0 sec.Content
      { m with GlobalSec := some ⟨GlobalSecs⟩ }
    else m
  | none => m

/-- The block `if (TypeSec)`. -/
def linkTypeSec (L : LDMgr Sym) (m : Module P Sym) : Module P Sym :=
  match m.TypeSec with
  | some sec =>
    if L.valid (L.getSymbol "types") then
      let TypeSecs :=
        setSymbols (fun I => L.deref (L.index (L.getSymbol "types") I)) 0 sec.Content
      { m with TypeSec := some ⟨TypeSecs⟩ }
    else m
  | none => m

/-- The block `if (CodeSec)`. -/
def linkCodeSec (L : LDMgr Sym) (m : Module P Sym) : Module P Sym :=
  match m.CodeSec with
  | some sec =>
    if L.valid (L.getSymbol "codes") then
      let CodeSecs :=
        setSymbols (fun I => L.deref (L.index (L.getSymbol "codes") I)) 0 sec.Content
      { m with CodeSec := some ⟨CodeSecs⟩ }
    else m
  | none => m

/-- The block `if (TableSec)`. `front()` of an empty vector gives no result. -/
def linkTableSec (L : LDMgr Sym) (m : Module P Sym) : Option (Module P Sym) :=
  match m.TableSec with
  | some sec =>
    match sec.Content with
    | [] => none
    | TableType :: rest =>
      let Content := { TableType with Symbol := L.getSymbol "table" } :: rest
      some { m with TableSec := some ⟨Content⟩ }
  | none => some m

/-- The block `if (MemorySec)`. `front()` of an empty vector gives no result. -/
def linkMemorySec (L : LDMgr Sym) (m : Module P Sym) : Option (Module P Sym) :=
  match m.MemorySec with
  | some sec =>
    match sec.Content with
    | [] => none
    | MemType :: rest =>
      let Content := { MemType with Symbol := L.getSymbol "mem" } :: rest
      some { m with MemorySec := some ⟨Content⟩ }
  | none => some m

/-- `Module::loadCompiled(LDMgr &Mgr)`: its return value, the module after it and
the lines it logs; `none` when a `front()` had no element to return.
`toExportName` is declared outside `module.cpp`. -/
def loadCompiled (toExportName : String → String) (L : LDMgr Sym) (m : Module P Sym) :
    Option (Except ErrCode Unit × Module P Sym × List LogEntry) :=
  match linkImportSec toExportName L m with
  | (.error e, m1, l) => some (.error e, m1, l)
  | (.ok _, m1, l) =>
    match linkTableSec L (linkCodeSec L (linkTypeSec L (linkGlobalSec L m1))) with
    | none => none
    | some m2 =>
      match linkMemorySec L m2 with
      | none => none
      | some m3 => some (.ok (), m3, l)

end Link

/-! ## The in-memory cursor and sample collaborators -/

/-- State of the in-memory cursor: the input and the read position. -/
structure VecState where
  Code : List Byte
  Pos : Nat
  deriving DecidableEq, Repr

/-- Modelled from the spec: the ByteCursor (`FileMgr` is declared outside
`module.cpp`), "a sequential reader over the input byte stream that yields
exact-length byte slices or single bytes, reports current offset, and signals
an end-of-stream condition distinctly from other failures". A read that goes
past the last byte fails with `EndOfFile` and leaves the cursor where it was. -/
def vecMgr (w : Nat) : FileMgr VecState where
  readBytes n s :=
    if s.Pos + n ≤ s.Code.length then
      (.ok ((s.Code.drop s.Pos).take n), { s with Pos := s.Pos + n })
    else (.error .EndOfFile, s)
  readByte s :=
    match s.Code.get? s.Pos with
    | some b => (.ok b, { s with Pos := s.Pos + 1 })
    | none => (.error .EndOfFile, s)
  getOffset s := s.Pos % 2 ^ w
  offBits := w

/-- A cursor on a failing device: it reads as `vecMgr` does while the read ends at
or before position `limit`, and fails with `e` beyond it. -/
def faultyMgr (w limit : Nat) (e : ErrCode) : FileMgr VecState where
  readBytes n s := if s.Pos + n ≤ limit then (vecMgr w).readBytes n s else (.error e, s)
  readByte s := if s.Pos + 1 ≤ limit then (vecMgr w).readByte s else (.error e, s)
  getOffset s := s.Pos % 2 ^ w
  offBits := w

/-- Sample payload reader: one length byte `n`, then `n` bytes. -/
def readSized (s : VecState) : Except ErrCode (List Byte) × VecState :=
  match (vecMgr 32).readByte s with
  | (.ok n, s1) => (vecMgr 32).readBytes n.val s1
  | (.error e, s1) => (.error e, s1)

/-- Sample decoder: appends to the section one declaration per payload byte. -/
def sampleDecoder {α : Type} (mk : Byte → α) : Decoder VecState (Section α) :=
  fun sec s =>
    match readSized s with
    | (.ok bs, s1) => (.ok (), ⟨sec.Content ++ bs.map mk⟩, s1)
    | (.error e, s1) => (.error e, sec, s1)

/-- Sample custom section decoder: appends the payload bytes. -/
def sampleCustom : Decoder VecState CustomSection :=
  fun sec s =>
    match readSized s with
    | (.ok bs, s1) => (.ok (), ⟨sec.Content ++ bs⟩, s1)
    | (.error e, s1) => (.error e, sec, s1)

/-- Sample data count decoder: one byte, the declared count. -/
def sampleDataCount : Decoder VecState DataCountSection :=
  fun sec s =>
    match (vecMgr 32).readByte s with
    | (.ok n, s1) => (.ok (), ⟨n.val⟩, s1)
    | (.error e, s1) => (.error e, sec, s1)

/-- Sample decoders for concrete runs, with payload `Byte` and symbols `Nat`. -/
def sampleLoaders : SectionLoaders VecState Byte Nat where
  Custom := sampleCustom
  Type_ := sampleDecoder (fun b => ⟨b, 0⟩)
  Import := sampleDecoder (fun b => ⟨"env", "g", .Global, b, 0⟩)
  Function := sampleDecoder id
  Table := sampleDecoder (fun b => ⟨b, 0⟩)
  Memory := sampleDecoder (fun b => ⟨b, 0⟩)
  Global := sampleDecoder (fun b => ⟨b, 0⟩)
  Export := sampleDecoder id
  Start := sampleDecoder id
  Element := sampleDecoder id
  Code := sampleDecoder (fun b => ⟨b, 0⟩)
  Data := sampleDecoder id
  DataCount := sampleDataCount

/-- Sample provider over symbols `Nat`, `0` for the null symbol: it knows `env.g`,
`globals` and `table`, and lacks `types`, `codes` and `mem`. -/
def partLDMgr : LDMgr Nat where
  getSymbol name :=
    if name = "env.g" then 7 else if name = "globals" then 100
    else if name = "table" then 50 else 0
  valid sym := sym != 0
  index sym I := sym + I
  deref sym := sym

/-- Sample module: Function, Table and Global imports, one type, two globals, one
table and one memory; no symbol bound (`0`). -/
def sampleModule : Module Byte Nat :=
  { ImportSec := some ⟨[⟨"env", "f", .Function, 0, 0⟩, ⟨"env", "t", .Table, 0, 0⟩,
      ⟨"env", "g", .Global, 0, 0⟩]⟩
    TypeSec := some ⟨[⟨5, 0⟩]⟩
    GlobalSec := some ⟨[⟨1, 0⟩, ⟨2, 0⟩]⟩
    TableSec := some ⟨[⟨3, 0⟩]⟩
    MemorySec := some ⟨[⟨4, 0⟩]⟩ }

/-- Sample module: `sampleModule` with `env.g` bound to 7, the globals to 100 and
101 and the table to 50. -/
def sampleLinked : Module Byte Nat :=
  { ImportSec := some ⟨[⟨"env", "f", .Function, 0, 0⟩, ⟨"env", "t", .Table, 0, 0⟩,
      ⟨"env", "g", .Global, 0, 7⟩]⟩
    TypeSec := some ⟨[⟨5, 0⟩]⟩
    GlobalSec := some ⟨[⟨1, 100⟩, ⟨2, 101⟩]⟩
    TableSec := some ⟨[⟨3, 50⟩]⟩
    MemorySec := some ⟨[⟨4, 0⟩]⟩ }

/-- Sample module: as `sampleModule`, with a Memory import `env.m` and a
Global import `env.h` declared after `env.g`. -/
def sampleModuleBad : Module Byte Nat :=
  { sampleModule with
    ImportSec := some ⟨[⟨"env", "f", .Function, 0, 0⟩, ⟨"env", "t", .Table, 0, 0⟩,
      ⟨"env", "g", .Global, 0, 0⟩, ⟨"env", "m", .Memory, 0, 0⟩,
      ⟨"env", "h", .Global, 0, 0⟩]⟩ }

/-- Sample module: a Memory import `env.m` declared before a Global import `env.g`. -/
def memFirst : Module Byte Nat :=
  { ImportSec := some ⟨[⟨"env", "m", .Memory, 0, 0⟩, ⟨"env", "g", .Global, 0, 0⟩]⟩ }

/-- Sample module: a Global import `env.a`, then a Memory import `env.m`, then a
Global import `env.g`. -/
def globalFirst : Module Byte Nat :=
  { ImportSec := some ⟨[⟨"env", "a", .Global, 0, 0⟩, ⟨"env", "m", .Memory, 0, 0⟩,
      ⟨"env", "g", .Global, 0, 0⟩]⟩ }

/-- Sample provider over symbols `Nat`, `0` for the null symbol: it knows `env.m`
only. -/
def memLDMgr : LDMgr Nat where
  getSymbol name := if name = "env.m" then 9 else 0
  valid sym := sym != 0
  index sym I := sym + I
  deref sym := sym

/-- Sample module: a Global import `env.g` and a table section with no table. -/
def emptyTable : Module Byte Nat :=
  { ImportSec := some ⟨[⟨"env", "g", .Global, 0, 0⟩]⟩
    TableSec := some ⟨[]⟩ }

/-- Sample module: two tables bound to 50 and 60, one memory bound to 70. -/
def boundTable : Module Byte Nat :=
  { TableSec := some ⟨[⟨3, 50⟩, ⟨4, 60⟩]⟩
    MemorySec := some ⟨[⟨5, 70⟩]⟩ }

/-- Sample module: one type, two globals and two code segments, no symbol bound. -/
def declModule : Module Byte Nat :=
  { TypeSec := some ⟨[⟨5, 0⟩]⟩
    GlobalSec := some ⟨[⟨1, 0⟩, ⟨2, 0⟩]⟩
    CodeSec := some ⟨[⟨8, 0⟩, ⟨9, 0⟩]⟩ }

/-- Sample provider over symbols `Nat`: `globals` is 100, `types` is 200, `codes` is
300; the element `I` of `sym` is `sym + I`, and `deref` doubles a symbol. -/
def arrayLDMgr : LDMgr Nat where
  getSymbol name :=
    if name = "globals" then 100 else if name = "types" then 200
    else if name = "codes" then 300 else 0
  valid sym := sym != 0
  index sym I := sym + I
  deref sym := 2 * sym

/-- Sample module: a custom section that holds the byte 1. -/
def customMod : Module Byte Nat := { CustomSec := some ⟨[1]⟩ }

/-- Sample module: `customMod` after the header and the custom section `00 01 07`. -/
def customLoaded : Module Byte Nat :=
  { Magic := [0x00, 0x61, 0x73, 0x6D], Version := [0x01, 0x00, 0x00, 0x00],
    CustomSec := some ⟨[1, 7]⟩ }

/-- Sample provider that knows no symbol at all. -/
def emptyLDMgr : LDMgr Nat where
  getSymbol _ := 0
  valid sym := sym != 0
  index sym I := sym + I
  deref sym := sym

/-- The 8-byte header. -/
def header : List Byte := WasmMagic ++ WasmVersion

/-- The empty `Module` once a valid header is read into it. -/
def headerMod : Module Byte Nat := { Magic := WasmMagic, Version := WasmVersion }

/-- Sample stream: the header and the custom sections `00 02 05 06` and `00 01 09`. -/
def twoCustom : List Byte := header ++ [0x00, 2, 5, 6, 0x00, 1, 9]

/-- Sample stream: the header, a data count section declaring 5, and a
custom section that announces 9 bytes and holds none. -/
def cutCustom : List Byte := header ++ [0x0C, 5, 0x00, 9]

/-- `loadBinary` of an empty `Module` on the in-memory cursor over `bs`, with the
sample decoders. -/
def runSample (fuel : Nat) (bs : List Byte) :
    Option (Except ErrCode Unit × LoadState VecState Byte Nat) :=
  loadBinary (vecMgr 32) sampleLoaders fuel {} ⟨bs, 0⟩

section Vocabulary

variable {σ P Sym : Type}

/-- Whether the section member `k` of a module is non-null. -/
def Module.present (m : Module P Sym) : SecId → Bool
  | .CustomSec => m.CustomSec.isSome
  | .TypeSec => m.TypeSec.isSome
  | .ImportSec => m.ImportSec.isSome
  | .FunctionSec => m.FunctionSec.isSome
  | .TableSec => m.TableSec.isSome
  | .MemorySec => m.MemorySec.isSome
  | .GlobalSec => m.GlobalSec.isSome
  | .ExportSec => m.ExportSec.isSome
  | .StartSec => m.StartSec.isSome
  | .ElementSec => m.ElementSec.isSome
  | .CodeSec => m.CodeSec.isSome
  | .DataSec => m.DataSec.isSome
  | .DataCountSec => m.DataCountSec.isSome

/-- One iteration of the loop of `loadBinary` that reaches the `break` of its switch
arm: the tag byte is read and the decoder it selects succeeds. -/
def iterOk (M : FileMgr σ) (D : SectionLoaders σ P Sym) (st : LoadState σ P Sym) :
    Option (LoadState σ P Sym) :=
  match M.readByte st.Mgr with
  | (.ok b, s) =>
    match dispatch M D b ⟨st.Mod, s, st.Trace ++ [.readByte]⟩ with
    | (.ok _, st1) => some st1
    | (.error _, _) => none
  | (.error _, _) => none

/-- The loop state after `n` sections decoded with success, when there are `n`. -/
def iterN (M : FileMgr σ) (D : SectionLoaders σ P Sym) :
    Nat → LoadState σ P Sym → Option (LoadState σ P Sym)
  | 0, st => some st
  | n + 1, st => (iterOk M D st).bind (iterN M D n)

/-- The number of data segments of a module, an absent data section counting as
zero segments. -/
def dataSegments (m : Module P Sym) : Nat :=
  match m.DataSec with
  | some d => d.Content.length
  | none => 0

/-- The qualified name `toExportName(ModName + '.' + ExtName)` of a descriptor. -/
def FullName (toExportName : String → String) (d : ImportDesc P Sym) : String :=
  toExportName (d.ModName ++ "." ++ d.ExtName)

/-- A descriptor `loadCompiled` looks up (a Global or a Memory import) whose
qualified name the provider does not resolve. -/
def unresolved (toExportName : String → String) (L : LDMgr Sym) (d : ImportDesc P Sym) :
    Bool :=
  (d.ExtType == .Global || d.ExtType == .Memory) &&
    !L.valid (L.getSymbol (FullName toExportName d))

/-- The descriptor after a successful lookup: a Global or Memory import holds the
provider's symbol, a Function or Table import is left as it is. -/
def bindImport (toExportName : String → String) (L : LDMgr Sym) (d : ImportDesc P Sym) :
    ImportDesc P Sym :=
  match d.ExtType with
  | .Global => { d with Symbol := L.getSymbol (FullName toExportName d) }
  | .Memory => { d with Symbol := L.getSymbol (FullName toExportName d) }
  | _ => d

/-- The import descriptors of a module, none when the import section is absent. -/
def importDescs (m : Module P Sym) : List (ImportDesc P Sym) :=
  match m.ImportSec with
  | some sec => sec.Content
  | none => []

/-- The error `loadCompiled` returns for an unresolved descriptor. -/
def importError (d : ImportDesc P Sym) : ErrCode :=
  if d.ExtType = .Global then .InvalidGlobalIdx else .InvalidMemoryIdx

/-- The global section after the block `if (GlobalSec)`. -/
def bindGlobals (L : LDMgr Sym) (sec : Section (Decl P Sym)) : Section (Decl P Sym) :=
  if L.valid (L.getSymbol "globals") then
    ⟨setSymbols (fun I => L.index (L.getSymbol "globals") I) 0 sec.Content⟩
  else sec

/-- The type section after the block `if (TypeSec)`. -/
def bindTypes (L : LDMgr Sym) (sec : Section (Decl P Sym)) : Section (Decl P Sym) :=
  if L.valid (L.getSymbol "types") then
    ⟨setSymbols (fun I => L.deref (L.index (L.getSymbol "types") I)) 0 sec.Content⟩
  else sec

/-- The code section after the block `if (CodeSec)`. -/
def bindCodes (L : LDMgr Sym) (sec : Section (Decl P Sym)) : Section (Decl P Sym) :=
  if L.valid (L.getSymbol "codes") then
    ⟨setSymbols (fun I => L.deref (L.index (L.getSymbol "codes") I)) 0 sec.Content⟩
  else sec

/-- A non-empty section after `getContent().front()->setSymbol(sym)`. -/
def bindFront (sym : Sym) (sec : Section (Decl P Sym)) : Section (Decl P Sym) :=
  match sec.Content with
  | d :: rest => ⟨{ d with Symbol := sym } :: rest⟩
  | [] => sec

/-- The module a successful `loadCompiled` leaves, member by member. -/
def linked (toExportName : String → String) (L : LDMgr Sym) (m : Module P Sym) :
    Module P Sym :=
  { m with
    ImportSec := m.ImportSec.map (fun sec => ⟨sec.Content.map (bindImport toExportName L)⟩)
    GlobalSec := m.GlobalSec.map (bindGlobals L)
    TypeSec := m.TypeSec.map (bindTypes L)
    CodeSec := m.CodeSec.map (bindCodes L)
    TableSec := m.TableSec.map (bindFront (L.getSymbol "table"))
    MemorySec := m.MemorySec.map (bindFront (L.getSymbol "mem")) }

/-- Every present Table and Memory section holds at least one declaration. -/
def frontsExist (m : Module P Sym) : Bool :=
  (match m.TableSec with
   | some sec => !sec.Content.isEmpty
   | none => true) &&
  (match m.MemorySec with
   | some sec => !sec.Content.isEmpty
   | none => true)

/-- A custom section decoder that appends: what it reads and returns does not depend
on the section it is given, and it leaves the content that section holds in front
of the content it decodes. -/
def Appends (dec : Decoder σ CustomSection) : Prop :=
  ∀ c s, dec c s = ((dec {} s).1, ⟨c.Content ++ (dec {} s).2.1.Content⟩, (dec {} s).2.2)

/-- The type of the section that member `k` of a module points to. -/
def SecTy (P Sym : Type) : SecId → Type
  | .CustomSec => CustomSection
  | .TypeSec => Section (Decl P Sym)
  | .ImportSec => Section (ImportDesc P Sym)
  | .FunctionSec => Section P
  | .TableSec => Section (Decl P Sym)
  | .MemorySec => Section (Decl P Sym)
  | .GlobalSec => Section (Decl P Sym)
  | .ExportSec => Section P
  | .StartSec => Section P
  | .ElementSec => Section P
  | .CodeSec => Section (Decl P Sym)
  | .DataSec => Section P
  | .DataCountSec => DataCountSection

/-- The section member `k` of a module, `none` for null. -/
def Module.slot (m : Module P Sym) : (k : SecId) → Option (SecTy P Sym k)
  | .CustomSec => m.CustomSec
  | .TypeSec => m.TypeSec
  | .ImportSec => m.ImportSec
  | .FunctionSec => m.FunctionSec
  | .TableSec => m.TableSec
  | .MemorySec => m.MemorySec
  | .GlobalSec => m.GlobalSec
  | .ExportSec => m.ExportSec
  | .StartSec => m.StartSec
  | .ElementSec => m.ElementSec
  | .CodeSec => m.CodeSec
  | .DataSec => m.DataSec
  | .DataCountSec => m.DataCountSec

/-- The section `make_unique<X>()` constructs for member `k`. -/
def SecTy.empty : (k : SecId) → SecTy P Sym k
  | .CustomSec => ({} : CustomSection)
  | .TypeSec => ({} : Section (Decl P Sym))
  | .ImportSec => ({} : Section (ImportDesc P Sym))
  | .FunctionSec => ({} : Section P)
  | .TableSec => ({} : Section (Decl P Sym))
  | .MemorySec => ({} : Section (Decl P Sym))
  | .GlobalSec => ({} : Section (Decl P Sym))
  | .ExportSec => ({} : Section P)
  | .StartSec => ({} : Section P)
  | .ElementSec => ({} : Section P)
  | .CodeSec => ({} : Section (Decl P Sym))
  | .DataSec => ({} : Section P)
  | .DataCountSec => ({} : DataCountSection)

/-- The decoder the switch arm of member `k` calls. -/
def SectionLoaders.decoder (D : SectionLoaders σ P Sym) :
    (k : SecId) → Decoder σ (SecTy P Sym k)
  | .CustomSec => D.Custom
  | .TypeSec => D.Type_
  | .ImportSec => D.Import
  | .FunctionSec => D.Function
  | .TableSec => D.Table
  | .MemorySec => D.Memory
  | .GlobalSec => D.Global
  | .ExportSec => D.Export
  | .StartSec => D.Start
  | .ElementSec => D.Element
  | .CodeSec => D.Code
  | .DataSec => D.Data
  | .DataCountSec => D.DataCount

/-- A declaration without its bound symbol. -/
def Decl.decoded (d : Decl P Sym) : Decl P Unit := ⟨d.Body, ()⟩

/-- An import descriptor without its bound symbol. -/
def ImportDesc.decoded (d : ImportDesc P Sym) : ImportDesc P Unit :=
  ⟨d.ModName, d.ExtName, d.ExtType, d.Body, ()⟩

/-- A module without its bound symbols: the markers, the members that are present,
and in every section the declarations in their order with every decoded field. -/
def Module.decoded (m : Module P Sym) : Module P Unit :=
  { Magic := m.Magic
    Version := m.Version
    CustomSec := m.CustomSec
    TypeSec := m.TypeSec.map (fun sec => ⟨sec.Content.map Decl.decoded⟩)
    ImportSec := m.ImportSec.map (fun sec => ⟨sec.Content.map ImportDesc.decoded⟩)
    FunctionSec := m.FunctionSec
    TableSec := m.TableSec.map (fun sec => ⟨sec.Content.map Decl.decoded⟩)
    MemorySec := m.MemorySec.map (fun sec => ⟨sec.Content.map Decl.decoded⟩)
    GlobalSec := m.GlobalSec.map (fun sec => ⟨sec.Content.map Decl.decoded⟩)
    ExportSec := m.ExportSec
    StartSec := m.StartSec
    ElementSec := m.ElementSec
    CodeSec := m.CodeSec.map (fun sec => ⟨sec.Content.map Decl.decoded⟩)
    DataSec := m.DataSec
    DataCountSec := m.DataCountSec }

/-- The symbols bound to the Function and Table imports of a module, in declaration
order, `none` at the position of a Global or Memory import. -/
def passiveSymbols (m : Module P Sym) : List (Option Sym) :=
  (importDescs m).map (fun d =>
    match d.ExtType with
    | .Function => some d.Symbol
    | .Table => some d.Symbol
    | _ => none)

/-- Following the spec (section 6, "Remaining bytes: a sequence of (tag: u8,
payload: section-kind-specific encoding) entries"): the bytes of a sequence of
sections, each the tag byte of its member followed by its payload. -/
def encodeSections (entries : List (SecId × List Byte)) : List Byte :=
  entries.flatMap (fun e => e.1.tag :: e.2)

/-- Following the spec (section 6, "payload format is owned by each SectionDecoder"):
in the input `bs`, the entries stand one after the other from position `pos`, and
the payload of each entry is what the decoder of its tag consumes: called right
behind the tag byte, on whatever section, that decoder leaves the cursor on the same
input right behind the payload. -/
def payloadsAt (D : SectionLoaders VecState P Sym) (bs : List Byte) :
    Nat → List (SecId × List Byte) → Prop
  | _, [] => True
  | pos, e :: es =>
    (∀ sec : SecTy P Sym e.1,
      (D.decoder e.1 sec ⟨bs, pos + 1⟩).2.2 = ⟨bs, pos + 1 + e.2.length⟩) ∧
    payloadsAt D bs (pos + 1 + e.2.length) es

/-- Whether an event is a decoder call. -/
def Event.isDecode : Event → Bool
  | .decode _ => true
  | _ => false

/-- Decoders over the in-memory cursor that leave the input as it is and never move
the read position backwards. -/
def Forward (D : SectionLoaders VecState P Sym) : Prop :=
  ∀ (k : SecId) (sec : SecTy P Sym k) (s : VecState),
    (D.decoder k sec s).2.2.Code = s.Code ∧ s.Pos ≤ (D.decoder k sec s).2.2.Pos

end Vocabulary

/-! ## Shared lemmas -/

section Lemmas

variable {σ P Sym : Type}

theorem offSub_of_le {w a b : Nat} (hb : b ≤ a) (ha : a < 2 ^ w) :
    offSub w a b = a - b := by
  unfold offSub
  have hb2 : b < 2 ^ w := lt_of_le_of_lt hb ha
  rw [Nat.mod_eq_of_lt ha, Nat.mod_eq_of_lt hb2]
  have h1 : a + 2 ^ w - b = (a - b) + 2 ^ w := by omega
  rw [h1, Nat.add_mod_right]
  exact Nat.mod_eq_of_lt (by omega)

theorem offSub_mod {w a b : Nat} (hb : b ≤ a) :
    offSub w (a % 2 ^ w) b = (a - b) % 2 ^ w := by
  unfold offSub
  rw [Nat.mod_mod]
  have hpos : 0 < 2 ^ w := Nat.two_pow_pos w
  have hlt : b % 2 ^ w < 2 ^ w := Nat.mod_lt _ hpos
  have key : (a % 2 ^ w + 2 ^ w - b % 2 ^ w) ≡ (a - b) [MOD 2 ^ w] := by
    apply Nat.ModEq.add_right_cancel' b
    have e1 : a - b + b = a := Nat.sub_add_cancel hb
    rw [e1]
    calc a % 2 ^ w + 2 ^ w - b % 2 ^ w + b
        ≡ a % 2 ^ w + 2 ^ w - b % 2 ^ w + b % 2 ^ w [MOD 2 ^ w] :=
          Nat.ModEq.add_left _ (Nat.mod_modEq b _).symm
      _ = a % 2 ^ w + 2 ^ w := by omega
      _ ≡ a % 2 ^ w [MOD 2 ^ w] := by simp [Nat.ModEq]
      _ ≡ a [MOD 2 ^ w] := Nat.mod_modEq a _
  exact key

theorem dispatch_tag (M : FileMgr σ) (D : SectionLoaders σ P Sym) (k : SecId)
    (st : LoadState σ P Sym) : dispatch M D k.tag st = arm D k st := by
  cases k <;> rfl

theorem dispatch_default (M : FileMgr σ) (D : SectionLoaders σ P Sym) (b : Byte)
    (hb : 12 < b.val) (st : LoadState σ P Sym) :
    dispatch M D b st =
      (.error .InvalidGrammar,
        ⟨st.Mod, st.Mgr, st.Trace ++
          [.log (.Code .InvalidGrammar),
           .log (.InfoLoading (offSub M.offBits (M.getOffset st.Mgr) 1)),
           .log (.InfoAST .Module)]⟩) := by
  obtain ⟨n, hn⟩ : ∃ n, b.val = n + 13 := ⟨b.val - 13, by omega⟩
  unfold dispatch
  rw [hn]
  rfl

theorem tag_of_le (b : Byte) (hb : b.val ≤ 12) : ∃ k : SecId, k.tag = b := by
  obtain ⟨v, hv⟩ := b
  simp only at hb
  interval_cases v
  all_goals first
    | exact ⟨.CustomSec, rfl⟩ | exact ⟨.TypeSec, rfl⟩ | exact ⟨.ImportSec, rfl⟩
    | exact ⟨.FunctionSec, rfl⟩ | exact ⟨.TableSec, rfl⟩ | exact ⟨.MemorySec, rfl⟩
    | exact ⟨.GlobalSec, rfl⟩ | exact ⟨.ExportSec, rfl⟩ | exact ⟨.StartSec, rfl⟩
    | exact ⟨.ElementSec, rfl⟩ | exact ⟨.CodeSec, rfl⟩ | exact ⟨.DataSec, rfl⟩
    | exact ⟨.DataCountSec, rfl⟩

theorem loadSections_succ (M : FileMgr σ) (D : SectionLoaders σ P Sym) (fuel : Nat)
    (st : LoadState σ P Sym) :
    loadSections M D (fuel + 1) st =
      match M.readByte st.Mgr with
      | (.ok b, s) =>
        match dispatch M D b ⟨st.Mod, s, st.Trace ++ [.readByte]⟩ with
        | (.ok _, st1) => loadSections M D fuel st1
        | (.error e, st1) => some (.error e, st1)
      | (.error e, s) =>
        if e = .EndOfFile then
          some (.ok (), ⟨st.Mod, s, st.Trace ++ [.readByte]⟩)
        else
          some (.error e, ⟨st.Mod, s, st.Trace ++
            [.readByte, .log (.Code e), .log (.InfoLoading (M.getOffset s)),
             .log (.InfoAST .Module)]⟩) := rfl

theorem iterOk_some (M : FileMgr σ) (D : SectionLoaders σ P Sym)
    (st st1 : LoadState σ P Sym) (h : iterOk M D st = some st1) :
    ∃ b s, M.readByte st.Mgr = (.ok b, s) ∧
      dispatch M D b ⟨st.Mod, s, st.Trace ++ [.readByte]⟩ = (.ok (), st1) := by
  unfold iterOk at h
  rcases hrb : M.readByte st.Mgr with ⟨r, s⟩
  rw [hrb] at h
  cases r with
  | error e => simp at h
  | ok b =>
    simp only at h
    rcases hd : dispatch M D b ⟨st.Mod, s, st.Trace ++ [.readByte]⟩ with ⟨r2, st2⟩
    rw [hd] at h
    cases r2 with
    | error e => simp at h
    | ok u =>
      simp only [Option.some.injEq] at h
      exact ⟨b, s, rfl, by rw [hd, h]⟩

theorem loadSections_iterOk (M : FileMgr σ) (D : SectionLoaders σ P Sym) (fuel : Nat)
    (st st1 : LoadState σ P Sym) (h : iterOk M D st = some st1) :
    loadSections M D (fuel + 1) st = loadSections M D fuel st1 := by
  obtain ⟨b, s, hrb, hd⟩ := iterOk_some M D st st1 h
  rw [loadSections_succ, hrb]
  simp only
  rw [hd]

theorem loadSections_iterN (M : FileMgr σ) (D : SectionLoaders σ P Sym) (fuel : Nat) :
    ∀ (n : Nat) (st0 st : LoadState σ P Sym), iterN M D n st0 = some st →
      loadSections M D (n + fuel) st0 = loadSections M D fuel st := by
  intro n
  induction n with
  | zero =>
    intro st0 st h
    simp only [iterN, Option.some.injEq] at h
    simp [h]
  | succ n ih =>
    intro st0 st h
    simp only [iterN] at h
    cases hi : iterOk M D st0 with
    | none => simp [hi] at h
    | some st1 =>
      rw [hi] at h
      simp only [Option.some_bind] at h
      have hf : n + 1 + fuel = (n + fuel) + 1 := by omega
      rw [hf, loadSections_iterOk M D (n + fuel) st0 st1 hi]
      exact ih st1 st h

theorem loadBinary_of_header (M : FileMgr σ) (D : SectionLoaders σ P Sym) (fuel : Nat)
    (m : Module P Sym) (s : σ) (st0 : LoadState σ P Sym)
    (hh : loadHeader M m s = (.ok (), st0)) :
    loadBinary M D fuel m s =
      match loadSections M D fuel st0 with
      | none => none
      | some (.error e, st1) => some (.error e, st1)
      | some (.ok _, st1) => some (checkDataCount st1) := by
  unfold loadBinary
  rw [hh]

theorem vec_readBytes (w n : Nat) (s : VecState) (h : s.Pos + n ≤ s.Code.length) :
    (vecMgr w).readBytes n s = (.ok ((s.Code.drop s.Pos).take n), ⟨s.Code, s.Pos + n⟩) := by
  simp [vecMgr, h]

theorem vec_readBytes_short (w n : Nat) (s : VecState) (h : s.Code.length < s.Pos + n) :
    (vecMgr w).readBytes n s = (.error .EndOfFile, s) := by
  simp [vecMgr, Nat.not_le.mpr h]

theorem unresolved_false_iff (X : String → String) (L : LDMgr Sym) (d : ImportDesc P Sym) :
    unresolved X L d = false ↔
      ((d.ExtType = .Global ∨ d.ExtType = .Memory) →
        L.valid (L.getSymbol (FullName X d)) = true) := by
  unfold unresolved
  cases d.ExtType <;> cases L.valid (L.getSymbol (FullName X d)) <;> simp

theorem linkImports_ok (X : String → String) (L : LDMgr Sym) :
    ∀ ds : List (ImportDesc P Sym), (∀ d ∈ ds, unresolved X L d = false) →
      linkImports X L ds = (.ok (), ds.map (bindImport X L), []) := by
  intro ds
  induction ds with
  | nil => intro _; rfl
  | cons d ds ih =>
    intro h
    have hd := (unresolved_false_iff X L d).1 (h d (List.mem_cons_self _ _))
    have ih2 := ih (fun x hx => h x (List.mem_cons_of_mem _ hx))
    unfold linkImports
    cases ht : d.ExtType with
    | Function => simp [ih2, bindImport, ht]
    | Table => simp [ih2, bindImport, ht]
    | Global =>
      have hv := hd (Or.inl ht)
      unfold FullName at hv
      simp [ih2, bindImport, ht, hv, FullName]
    | Memory =>
      have hv := hd (Or.inr ht)
      unfold FullName at hv
      simp [ih2, bindImport, ht, hv, FullName]

theorem linkImports_fst (X : String → String) (L : LDMgr Sym) :
    ∀ ds : List (ImportDesc P Sym),
      (linkImports X L ds).1 =
        match ds.find? (unresolved X L) with
        | none => .ok ()
        | some d => .error (importError d) := by
  intro ds
  induction ds with
  | nil => rfl
  | cons d ds ih =>
    unfold linkImports
    cases ht : d.ExtType with
    | Function =>
      have hu : unresolved X L d = false := by simp [unresolved, ht]
      simp [List.find?, hu, ih]
    | Table =>
      have hu : unresolved X L d = false := by simp [unresolved, ht]
      simp [List.find?, hu, ih]
    | Global =>
      cases hv : L.valid (L.getSymbol (X (d.ModName ++ "." ++ d.ExtName))) with
      | true =>
        have hu : unresolved X L d = false := by simp [unresolved, FullName, hv]
        simp [List.find?, hu, ih, hv]
      | false =>
        have hu : unresolved X L d = true := by simp [unresolved, FullName, hv, ht]
        simp [List.find?, hu, importError, ht, hv]
    | Memory =>
      cases hv : L.valid (L.getSymbol (X (d.ModName ++ "." ++ d.ExtName))) with
      | true =>
        have hu : unresolved X L d = false := by simp [unresolved, FullName, hv]
        simp [List.find?, hu, ih, hv]
      | false =>
        have hu : unresolved X L d = true := by simp [unresolved, FullName, hv, ht]
        simp [List.find?, hu, importError, ht, hv]

theorem linkImportSec_fst (X : String → String) (L : LDMgr Sym) (m : Module P Sym) :
    (linkImportSec X L m).1 =
      match (importDescs m).find? (unresolved X L) with
      | none => .ok ()
      | some d => .error (importError d) := by
  unfold linkImportSec importDescs
  cases h : m.ImportSec with
  | none => rfl
  | some sec => simp [linkImports_fst]

theorem linkImportSec_ok (X : String → String) (L : LDMgr Sym) (m : Module P Sym)
    (h : ∀ d ∈ importDescs m, unresolved X L d = false) :
    linkImportSec X L m =
      (.ok (),
        { m with
          ImportSec := m.ImportSec.map (fun sec => ⟨sec.Content.map (bindImport X L)⟩) },
        []) := by
  unfold linkImportSec
  unfold importDescs at h
  cases hs : m.ImportSec with
  | none => cases m; simp_all
  | some sec =>
    rw [hs] at h
    simp [linkImports_ok X L sec.Content h]

theorem linkGlobalSec_eq (L : LDMgr Sym) (m : Module P Sym) :
    linkGlobalSec L m = { m with GlobalSec := m.GlobalSec.map (bindGlobals L) } := by
  unfold linkGlobalSec bindGlobals
  cases hs : m.GlobalSec with
  | none => cases m; simp_all
  | some sec =>
    by_cases hv : L.valid (L.getSymbol "globals") = true
    · simp [hv]
    · cases m; simp_all

theorem linkTypeSec_eq (L : LDMgr Sym) (m : Module P Sym) :
    linkTypeSec L m = { m with TypeSec := m.TypeSec.map (bindTypes L) } := by
  unfold linkTypeSec bindTypes
  cases hs : m.TypeSec with
  | none => cases m; simp_all
  | some sec =>
    by_cases hv : L.valid (L.getSymbol "types") = true
    · simp [hv]
    · cases m; simp_all

theorem linkCodeSec_eq (L : LDMgr Sym) (m : Module P Sym) :
    linkCodeSec L m = { m with CodeSec := m.CodeSec.map (bindCodes L) } := by
  unfold linkCodeSec bindCodes
  cases hs : m.CodeSec with
  | none => cases m; simp_all
  | some sec =>
    by_cases hv : L.valid (L.getSymbol "codes") = true
    · simp [hv]
    · cases m; simp_all

theorem linkTableSec_eq (L : LDMgr Sym) (m : Module P Sym)
    (h : ∀ sec, m.TableSec = some sec → sec.Content ≠ []) :
    linkTableSec L m =
      some { m with TableSec := m.TableSec.map (bindFront (L.getSymbol "table")) } := by
  unfold linkTableSec bindFront
  cases hs : m.TableSec with
  | none => cases m; simp_all
  | some sec =>
    have hne := h sec hs
    cases hc : sec.Content with
    | nil => exact absurd hc hne
    | cons d rest => simp [hc]

theorem linkTableSec_none (L : LDMgr Sym) (sec : Section (Decl P Sym))
    (hc : sec.Content = []) (m : Module P Sym) (hs : m.TableSec = some sec) :
    linkTableSec L m = none := by
  unfold linkTableSec
  simp [hs, hc]

theorem linkMemorySec_eq (L : LDMgr Sym) (m : Module P Sym)
    (h : ∀ sec, m.MemorySec = some sec → sec.Content ≠ []) :
    linkMemorySec L m =
      some { m with MemorySec := m.MemorySec.map (bindFront (L.getSymbol "mem")) } := by
  unfold linkMemorySec bindFront
  cases hs : m.MemorySec with
  | none => cases m; simp_all
  | some sec =>
    have hne := h sec hs
    cases hc : sec.Content with
    | nil => exact absurd hc hne
    | cons d rest => simp [hc]

theorem linkMemorySec_none (L : LDMgr Sym) (sec : Section (Decl P Sym))
    (hc : sec.Content = []) (m : Module P Sym) (hs : m.MemorySec = some sec) :
    linkMemorySec L m = none := by
  unfold linkMemorySec
  simp [hs, hc]

theorem frontsExist_iff (m : Module P Sym) :
    frontsExist m = true ↔
      (∀ sec, m.TableSec = some sec → sec.Content ≠ []) ∧
      (∀ sec, m.MemorySec = some sec → sec.Content ≠ []) := by
  unfold frontsExist
  cases m.TableSec <;> cases m.MemorySec <;> simp [List.isEmpty_iff]

/-- A successful `loadCompiled` leaves the module `linked`, and logs nothing. -/
theorem loadCompiled_ok (X : String → String) (L : LDMgr Sym) (m : Module P Sym)
    (hres : ∀ d ∈ importDescs m, unresolved X L d = false) (hfe : frontsExist m = true) :
    loadCompiled X L m = some (.ok (), linked X L m, []) := by
  have hf := (frontsExist_iff m).1 hfe
  unfold loadCompiled
  rw [linkImportSec_ok X L m hres]
  simp only
  rw [linkGlobalSec_eq, linkTypeSec_eq, linkCodeSec_eq, linkTableSec_eq L]
  · simp only
    rw [linkMemorySec_eq L]
    · rfl
    · exact hf.2
  · exact hf.1

/-- When an import is unresolved, `loadCompiled` fails with the error of the first. -/
theorem loadCompiled_unresolved (X : String → String) (L : LDMgr Sym) (m : Module P Sym)
    (d : ImportDesc P Sym) (hd : (importDescs m).find? (unresolved X L) = some d) :
    ∃ m1 l, loadCompiled X L m = some (.error (importError d), m1, l) := by
  have h1 := linkImportSec_fst X L m
  rw [hd] at h1
  simp only at h1
  unfold loadCompiled
  rcases hr : linkImportSec X L m with ⟨r, m1, l⟩
  rw [hr] at h1
  simp only at h1
  subst h1
  exact ⟨m1, l, rfl⟩

/-- What a successful `loadCompiled` tells about its input. -/
theorem loadCompiled_ok_inv (X : String → String) (L : LDMgr Sym) (m m1 : Module P Sym)
    (l : List LogEntry) (h : loadCompiled X L m = some (.ok (), m1, l)) :
    (∀ d ∈ importDescs m, unresolved X L d = false) ∧ frontsExist m = true ∧
      m1 = linked X L m ∧ l = [] := by
  have hres : ∀ d ∈ importDescs m, unresolved X L d = false := by
    cases hfind : (importDescs m).find? (unresolved X L) with
    | some d =>
      obtain ⟨m2, l2, h2⟩ := loadCompiled_unresolved X L m d hfind
      rw [h2] at h
      simp at h
    | none =>
      intro d hd
      have := List.find?_eq_none.1 hfind d hd
      simpa using this
  have hT : ∀ sec, m.TableSec = some sec → sec.Content ≠ [] := by
    intro sec hs hc
    unfold loadCompiled at h
    rw [linkImportSec_ok X L m hres] at h
    simp only at h
    rw [linkGlobalSec_eq, linkTypeSec_eq, linkCodeSec_eq, linkTableSec_none L sec hc] at h
    · simp at h
    · exact hs
  have hM : ∀ sec, m.MemorySec = some sec → sec.Content ≠ [] := by
    intro sec hs hc
    unfold loadCompiled at h
    rw [linkImportSec_ok X L m hres] at h
    simp only at h
    rw [linkGlobalSec_eq, linkTypeSec_eq, linkCodeSec_eq, linkTableSec_eq L] at h
    · simp only at h
      rw [linkMemorySec_none L sec hc] at h
      · simp at h
      · exact hs
    · exact hT
  have hfe := (frontsExist_iff m).2 ⟨hT, hM⟩
  have hok := loadCompiled_ok X L m hres hfe
  rw [hok] at h
  simp only [Option.some.injEq, Prod.mk.injEq, true_and] at h
  exact ⟨hres, hfe, h.1.symm, h.2.symm⟩

theorem find?_first {α : Type} (p : α → Bool) (pre : List α) (d : α) (post : List α)
    (hpre : ∀ x ∈ pre, p x = false) (hd : p d = true) :
    (pre ++ d :: post).find? p = some d := by
  induction pre with
  | nil => simp [List.find?, hd]
  | cons x xs ih =>
    have hx := hpre x (List.mem_cons_self _ _)
    simp only [List.cons_append, List.find?, hx]
    exact ih (fun y hy => hpre y (List.mem_cons_of_mem _ hy))

theorem find?_split {α : Type} (p : α → Bool) :
    ∀ (l : List α) (d : α), l.find? p = some d →
      ∃ pre post, l = pre ++ d :: post ∧ (∀ x ∈ pre, p x = false) ∧ p d = true := by
  intro l
  induction l with
  | nil => intro d h; simp at h
  | cons x xs ih =>
    intro d h
    cases hx : p x with
    | true =>
      simp only [List.find?, hx, Option.some.injEq] at h
      subst h
      exact ⟨[], xs, rfl, by simp, hx⟩
    | false =>
      simp only [List.find?, hx] at h
      obtain ⟨pre, post, e, hpre, hd⟩ := ih d h
      refine ⟨x :: pre, post, by simp [e], ?_, hd⟩
      intro y hy
      rcases List.mem_cons.1 hy with rfl | hy
      · exact hx
      · exact hpre y hy

theorem find?_append_cons {α : Type} (p : α → Bool) (d : α) (post : List α)
    (hd : p d = true) :
    ∀ (pre : List α) (d0 : α), (pre ++ d :: post).find? p = some d0 → d0 = d ∨ d0 ∈ pre := by
  intro pre
  induction pre with
  | nil =>
    intro d0 h
    simp only [List.nil_append, List.find?, hd, Option.some.injEq] at h
    exact Or.inl h.symm
  | cons x xs ih =>
    intro d0 h
    cases hx : p x with
    | true =>
      simp only [List.cons_append, List.find?, hx, Option.some.injEq] at h
      exact Or.inr (by rw [← h]; exact List.mem_cons_self _ _)
    | false =>
      simp only [List.cons_append, List.find?, hx] at h
      rcases ih d0 h with h1 | h1
      · exact Or.inl h1
      · exact Or.inr (List.mem_cons_of_mem _ h1)

theorem setSymbols_idem (f : Nat → Sym) :
    ∀ (ds : List (Decl P Sym)) (I : Nat),
      setSymbols f I (setSymbols f I ds) = setSymbols f I ds := by
  intro ds
  induction ds with
  | nil => intro I; rfl
  | cons d ds ih => intro I; simp [setSymbols, ih]

theorem bindImport_idem (X : String → String) (L : LDMgr Sym) (d : ImportDesc P Sym) :
    bindImport X L (bindImport X L d) = bindImport X L d := by
  unfold bindImport
  cases h : d.ExtType <;> simp [h, FullName]

theorem unresolved_bindImport (X : String → String) (L : LDMgr Sym) (d : ImportDesc P Sym) :
    unresolved X L (bindImport X L d) = unresolved X L d := by
  unfold bindImport
  cases h : d.ExtType <;> simp [h, unresolved, FullName]

theorem bindFront_idem (sym : Sym) (sec : Section (Decl P Sym)) :
    bindFront sym (bindFront sym sec) = bindFront sym sec := by
  unfold bindFront
  cases h : sec.Content <;> simp [h]

theorem bindGlobals_idem (L : LDMgr Sym) (sec : Section (Decl P Sym)) :
    bindGlobals L (bindGlobals L sec) = bindGlobals L sec := by
  unfold bindGlobals
  by_cases hv : L.valid (L.getSymbol "globals") = true
  · simp [hv, setSymbols_idem]
  · simp [hv]

theorem bindTypes_idem (L : LDMgr Sym) (sec : Section (Decl P Sym)) :
    bindTypes L (bindTypes L sec) = bindTypes L sec := by
  unfold bindTypes
  by_cases hv : L.valid (L.getSymbol "types") = true
  · simp [hv, setSymbols_idem]
  · simp [hv]

theorem bindCodes_idem (L : LDMgr Sym) (sec : Section (Decl P Sym)) :
    bindCodes L (bindCodes L sec) = bindCodes L sec := by
  unfold bindCodes
  by_cases hv : L.valid (L.getSymbol "codes") = true
  · simp [hv, setSymbols_idem]
  · simp [hv]

theorem option_map_idem {α : Type} (f : α → α) (hf : ∀ x, f (f x) = f x) (o : Option α) :
    (o.map f).map f = o.map f := by
  cases o <;> simp [hf]

theorem linked_idem (X : String → String) (L : LDMgr Sym) (m : Module P Sym) :
    linked X L (linked X L m) = linked X L m := by
  unfold linked
  simp only
  rw [option_map_idem _ (bindGlobals_idem L), option_map_idem _ (bindTypes_idem L),
    option_map_idem _ (bindCodes_idem L), option_map_idem _ (bindFront_idem _),
    option_map_idem _ (bindFront_idem _), option_map_idem _ ?_]
  intro sec
  simp [bindImport_idem]

theorem importDescs_linked (X : String → String) (L : LDMgr Sym) (m : Module P Sym) :
    (importDescs m).map (bindImport X L) = importDescs (linked X L m) := by
  unfold importDescs linked
  cases m.ImportSec <;> simp

theorem frontsExist_linked (X : String → String) (L : LDMgr Sym) (m : Module P Sym)
    (h : frontsExist m = true) : frontsExist (linked X L m) = true := by
  unfold frontsExist linked at *
  simp only
  cases hT : m.TableSec with
  | none =>
    cases hM : m.MemorySec with
    | none => simp
    | some sm =>
      rw [hT, hM] at h
      cases hc : sm.Content <;> simp_all [bindFront]
  | some stb =>
    cases hM : m.MemorySec with
    | none =>
      rw [hT, hM] at h
      cases hc : stb.Content <;> simp_all [bindFront]
    | some sm =>
      rw [hT, hM] at h
      cases hc : stb.Content <;> cases hc2 : sm.Content <;> simp_all [bindFront]

theorem sampleCustom_appends : Appends sampleCustom := by
  intro c s
  unfold sampleCustom
  rcases h : readSized s with ⟨r, s1⟩
  cases r <;> simp

theorem vec_loadHeader (w : Nat) (m : Module P Sym) (rest : List Byte) :
    loadHeader (vecMgr w) m ⟨header ++ rest, 0⟩ =
      (.ok (), ⟨{ m with Magic := WasmMagic, Version := WasmVersion },
        ⟨header ++ rest, 8⟩, [.readBytes 4, .readBytes 4]⟩) := by
  simp [loadHeader, vecMgr, header, WasmMagic, WasmVersion]

theorem linkImports_split (X : String → String) (L : LDMgr Sym) (d : ImportDesc P Sym)
    (post : List (ImportDesc P Sym)) (hd : unresolved X L d = true) :
    ∀ pre : List (ImportDesc P Sym), (∀ x ∈ pre, unresolved X L x = false) →
      linkImports X L (pre ++ d :: post) =
        (.error (importError d), pre.map (bindImport X L) ++ d :: post,
          [.Code (importError d), .InfoAST .Desc_Import, .InfoAST .Sec_Import,
           .InfoAST .Module]) := by
  intro pre
  induction pre with
  | nil =>
    intro _
    have hv : L.valid (L.getSymbol (X (d.ModName ++ "." ++ d.ExtName))) = false := by
      cases ht : d.ExtType <;> simp_all [unresolved, FullName]
    simp only [List.nil_append, List.map_nil]
    unfold linkImports
    cases ht : d.ExtType with
    | Function => simp [unresolved, ht] at hd
    | Table => simp [unresolved, ht] at hd
    | Global => simp [hv, importError, ht]
    | Memory => simp [hv, importError, ht]
  | cons x xs ih =>
    intro h
    have hx := (unresolved_false_iff X L x).1 (h x (List.mem_cons_self _ _))
    have ih2 := ih (fun y hy => h y (List.mem_cons_of_mem _ hy))
    simp only [List.cons_append, List.map_cons]
    unfold linkImports
    cases ht : x.ExtType with
    | Function => simp [ih2, bindImport, ht]
    | Table => simp [ih2, bindImport, ht]
    | Global =>
      have hv := hx (Or.inl ht)
      unfold FullName at hv
      simp [ih2, bindImport, ht, hv, FullName]
    | Memory =>
      have hv := hx (Or.inr ht)
      unfold FullName at hv
      simp [ih2, bindImport, ht, hv, FullName]

theorem bindImport_decoded (X : String → String) (L : LDMgr Sym) (d : ImportDesc P Sym) :
    (bindImport X L d).decoded = d.decoded := by
  unfold bindImport
  cases h : d.ExtType <;> simp [h, ImportDesc.decoded]

theorem setSymbols_decoded (f : Nat → Sym) :
    ∀ (ds : List (Decl P Sym)) (I : Nat),
      (setSymbols f I ds).map Decl.decoded = ds.map Decl.decoded := by
  intro ds
  induction ds with
  | nil => intro I; rfl
  | cons d ds ih => intro I; simp [setSymbols, ih, Decl.decoded]

theorem setSymbols_getElem? (f : Nat → Sym) :
    ∀ (ds : List (Decl P Sym)) (I i : Nat),
      (setSymbols f I ds)[i]? = (ds[i]?).map (fun d => { d with Symbol := f (I + i) }) := by
  intro ds
  induction ds with
  | nil => intro I i; simp [setSymbols]
  | cons d ds ih =>
    intro I i
    cases i with
    | zero => simp [setSymbols]
    | succ i =>
      simp only [setSymbols, List.getElem?_cons_succ, ih]
      have e : I + 1 + i = I + (i + 1) := by omega
      rw [e]

theorem bindFront_decoded (sym : Sym) (sec : Section (Decl P Sym)) :
    (bindFront sym sec).Content.map Decl.decoded = sec.Content.map Decl.decoded := by
  unfold bindFront
  cases h : sec.Content <;> simp [h, Decl.decoded]

theorem linked_decoded (X : String → String) (L : LDMgr Sym) (m : Module P Sym) :
    (linked X L m).decoded = m.decoded := by
  unfold linked Module.decoded
  simp only [Option.map_map]
  have hI : (fun sec : Section (ImportDesc P Sym) =>
      (⟨sec.Content.map ImportDesc.decoded⟩ : Section (ImportDesc P Unit))) ∘
      (fun sec : Section (ImportDesc P Sym) =>
        (⟨sec.Content.map (bindImport X L)⟩ : Section (ImportDesc P Sym))) =
      fun sec => ⟨sec.Content.map ImportDesc.decoded⟩ := by
    funext sec
    simp [Function.comp, bindImport_decoded]
  have hG : (fun sec : Section (Decl P Sym) =>
      (⟨sec.Content.map Decl.decoded⟩ : Section (Decl P Unit))) ∘ bindGlobals L =
      fun sec => ⟨sec.Content.map Decl.decoded⟩ := by
    funext sec
    unfold bindGlobals
    by_cases hv : L.valid (L.getSymbol "globals") = true <;>
      simp [Function.comp, hv, setSymbols_decoded]
  have hT : (fun sec : Section (Decl P Sym) =>
      (⟨sec.Content.map Decl.decoded⟩ : Section (Decl P Unit))) ∘ bindTypes L =
      fun sec => ⟨sec.Content.map Decl.decoded⟩ := by
    funext sec
    unfold bindTypes
    by_cases hv : L.valid (L.getSymbol "types") = true <;>
      simp [Function.comp, hv, setSymbols_decoded]
  have hC : (fun sec : Section (Decl P Sym) =>
      (⟨sec.Content.map Decl.decoded⟩ : Section (Decl P Unit))) ∘ bindCodes L =
      fun sec => ⟨sec.Content.map Decl.decoded⟩ := by
    funext sec
    unfold bindCodes
    by_cases hv : L.valid (L.getSymbol "codes") = true <;>
      simp [Function.comp, hv, setSymbols_decoded]
  have hF : ∀ sym : Sym, (fun sec : Section (Decl P Sym) =>
      (⟨sec.Content.map Decl.decoded⟩ : Section (Decl P Unit))) ∘ bindFront sym =
      fun sec => ⟨sec.Content.map Decl.decoded⟩ := by
    intro sym
    funext sec
    simp [Function.comp, bindFront_decoded]
  rw [hI, hG, hT, hC, hF, hF]

theorem linkImports_decoded (X : String → String) (L : LDMgr Sym) :
    ∀ ds : List (ImportDesc P Sym),
      (linkImports X L ds).2.1.map ImportDesc.decoded = ds.map ImportDesc.decoded := by
  intro ds
  induction ds with
  | nil => rfl
  | cons d ds ih =>
    unfold linkImports
    cases ht : d.ExtType with
    | Function => simp [ih]
    | Table => simp [ih]
    | Global =>
      by_cases hv : L.valid (L.getSymbol (X (d.ModName ++ "." ++ d.ExtName))) = true
      · simp [hv, ih, ImportDesc.decoded, ht]
      · simp [hv]
    | Memory =>
      by_cases hv : L.valid (L.getSymbol (X (d.ModName ++ "." ++ d.ExtName))) = true
      · simp [hv, ih, ImportDesc.decoded, ht]
      · simp [hv]

/-- The symbol a Function or Table import holds, `none` for another import. -/
theorem linkImports_passive (X : String → String) (L : LDMgr Sym)
    (g : ImportDesc P Sym → Option Sym)
    (hg : ∀ d sym, d.ExtType = .Global ∨ d.ExtType = .Memory →
      g { d with Symbol := sym } = g d) :
    ∀ ds : List (ImportDesc P Sym), (linkImports X L ds).2.1.map g = ds.map g := by
  intro ds
  induction ds with
  | nil => rfl
  | cons d ds ih =>
    unfold linkImports
    cases ht : d.ExtType with
    | Function => simp [ih]
    | Table => simp [ih]
    | Global =>
      by_cases hv : L.valid (L.getSymbol (X (d.ModName ++ "." ++ d.ExtName))) = true
      · have := hg d (L.getSymbol (X (d.ModName ++ "." ++ d.ExtName))) (Or.inl ht)
        rw [ht] at this
        simp [hv, ih, this]
      · simp [hv]
    | Memory =>
      by_cases hv : L.valid (L.getSymbol (X (d.ModName ++ "." ++ d.ExtName))) = true
      · have := hg d (L.getSymbol (X (d.ModName ++ "." ++ d.ExtName))) (Or.inr ht)
        rw [ht] at this
        simp [hv, ih, this]
      · simp [hv]

theorem loadCompiled_cases (X : String → String) (L : LDMgr Sym) (m m1 : Module P Sym)
    (r : Except ErrCode Unit) (l : List LogEntry)
    (h : loadCompiled X L m = some (r, m1, l)) :
    (r = .ok () ∧ m1 = linked X L m ∧ l = []) ∨
      (∃ e, r = .error e ∧ linkImportSec X L m = (.error e, m1, l)) := by
  cases r with
  | ok u =>
    left
    obtain ⟨_, _, h1, h2⟩ := loadCompiled_ok_inv X L m m1 l h
    exact ⟨rfl, h1, h2⟩
  | error e =>
    right
    refine ⟨e, rfl, ?_⟩
    unfold loadCompiled at h
    rcases hr : linkImportSec X L m with ⟨r0, m0, l0⟩
    rw [hr] at h
    cases r0 with
    | error e0 =>
      simp only [Option.some.injEq, Prod.mk.injEq, Except.error.injEq] at h
      obtain ⟨h1, h2, h3⟩ := h
      rw [h1, h2, h3]
    | ok u =>
      simp only at h
      split at h
      · cases h
      · split at h
        · cases h
        · simp at h

theorem loadSec_fst (D : SectionLoaders σ P Sym) (k : SecId) (m : Module P Sym) (s : σ) :
    (loadSec D k m s).1 = (D.decoder k ((m.slot k).getD (SecTy.empty k)) s).1 := by
  cases k <;> rfl

theorem loadSec_mgr (D : SectionLoaders σ P Sym) (k : SecId) (m : Module P Sym) (s : σ) :
    (loadSec D k m s).2.2 = (D.decoder k ((m.slot k).getD (SecTy.empty k)) s).2.2 := by
  cases k <;> rfl

theorem loadSec_slot_self (D : SectionLoaders σ P Sym) (k : SecId) (m : Module P Sym)
    (s : σ) :
    (loadSec D k m s).2.1.slot k =
      some (D.decoder k ((m.slot k).getD (SecTy.empty k)) s).2.1 := by
  cases k <;> rfl

theorem loadSec_slot_other (D : SectionLoaders σ P Sym) (k j : SecId) (hjk : j ≠ k)
    (m : Module P Sym) (s : σ) : (loadSec D k m s).2.1.slot j = m.slot j := by
  cases k <;> cases j <;> first | rfl | exact absurd rfl hjk

theorem loadSec_markers (D : SectionLoaders σ P Sym) (k : SecId) (m : Module P Sym)
    (s : σ) :
    (loadSec D k m s).2.1.Magic = m.Magic ∧ (loadSec D k m s).2.1.Version = m.Version := by
  cases k <;> exact ⟨rfl, rfl⟩

theorem present_eq_slot (m : Module P Sym) (k : SecId) :
    m.present k = (m.slot k).isSome := by
  cases k <;> rfl

theorem arm_eq (D : SectionLoaders σ P Sym) (k : SecId) (st : LoadState σ P Sym) :
    arm D k st =
      ((loadSec D k st.Mod st.Mgr).1,
        ⟨(loadSec D k st.Mod st.Mgr).2.1, (loadSec D k st.Mod st.Mgr).2.2,
          st.Trace ++ .decode k ::
            (match (loadSec D k st.Mod st.Mgr).1 with
             | .ok _ => []
             | .error _ => [.log (.InfoAST .Module)])⟩) := by
  unfold arm
  rcases hls : loadSec D k st.Mod st.Mgr with ⟨r, m1, s1⟩
  cases r <;> simp

theorem loadHeader_ok_inv (M : FileMgr σ) (m : Module P Sym) (s : σ)
    (st0 : LoadState σ P Sym) (h : loadHeader M m s = (.ok (), st0)) :
    ∃ s1, M.readBytes 4 s = (.ok WasmMagic, s1) ∧
      M.readBytes 4 s1 = (.ok WasmVersion, st0.Mgr) ∧
      st0.Mod = { m with Magic := WasmMagic, Version := WasmVersion } ∧
      st0.Trace = [.readBytes 4, .readBytes 4] := by
  unfold loadHeader at h
  rcases h1 : M.readBytes 4 s with ⟨r1, s1⟩
  rw [h1] at h
  cases r1 with
  | error e => simp at h
  | ok Res =>
    simp only at h
    by_cases hm : Res = WasmMagic
    · subst hm
      simp only [ne_eq, not_true_eq_false, if_false] at h
      rcases h2 : M.readBytes 4 s1 with ⟨r2, s2⟩
      rw [h2] at h
      cases r2 with
      | error e => simp at h
      | ok Res2 =>
        simp only at h
        by_cases hv : Res2 = WasmVersion
        · subst hv
          simp only [ne_eq, not_true_eq_false, if_false, Prod.mk.injEq, true_and] at h
          subst h
          exact ⟨s1, rfl, h2, rfl, rfl⟩
        · simp [hv] at h
    · simp [hm] at h

theorem loadHeader_error_inv (M : FileMgr σ) (m : Module P Sym) (s : σ) (e : ErrCode)
    (st : LoadState σ P Sym) (h : loadHeader M m s = (.error e, st)) :
    (∀ k, st.Mod.slot k = m.slot k) ∧
      ∃ ls : List LogEntry, st.Trace = .readBytes 4 :: ls.map Event.log ∨
        st.Trace = .readBytes 4 :: .readBytes 4 :: ls.map Event.log := by
  unfold loadHeader at h
  rcases h1 : M.readBytes 4 s with ⟨r1, s1⟩
  rw [h1] at h
  cases r1 with
  | error e1 =>
    simp only [Prod.mk.injEq] at h
    obtain ⟨_, h⟩ := h
    subst h
    exact ⟨fun k => rfl, [_, _, _], Or.inl rfl⟩
  | ok Res =>
    simp only at h
    by_cases hm : Res = WasmMagic
    · subst hm
      simp only [ne_eq, not_true_eq_false, if_false] at h
      rcases h2 : M.readBytes 4 s1 with ⟨r2, s2⟩
      rw [h2] at h
      cases r2 with
      | error e2 =>
        simp only [Prod.mk.injEq] at h
        obtain ⟨_, h⟩ := h
        subst h
        exact ⟨fun k => by cases k <;> rfl, [_, _, _], Or.inr rfl⟩
      | ok Res2 =>
        simp only at h
        by_cases hv : Res2 = WasmVersion
        · simp [hv] at h
        · simp only [ne_eq, hv, not_false_eq_true, if_true, Prod.mk.injEq] at h
          obtain ⟨_, h⟩ := h
          subst h
          exact ⟨fun k => by cases k <;> rfl, [_, _, _], Or.inr rfl⟩
    · simp only [ne_eq, hm, not_false_eq_true, if_true, Prod.mk.injEq] at h
      obtain ⟨_, h⟩ := h
      subst h
      exact ⟨fun k => by cases k <;> rfl, [_, _, _], Or.inl rfl⟩

theorem inv_append (Inv : Module P Sym → List Event → Prop)
    (h_ev : ∀ m t e, Inv m t → e.isDecode = false → Inv m (t ++ [e])) (m : Module P Sym) :
    ∀ (es t : List Event), Inv m t → (∀ e ∈ es, e.isDecode = false) → Inv m (t ++ es) := by
  intro es
  induction es with
  | nil => intro t h _; simpa using h
  | cons e es ih =>
    intro t h hes
    have h1 := h_ev m t e h (hes e (List.mem_cons_self _ _))
    have h2 := ih (t ++ [e]) h1 (fun x hx => hes x (List.mem_cons_of_mem _ hx))
    simpa using h2

theorem dispatch_invariant (M : FileMgr σ) (D : SectionLoaders σ P Sym)
    (Inv : Module P Sym → List Event → Prop)
    (h_ev : ∀ m t e, Inv m t → e.isDecode = false → Inv m (t ++ [e]))
    (h_dec : ∀ m t k s, Inv m t → Inv (loadSec D k m s).2.1 (t ++ [.decode k]))
    (b : Byte) (st : LoadState σ P Sym) (h : Inv st.Mod st.Trace) :
    Inv (dispatch M D b st).2.Mod (dispatch M D b st).2.Trace := by
  by_cases hb : b.val ≤ 12
  · obtain ⟨k, hk⟩ := tag_of_le b hb
    rw [← hk, dispatch_tag, arm_eq]
    simp only
    have h1 := h_dec st.Mod st.Trace k st.Mgr h
    cases hr : (loadSec D k st.Mod st.Mgr).1 with
    | ok u => simpa using h1
    | error e =>
      have h2 := h_ev _ _ (.log (.InfoAST .Module)) h1 rfl
      simpa using h2
  · rw [dispatch_default M D b (by omega)]
    simp only
    exact inv_append Inv h_ev st.Mod _ st.Trace h (by simp [Event.isDecode])

theorem loadSections_invariant (M : FileMgr σ) (D : SectionLoaders σ P Sym)
    (Inv : Module P Sym → List Event → Prop)
    (h_ev : ∀ m t e, Inv m t → e.isDecode = false → Inv m (t ++ [e]))
    (h_dec : ∀ m t k s, Inv m t → Inv (loadSec D k m s).2.1 (t ++ [.decode k])) :
    ∀ (fuel : Nat) (st : LoadState σ P Sym) (r : Except ErrCode Unit)
      (st1 : LoadState σ P Sym), Inv st.Mod st.Trace →
      loadSections M D fuel st = some (r, st1) → Inv st1.Mod st1.Trace := by
  intro fuel
  induction fuel with
  | zero => intro st r st1 _ h; simp [loadSections] at h
  | succ fuel ih =>
    intro st r st1 hinv h
    rw [loadSections_succ] at h
    rcases hrb : M.readByte st.Mgr with ⟨r0, s⟩
    rw [hrb] at h
    cases r0 with
    | error e =>
      simp only at h
      by_cases he : e = .EndOfFile
      · simp only [he, if_true, Option.some.injEq, Prod.mk.injEq] at h
        obtain ⟨_, h⟩ := h
        subst h
        exact h_ev _ _ _ hinv rfl
      · simp only [he, if_false, Option.some.injEq, Prod.mk.injEq] at h
        obtain ⟨_, h⟩ := h
        subst h
        exact inv_append Inv h_ev st.Mod _ st.Trace hinv (by simp [Event.isDecode])
    | ok b =>
      simp only at h
      have hd := dispatch_invariant M D Inv h_ev h_dec b
        ⟨st.Mod, s, st.Trace ++ [.readByte]⟩ (h_ev st.Mod st.Trace .readByte hinv rfl)
      rcases hdis : dispatch M D b ⟨st.Mod, s, st.Trace ++ [.readByte]⟩ with ⟨r2, st2⟩
      rw [hdis] at h hd
      cases r2 with
      | error e =>
        simp only [Option.some.injEq, Prod.mk.injEq] at h
        obtain ⟨_, h⟩ := h
        subst h
        exact hd
      | ok u =>
        simp only at h
        exact ih st2 r st1 hd h

theorem loadBinary_invariant (M : FileMgr σ) (D : SectionLoaders σ P Sym)
    (Inv : Module P Sym → List Event → Prop)
    (h_ev : ∀ m t e, Inv m t → e.isDecode = false → Inv m (t ++ [e]))
    (h_dec : ∀ m t k s, Inv m t → Inv (loadSec D k m s).2.1 (t ++ [.decode k]))
    (h_hdr : ∀ (m : Module P Sym) t mg v, Inv m t → Inv { m with Magic := mg, Version := v } t)
    (fuel : Nat) (m : Module P Sym) (s : σ) (r : Except ErrCode Unit)
    (st : LoadState σ P Sym) (h0 : Inv m [])
    (h : loadBinary M D fuel m s = some (r, st)) : Inv st.Mod st.Trace := by
  have hhead : Inv (loadHeader M m s).2.Mod (loadHeader M m s).2.Trace := by
    have a := fun es hes => inv_append Inv h_ev m es [] h0 hes
    have b := fun mg v es hes =>
      inv_append Inv h_ev { m with Magic := mg, Version := v } es [] (h_hdr m [] mg v h0) hes
    unfold loadHeader
    rcases h1 : M.readBytes 4 s with ⟨r1, s1⟩
    cases r1 with
    | error e1 => exact a _ (by simp [Event.isDecode])
    | ok Res =>
      simp only
      by_cases hm : Res = WasmMagic
      · simp only [hm, ne_eq, not_true_eq_false, if_false]
        rcases h2 : M.readBytes 4 s1 with ⟨r2, s2⟩
        cases r2 with
        | error e2 => exact b WasmMagic m.Version _ (by simp [Event.isDecode])
        | ok Res2 =>
          simp only
          by_cases hv : Res2 = WasmVersion
          · simp only [hv, ne_eq, not_true_eq_false, if_false]
            exact b WasmMagic WasmVersion _ (by simp [Event.isDecode])
          · simp only [hv, ne_eq, not_false_eq_true, if_true]
            exact b WasmMagic Res2 _ (by simp [Event.isDecode])
      · simp only [hm, ne_eq, not_false_eq_true, if_true]
        exact b Res m.Version _ (by simp [Event.isDecode])
  unfold loadBinary at h
  rcases hh : loadHeader M m s with ⟨r0, st0⟩
  rw [hh] at h hhead
  cases r0 with
  | error e =>
    simp only [Option.some.injEq, Prod.mk.injEq] at h
    obtain ⟨_, h⟩ := h
    subst h
    exact hhead
  | ok u =>
    simp only at h
    cases hl : loadSections M D fuel st0 with
    | none => simp [hl] at h
    | some res =>
      obtain ⟨r1, st1⟩ := res
      have hinv := loadSections_invariant M D Inv h_ev h_dec fuel st0 r1 st1 hhead hl
      rw [hl] at h
      cases r1 with
      | error e =>
        simp only [Option.some.injEq, Prod.mk.injEq] at h
        obtain ⟨_, h⟩ := h
        subst h
        exact hinv
      | ok u1 =>
        simp only [Option.some.injEq] at h
        have hc : Inv (checkDataCount st1).2.Mod (checkDataCount st1).2.Trace := by
          have c := fun es hes => inv_append Inv h_ev st1.Mod es st1.Trace hinv hes
          unfold checkDataCount
          cases st1.Mod.DataCountSec with
          | none => exact hinv
          | some dc =>
            cases st1.Mod.DataSec with
            | none =>
              simp only
              split
              · exact c _ (by simp [Event.isDecode])
              · exact hinv
            | some d =>
              simp only
              split
              · exact c _ (by simp [Event.isDecode])
              · exact hinv
        rw [h] at hc
        exact hc

/-- After `loadBinary`, whatever it returns: the member of every decoder called is
non-null, and a member whose decoder was not called is as it was. -/
theorem loadBinary_slots (M : FileMgr σ) (D : SectionLoaders σ P Sym) (fuel : Nat)
    (m : Module P Sym) (s : σ) (r : Except ErrCode Unit) (st : LoadState σ P Sym)
    (h : loadBinary M D fuel m s = some (r, st)) :
    ∀ k, (.decode k ∈ st.Trace → st.Mod.present k = true) ∧
      (.decode k ∉ st.Trace → st.Mod.slot k = m.slot k) := by
  refine loadBinary_invariant M D
    (fun m1 t => ∀ k, (.decode k ∈ t → m1.present k = true) ∧
      (.decode k ∉ t → m1.slot k = m.slot k)) ?_ ?_ ?_ fuel m s r st ?_ h
  · intro m1 t e hinv he k
    have hne : Event.decode k ≠ e := by
      intro heq
      rw [← heq] at he
      simp [Event.isDecode] at he
    constructor
    · intro hin
      rcases List.mem_append.1 hin with hin | hin
      · exact (hinv k).1 hin
      · simp at hin
        exact absurd hin hne
    · intro hnot
      exact (hinv k).2 (fun hin => hnot (List.mem_append_left _ hin))
  · intro m1 t k0 s0 hinv k
    by_cases hk : k = k0
    · subst hk
      constructor
      · intro _
        rw [present_eq_slot, loadSec_slot_self]
        rfl
      · intro hnot
        exact absurd (List.mem_append_right _ (List.mem_singleton_self _)) hnot
    · constructor
      · intro hin
        rw [present_eq_slot, loadSec_slot_other D k0 k hk, ← present_eq_slot]
        rcases List.mem_append.1 hin with hin | hin
        · exact (hinv k).1 hin
        · simp at hin
          exact absurd hin hk
      · intro hnot
        rw [loadSec_slot_other D k0 k hk]
        exact (hinv k).2 (fun hin => hnot (List.mem_append_left _ hin))
  · intro m1 t mg v hinv k
    constructor
    · intro hin
      have := (hinv k).1 hin
      cases k <;> exact this
    · intro hnot
      have := (hinv k).2 hnot
      cases k <;> exact this
  · intro k
    exact ⟨fun hin => by simp at hin, fun _ => rfl⟩

theorem loadHeader_mgr (M : FileMgr σ) (m : Module P Sym) (s : σ) :
    (loadHeader M m s).2.Mgr = (M.readBytes 4 s).2 ∨
      (loadHeader M m s).2.Mgr = (M.readBytes 4 (M.readBytes 4 s).2).2 := by
  unfold loadHeader
  rcases h1 : M.readBytes 4 s with ⟨r1, s1⟩
  cases r1 with
  | error e1 => left; rfl
  | ok Res =>
    simp only
    split
    · left; rfl
    · rcases h2 : M.readBytes 4 s1 with ⟨r2, s2⟩
      cases r2 with
      | error e2 => right; rfl
      | ok Res2 =>
        simp only
        split <;> (right; rfl)

theorem vec_readBytes_state (w n : Nat) (s : VecState) :
    ((vecMgr w).readBytes n s).2.Code = s.Code ∧
      ((vecMgr w).readBytes n s).2.Pos ≤ s.Pos + n := by
  by_cases h : s.Pos + n ≤ s.Code.length
  · rw [vec_readBytes w n s h]
    exact ⟨rfl, le_refl _⟩
  · rw [vec_readBytes_short w n s (by omega)]
    exact ⟨rfl, Nat.le_add_right _ _⟩

theorem iterOk_trace (M : FileMgr σ) (D : SectionLoaders σ P Sym)
    (st st1 : LoadState σ P Sym) (h : iterOk M D st = some st1) :
    ∃ b s k, M.readByte st.Mgr = (.ok b, s) ∧ SecId.tag k = b ∧
      st1.Trace = st.Trace ++ [.readByte, .decode k] ∧
      st1.Mod = (loadSec D k st.Mod s).2.1 ∧ st1.Mgr = (loadSec D k st.Mod s).2.2 := by
  obtain ⟨b, s, hrb, hd⟩ := iterOk_some M D st st1 h
  by_cases hb : b.val ≤ 12
  · obtain ⟨k, hk⟩ := tag_of_le b hb
    refine ⟨b, s, k, hrb, hk, ?_⟩
    rw [← hk, dispatch_tag, arm_eq] at hd
    simp only [Prod.mk.injEq] at hd
    obtain ⟨h1, h2⟩ := hd
    rw [h1] at h2
    simp only at h2
    subst h2
    simp
  · rw [dispatch_default M D b (by omega)] at hd
    simp at hd

theorem iterOk_of_step (M : FileMgr σ) (D : SectionLoaders σ P Sym)
    (st st1 : LoadState σ P Sym) (b : Byte) (s : σ) (u : Unit)
    (hrb : M.readByte st.Mgr = (.ok b, s))
    (hd : dispatch M D b ⟨st.Mod, s, st.Trace ++ [.readByte]⟩ = (.ok u, st1)) :
    iterOk M D st = some st1 := by
  unfold iterOk
  rw [hrb]
  simp only
  rw [hd]

theorem loadSections_ok_inv (M : FileMgr σ) (D : SectionLoaders σ P Sym) :
    ∀ (fuel : Nat) (st0 st : LoadState σ P Sym),
      loadSections M D fuel st0 = some (.ok (), st) →
      ∃ n stn, n < fuel ∧ iterN M D n st0 = some stn ∧
        M.readByte stn.Mgr = (.error .EndOfFile, st.Mgr) ∧ st.Mod = stn.Mod ∧
        st.Trace = stn.Trace ++ [.readByte] := by
  intro fuel
  induction fuel with
  | zero => intro st0 st h; simp [loadSections] at h
  | succ fuel ih =>
    intro st0 st h
    rw [loadSections_succ] at h
    rcases hrb : M.readByte st0.Mgr with ⟨r0, s⟩
    rw [hrb] at h
    cases r0 with
    | error e =>
      simp only at h
      by_cases he : e = .EndOfFile
      · subst he
        simp only [if_true, Option.some.injEq, Prod.mk.injEq, true_and] at h
        subst h
        exact ⟨0, st0, Nat.succ_pos _, rfl, hrb, rfl, rfl⟩
      · simp [he] at h
    | ok b =>
      simp only at h
      rcases hd : dispatch M D b ⟨st0.Mod, s, st0.Trace ++ [.readByte]⟩ with ⟨r2, st2⟩
      rw [hd] at h
      cases r2 with
      | error e => simp at h
      | ok u =>
        simp only at h
        obtain ⟨n, stn, hn, hit, hr, hm, ht⟩ := ih st2 st h
        refine ⟨n + 1, stn, Nat.succ_lt_succ hn, ?_, hr, hm, ht⟩
        simp only [iterN, iterOk_of_step M D st0 st2 b s u hrb hd, Option.some_bind]
        exact hit

theorem iterN_tags (M : FileMgr σ) (D : SectionLoaders σ P Sym) :
    ∀ (n : Nat) (st0 stn : LoadState σ P Sym), iterN M D n st0 = some stn →
      ∃ ks : List SecId, ks.length = n ∧
        stn.Trace = st0.Trace ++ ks.flatMap (fun k => [.readByte, .decode k]) := by
  intro n
  induction n with
  | zero =>
    intro st0 stn h
    simp only [iterN, Option.some.injEq] at h
    subst h
    exact ⟨[], rfl, by simp⟩
  | succ n ih =>
    intro st0 stn h
    simp only [iterN] at h
    cases hi : iterOk M D st0 with
    | none => simp [hi] at h
    | some st1 =>
      rw [hi] at h
      simp only [Option.some_bind] at h
      obtain ⟨b, s, k, hrb, hk, ht, _, _⟩ := iterOk_trace M D st0 st1 hi
      obtain ⟨ks, hlen, htr⟩ := ih st1 stn h
      refine ⟨k :: ks, by simp [hlen], ?_⟩
      rw [htr, ht]
      simp

/-- A successful `loadBinary` went through a valid header and a section loop that
ended with `.ok`, and returns the state that loop left. -/
theorem loadBinary_ok_sections (M : FileMgr σ) (D : SectionLoaders σ P Sym) (fuel : Nat)
    (m : Module P Sym) (s0 : σ) (st : LoadState σ P Sym)
    (h : loadBinary M D fuel m s0 = some (.ok (), st)) :
    ∃ st0 : LoadState σ P Sym, loadHeader M m s0 = (.ok (), st0) ∧
      loadSections M D fuel st0 = some (.ok (), st) := by
  unfold loadBinary at h
  rcases hh : loadHeader M m s0 with ⟨r0, st0⟩
  rw [hh] at h
  cases r0 with
  | error e => simp at h
  | ok u =>
    simp only at h
    cases hl : loadSections M D fuel st0 with
    | none => simp [hl] at h
    | some res =>
      obtain ⟨r1, st1⟩ := res
      rw [hl] at h
      cases r1 with
      | error e => simp at h
      | ok u1 =>
        simp only [Option.some.injEq] at h
        have hst : st = st1 := by
          unfold checkDataCount at h
          split at h
          · split at h
            · split at h
              · simp at h
              · simp only [Prod.mk.injEq, true_and] at h
                exact h.symm
            · split at h
              · simp at h
              · simp only [Prod.mk.injEq, true_and] at h
                exact h.symm
          · simp only [Prod.mk.injEq, true_and] at h
            exact h.symm
        subst hst
        exact ⟨st0, rfl, hl⟩

/-- What a successful `loadBinary` tells: the header was read, `n` sections were
decoded, the next tag read reported `EndOfFile`, and the trace is these calls. -/
theorem loadBinary_ok_inv (M : FileMgr σ) (D : SectionLoaders σ P Sym) (fuel : Nat)
    (m : Module P Sym) (s0 : σ) (st : LoadState σ P Sym)
    (h : loadBinary M D fuel m s0 = some (.ok (), st)) :
    ∃ (st0 : LoadState σ P Sym) (n : Nat) (stn : LoadState σ P Sym) (ks : List SecId),
      loadHeader M m s0 = (.ok (), st0) ∧ n < fuel ∧
      iterN M D n st0 = some stn ∧
      M.readByte stn.Mgr = (.error .EndOfFile, st.Mgr) ∧ st.Mod = stn.Mod ∧
      ks.length = n ∧
      st.Trace = [.readBytes 4, .readBytes 4] ++
        ks.flatMap (fun k => [.readByte, .decode k]) ++ [.readByte] := by
  obtain ⟨st0, hh, hl⟩ := loadBinary_ok_sections M D fuel m s0 st h
  obtain ⟨n, stn, hn, hit, hr, hm, ht⟩ := loadSections_ok_inv M D fuel st0 st hl
  obtain ⟨ks, hlen, htr⟩ := iterN_tags M D n st0 stn hit
  obtain ⟨_, _, _, _, h0⟩ := loadHeader_ok_inv M m s0 st0 hh
  exact ⟨st0, n, stn, ks, hh, hn, hit, hr, hm, hlen, by rw [ht, htr, h0]⟩

theorem vec_readByte_ok (w : Nat) (s s1 : VecState) (b : Byte)
    (h : (vecMgr w).readByte s = (.ok b, s1)) :
    s1 = ⟨s.Code, s.Pos + 1⟩ ∧ s.Pos < s.Code.length := by
  simp only [vecMgr, List.get?_eq_getElem?] at h
  cases hg : s.Code[s.Pos]? with
  | none => simp [hg] at h
  | some c =>
    rw [hg] at h
    simp only [Prod.mk.injEq] at h
    refine ⟨h.2.symm, ?_⟩
    by_contra hlt
    have := List.getElem?_eq_none (Nat.le_of_not_lt hlt)
    rw [this] at hg
    cases hg

theorem vec_readByte_error (w : Nat) (s s1 : VecState) (e : ErrCode)
    (h : (vecMgr w).readByte s = (.error e, s1)) :
    s1 = s ∧ e = .EndOfFile ∧ s.Code.length ≤ s.Pos := by
  simp only [vecMgr, List.get?_eq_getElem?] at h
  cases hg : s.Code[s.Pos]? with
  | some c => simp [hg] at h
  | none =>
    rw [hg] at h
    simp only [Prod.mk.injEq, Except.error.injEq] at h
    refine ⟨h.2.symm, h.1.symm, ?_⟩
    by_contra hlt
    have hlt2 : s.Pos < s.Code.length := Nat.lt_of_not_le hlt
    rw [List.getElem?_eq_getElem hlt2] at hg
    cases hg

theorem vec_readBytes_ok_state (w n : Nat) (s s1 : VecState) (x : List Byte)
    (h : (vecMgr w).readBytes n s = (.ok x, s1)) : s1 = ⟨s.Code, s.Pos + n⟩ := by
  by_cases hl : s.Pos + n ≤ s.Code.length
  · rw [vec_readBytes w n s hl] at h
    simp only [Prod.mk.injEq] at h
    exact h.2.symm
  · rw [vec_readBytes_short w n s (by omega)] at h
    simp at h

theorem vec_loadHeader_ok_mgr (w : Nat) (m : Module P Sym) (bs : List Byte)
    (st0 : LoadState VecState P Sym)
    (h : loadHeader (vecMgr w) m ⟨bs, 0⟩ = (.ok (), st0)) : st0.Mgr = ⟨bs, 8⟩ := by
  obtain ⟨s1, h1, h2, _, _⟩ := loadHeader_ok_inv (vecMgr w) m ⟨bs, 0⟩ st0 h
  have e1 := vec_readBytes_ok_state w 4 _ _ _ h1
  subst e1
  have e2 := vec_readBytes_ok_state w 4 _ _ _ h2
  rw [e2]

theorem forward_loadSec (D : SectionLoaders VecState P Sym) (hD : Forward D) (k : SecId)
    (m : Module P Sym) (s : VecState) :
    (loadSec D k m s).2.2.Code = s.Code ∧ s.Pos ≤ (loadSec D k m s).2.2.Pos := by
  rw [loadSec_mgr]
  exact hD k _ s

theorem iterOk_forward (w : Nat) (D : SectionLoaders VecState P Sym) (hD : Forward D)
    (st st1 : LoadState VecState P Sym) (h : iterOk (vecMgr w) D st = some st1) :
    st1.Mgr.Code = st.Mgr.Code ∧ st.Mgr.Pos + 1 ≤ st1.Mgr.Pos ∧
      st.Mgr.Pos < st.Mgr.Code.length := by
  obtain ⟨b, s, k, hrb, _, _, _, hmgr⟩ := iterOk_trace (vecMgr w) D st st1 h
  obtain ⟨hs, hlt⟩ := vec_readByte_ok w st.Mgr s b hrb
  have hf := forward_loadSec D hD k st.Mod s
  rw [← hmgr, hs] at hf
  exact ⟨hf.1, hf.2, hlt⟩

theorem iterN_forward (w : Nat) (D : SectionLoaders VecState P Sym) (hD : Forward D) :
    ∀ (n : Nat) (st0 stn : LoadState VecState P Sym),
      iterN (vecMgr w) D n st0 = some stn →
      stn.Mgr.Code = st0.Mgr.Code ∧ st0.Mgr.Pos + n ≤ stn.Mgr.Pos := by
  intro n
  induction n with
  | zero =>
    intro st0 stn h
    simp only [iterN, Option.some.injEq] at h
    subst h
    exact ⟨rfl, le_refl _⟩
  | succ n ih =>
    intro st0 stn h
    simp only [iterN] at h
    cases hi : iterOk (vecMgr w) D st0 with
    | none => simp [hi] at h
    | some st1 =>
      rw [hi] at h
      simp only [Option.some_bind] at h
      obtain ⟨hc, hp, _⟩ := iterOk_forward w D hD st0 st1 hi
      obtain ⟨hc2, hp2⟩ := ih st1 stn h
      exact ⟨hc2.trans hc, by omega⟩

theorem loadSections_total (w : Nat) (D : SectionLoaders VecState P Sym) (hD : Forward D) :
    ∀ (fuel : Nat) (st : LoadState VecState P Sym),
      st.Mgr.Code.length - st.Mgr.Pos < fuel →
      ∃ r, loadSections (vecMgr w) D fuel st = some r := by
  intro fuel
  induction fuel with
  | zero => intro st h; omega
  | succ fuel ih =>
    intro st h
    rw [loadSections_succ]
    rcases hrb : (vecMgr w).readByte st.Mgr with ⟨r0, s⟩
    cases r0 with
    | error e =>
      simp only
      split <;> exact ⟨_, rfl⟩
    | ok b =>
      simp only
      rcases hd : dispatch (vecMgr w) D b ⟨st.Mod, s, st.Trace ++ [.readByte]⟩ with ⟨r2, st2⟩
      rw [hd]
      cases r2 with
      | error e => exact ⟨_, rfl⟩
      | ok u =>
        simp only
        have hi := iterOk_of_step (vecMgr w) D st st2 b s u hrb hd
        obtain ⟨hc, hp, hlt⟩ := iterOk_forward w D hD st st2 hi
        apply ih st2
        rw [hc]
        omega

theorem loadSections_mono (M : FileMgr σ) (D : SectionLoaders σ P Sym) :
    ∀ (fuel : Nat) (st : LoadState σ P Sym) (r : Except ErrCode Unit × LoadState σ P Sym),
      loadSections M D fuel st = some r → ∀ j, loadSections M D (fuel + j) st = some r := by
  intro fuel
  induction fuel with
  | zero => intro st r h; simp [loadSections] at h
  | succ fuel ih =>
    intro st r h j
    have e1 : fuel + 1 + j = (fuel + j) + 1 := by omega
    rw [e1, loadSections_succ]
    rw [loadSections_succ] at h
    rcases hrb : M.readByte st.Mgr with ⟨r0, s⟩
    rw [hrb] at h
    cases r0 with
    | error e => exact h
    | ok b =>
      simp only at h ⊢
      rcases hd : dispatch M D b ⟨st.Mod, s, st.Trace ++ [.readByte]⟩ with ⟨r2, st2⟩
      rw [hd] at h ⊢
      cases r2 with
      | error e => exact h
      | ok u =>
        simp only at h ⊢
        exact ih st2 r h j

theorem loadBinary_mono (M : FileMgr σ) (D : SectionLoaders σ P Sym) (fuel : Nat)
    (m : Module P Sym) (s : σ) (r : Except ErrCode Unit × LoadState σ P Sym)
    (h : loadBinary M D fuel m s = some r) (j : Nat) :
    loadBinary M D (fuel + j) m s = some r := by
  unfold loadBinary at h ⊢
  rcases hh : loadHeader M m s with ⟨r0, st0⟩
  rw [hh] at h
  cases r0 with
  | error e => exact h
  | ok u =>
    simp only at h ⊢
    cases hl : loadSections M D fuel st0 with
    | none => simp [hl] at h
    | some res =>
      rw [hl] at h
      rw [loadSections_mono M D fuel st0 res hl j]
      exact h

theorem readSized_state (s : VecState) :
    (readSized s).2.Code = s.Code ∧ s.Pos ≤ (readSized s).2.Pos := by
  unfold readSized
  rcases hrb : (vecMgr 32).readByte s with ⟨r, s1⟩
  cases r with
  | error e =>
    obtain ⟨h1, _, _⟩ := vec_readByte_error 32 s s1 e hrb
    subst h1
    exact ⟨rfl, le_refl _⟩
  | ok n =>
    obtain ⟨h1, _⟩ := vec_readByte_ok 32 s s1 n hrb
    subst h1
    have h2 := vec_readBytes_state 32 n.val ⟨s.Code, s.Pos + 1⟩
    simp only
    by_cases hl : s.Pos + 1 + n.val ≤ s.Code.length
    · rw [vec_readBytes 32 n.val ⟨s.Code, s.Pos + 1⟩ hl]
      simp only [true_and]
      omega
    · rw [vec_readBytes_short 32 n.val ⟨s.Code, s.Pos + 1⟩ (by simp only; omega)]
      simp

theorem sampleDecoder_state {α : Type} (mk : Byte → α) (sec : Section α) (s : VecState) :
    (sampleDecoder mk sec s).2.2 = (readSized s).2 := by
  unfold sampleDecoder
  rcases h : readSized s with ⟨r, s1⟩
  cases r <;> rfl

theorem sampleLoaders_forward : Forward sampleLoaders := by
  intro k sec s
  cases k
  case CustomSec =>
    have e : (sampleLoaders.decoder .CustomSec sec s).2.2 = (readSized s).2 := by
      simp only [SectionLoaders.decoder, sampleLoaders]
      unfold sampleCustom
      rcases h : readSized s with ⟨r, s1⟩
      cases r <;> rfl
    rw [e]
    exact readSized_state s
  case DataCountSec =>
    simp only [SectionLoaders.decoder, sampleLoaders]
    unfold sampleDataCount
    rcases hrb : (vecMgr 32).readByte s with ⟨r, s1⟩
    cases r with
    | error e =>
      obtain ⟨h1, _, _⟩ := vec_readByte_error 32 s s1 e hrb
      subst h1
      exact ⟨rfl, le_refl _⟩
    | ok n =>
      obtain ⟨h1, _⟩ := vec_readByte_ok 32 s s1 n hrb
      subst h1
      exact ⟨rfl, Nat.le_add_right _ _⟩
  all_goals
    simp only [SectionLoaders.decoder, sampleLoaders]
    rw [sampleDecoder_state]
    exact readSized_state s

theorem sampleCustom_state (sec : SecTy Byte Nat .CustomSec) (s : VecState) :
    (sampleLoaders.decoder .CustomSec sec s).2.2 = (readSized s).2 := by
  simp only [SectionLoaders.decoder, sampleLoaders]
  unfold sampleCustom
  rcases h : readSized s with ⟨r, s1⟩
  cases r <;> rfl

/-- On the in-memory cursor, a section loop that ends with `.ok` from position `pos` of
an input whose bytes from `pos` on are the encoding of `entries`, each payload being
what its decoder consumes, has read one tag and called one decoder per entry, in the
order of the entries, then read one more tag, and leaves the cursor at the very end
of the input. -/
theorem loadSections_layout (w : Nat) (D : SectionLoaders VecState P Sym) (bs : List Byte) :
    ∀ (entries : List (SecId × List Byte)) (pos fuel : Nat)
      (st st1 : LoadState VecState P Sym),
      st.Mgr = ⟨bs, pos⟩ → pos ≤ bs.length → bs.drop pos = encodeSections entries →
      payloadsAt D bs pos entries →
      loadSections (vecMgr w) D fuel st = some (.ok (), st1) →
      st1.Trace = st.Trace ++ entries.flatMap (fun e => [.readByte, .decode e.1]) ++
          [.readByte] ∧
        st1.Mgr = ⟨bs, bs.length⟩ := by
  intro entries
  induction entries with
  | nil =>
    intro pos fuel st st1 hm hp hd _ h
    cases fuel with
    | zero => simp [loadSections] at h
    | succ fuel =>
      rw [loadSections_succ] at h
      have hlen : bs.length ≤ pos := by
        have hl := congrArg List.length hd
        simp only [encodeSections, List.length_drop, List.flatMap_nil, List.length_nil] at hl
        omega
      have hrb : (vecMgr w).readByte st.Mgr = (.error .EndOfFile, st.Mgr) := by
        rw [hm]
        simp [vecMgr, List.getElem?_eq_none hlen]
      rw [hrb] at h
      simp only [if_true, Option.some.injEq, Prod.mk.injEq, true_and] at h
      subst h
      refine ⟨by simp, ?_⟩
      simp only
      rw [hm]
      have : pos = bs.length := le_antisymm hp hlen
      rw [this]
  | cons e es ih =>
    intro pos fuel st st1 hm hp hd hpay h
    obtain ⟨k, p⟩ := e
    cases fuel with
    | zero => simp [loadSections] at h
    | succ fuel =>
      rw [loadSections_succ] at h
      have hd1 : bs.drop pos = k.tag :: (p ++ encodeSections es) := by
        rw [hd]
        simp [encodeSections]
      have hget : bs[pos]? = some k.tag := by
        have h0 := congrArg (fun l => l[0]?) hd1
        simpa using h0
      have hrb : (vecMgr w).readByte st.Mgr = (.ok k.tag, ⟨bs, pos + 1⟩) := by
        rw [hm]
        simp [vecMgr, hget]
      rw [hrb] at h
      simp only at h
      rw [dispatch_tag, arm_eq] at h
      simp only at h
      have hmgr := loadSec_mgr D k st.Mod ⟨bs, pos + 1⟩
      rw [hpay.1] at hmgr
      simp only at hmgr
      have hl := congrArg List.length hd1
      simp only [List.length_drop, List.length_cons, List.length_append] at hl
      have hd2 : bs.drop (pos + 1 + p.length) = encodeSections es := by
        have e1 : pos + 1 + p.length = pos + (1 + p.length) := by omega
        rw [e1, ← List.drop_drop, hd1]
        simp [Nat.add_comm 1 p.length]
      cases hr : (loadSec D k st.Mod ⟨bs, pos + 1⟩).1 with
      | error e =>
        rw [hr] at h
        simp at h
      | ok u =>
        rw [hr] at h
        simp only at h
        obtain ⟨ht, hm1⟩ := ih (pos + 1 + p.length) fuel _ st1 hmgr (by omega) hd2 hpay.2 h
        refine ⟨?_, hm1⟩
        rw [ht]
        simp

/-- On the in-memory cursor, a successful `loadBinary` of a header followed by the
encoding of `entries`, each payload being what its decoder consumes, has the trace
of the two header reads, one tag read and one decoder call per entry in order, and
a last tag read; the cursor is left at the very end of the input. -/
theorem loadBinary_layout (w : Nat) (D : SectionLoaders VecState P Sym) (fuel : Nat)
    (m : Module P Sym) (entries : List (SecId × List Byte))
    (st : LoadState VecState P Sym)
    (hpay : payloadsAt D (header ++ encodeSections entries) 8 entries)
    (h : loadBinary (vecMgr w) D fuel m ⟨header ++ encodeSections entries, 0⟩ =
      some (.ok (), st)) :
    st.Trace = [.readBytes 4, .readBytes 4] ++
        entries.flatMap (fun e => [.readByte, .decode e.1]) ++ [.readByte] ∧
      st.Mgr = ⟨header ++ encodeSections entries,
        (header ++ encodeSections entries).length⟩ := by
  obtain ⟨st0, hh, hl⟩ := loadBinary_ok_sections (vecMgr w) D fuel m _ st h
  obtain ⟨_, _, _, _, h0⟩ := loadHeader_ok_inv (vecMgr w) m _ st0 hh
  have hm := vec_loadHeader_ok_mgr w m _ st0 hh
  have hlen : header.length = 8 := rfl
  obtain ⟨ht, hm1⟩ := loadSections_layout w D (header ++ encodeSections entries) entries 8
    fuel st0 st hm (by simp [hlen])
    (by rw [← hlen, List.drop_left]) hpay hl
  exact ⟨by rw [ht, h0], hm1⟩

end Lemmas

/-! ## Claims -/

section Claims

variable {σ P Sym : Type}

/-- C1, as the code has it: on the in-memory cursor, a stream of at least 4 bytes
whose first 4 bytes differ from the magic makes `loadBinary` fail with
`InvalidGrammar` and log offset 0; a stream of at least 8 bytes with the magic and
a differing version makes it fail with `InvalidGrammar` and log offset 4. -/
theorem loadBinary_header_mismatch (w : Nat) (hw : 3 ≤ w)
    (D : SectionLoaders VecState P Sym) (fuel : Nat) (m : Module P Sym) (bs : List Byte) :
    (4 ≤ bs.length → bs.take 4 ≠ WasmMagic →
      loadBinary (vecMgr w) D fuel m ⟨bs, 0⟩ =
        some (.error .InvalidGrammar, ⟨{ m with Magic := bs.take 4 }, ⟨bs, 4⟩,
          [.readBytes 4, .log (.Code .InvalidGrammar), .log (.InfoLoading 0),
           .log (.InfoAST .Module)]⟩)) ∧
    (8 ≤ bs.length → bs.take 4 = WasmMagic → (bs.drop 4).take 4 ≠ WasmVersion →
      loadBinary (vecMgr w) D fuel m ⟨bs, 0⟩ =
        some (.error .InvalidGrammar,
          ⟨{ m with Magic := WasmMagic, Version := (bs.drop 4).take 4 }, ⟨bs, 8⟩,
          [.readBytes 4, .readBytes 4, .log (.Code .InvalidGrammar), .log (.InfoLoading 4),
           .log (.InfoAST .Module)]⟩)) := by
  have h4 : (4 : Nat) < 2 ^ w :=
    lt_of_lt_of_le (by decide : (4 : Nat) < 2 ^ 3) (Nat.pow_le_pow_right (by decide) hw)
  have ho0 : offSub w (4 % 2 ^ w) 4 = 0 := by
    rw [offSub_mod (le_refl 4)]; simp
  have ho4 : offSub w (8 % 2 ^ w) 4 = 4 := by
    rw [offSub_mod (by decide : 4 ≤ 8)]; exact Nat.mod_eq_of_lt h4
  constructor
  · intro hlen hne
    have hr := vec_readBytes w 4 ⟨bs, 0⟩ (by simpa using hlen)
    simp only [List.drop_zero, Nat.zero_add] at hr
    simp only [loadBinary, loadHeader, hr, hne, ne_eq, not_false_eq_true, if_true]
    simp [vecMgr, ho0]
  · intro hlen hmagic hne
    have hr := vec_readBytes w 4 ⟨bs, 0⟩ (by simp; omega)
    simp only [List.drop_zero, Nat.zero_add] at hr
    have hr2 := vec_readBytes w 4 ⟨bs, 4⟩ (by simpa using hlen)
    simp only [] at hr2
    simp only [loadBinary, loadHeader, hr, hr2, hmagic, hne, ne_eq, not_true_eq_false,
      not_false_eq_true, if_true, if_false]
    simp [vecMgr, ho4]

/-- C1, witness: a 4-byte stream with a wrong magic and an 8-byte stream with a wrong
version, on the sample decoders. -/
theorem loadBinary_header_mismatch_witness :
    loadBinary (vecMgr 32) sampleLoaders 1 ({} : Module Byte Nat) ⟨[1, 2, 3, 4], 0⟩ =
        some (.error .InvalidGrammar, ⟨{ Magic := [1, 2, 3, 4] }, ⟨[1, 2, 3, 4], 4⟩,
          [.readBytes 4, .log (.Code .InvalidGrammar), .log (.InfoLoading 0),
           .log (.InfoAST .Module)]⟩) ∧
    loadBinary (vecMgr 32) sampleLoaders 1 ({} : Module Byte Nat)
        ⟨[0x00, 0x61, 0x73, 0x6D, 0x02, 0x00, 0x00, 0x00], 0⟩ =
        some (.error .InvalidGrammar,
          ⟨{ Magic := WasmMagic, Version := [0x02, 0x00, 0x00, 0x00] },
           ⟨[0x00, 0x61, 0x73, 0x6D, 0x02, 0x00, 0x00, 0x00], 8⟩,
          [.readBytes 4, .readBytes 4, .log (.Code .InvalidGrammar), .log (.InfoLoading 4),
           .log (.InfoAST .Module)]⟩) :=
  ⟨(loadBinary_header_mismatch 32 (by decide) sampleLoaders 1 {} [1, 2, 3, 4]).1
      (by decide) (by decide),
   (loadBinary_header_mismatch 32 (by decide) sampleLoaders 1 {}
      [0x00, 0x61, 0x73, 0x6D, 0x02, 0x00, 0x00, 0x00]).2
      (by decide) (by decide) (by decide)⟩

/-- C1 fails as stated: the empty stream, and the 5-byte stream `00 61 73 6D 02`,
do not start with the 8-byte header, and `loadBinary` fails on them with the
cursor's `EndOfFile`, not with `InvalidGrammar`. -/
theorem loadBinary_short_stream_EndOfFile :
    loadBinary (vecMgr 32) sampleLoaders 1 ({} : Module Byte Nat) ⟨[], 0⟩ =
        some (.error .EndOfFile, ⟨{}, ⟨[], 0⟩,
          [.readBytes 4, .log (.Code .EndOfFile), .log (.InfoLoading 0),
           .log (.InfoAST .Module)]⟩) ∧
    loadBinary (vecMgr 32) sampleLoaders 1 ({} : Module Byte Nat)
        ⟨[0x00, 0x61, 0x73, 0x6D, 0x02], 0⟩ =
        some (.error .EndOfFile, ⟨{ Magic := WasmMagic }, ⟨[0x00, 0x61, 0x73, 0x6D, 0x02], 4⟩,
          [.readBytes 4, .readBytes 4, .log (.Code .EndOfFile), .log (.InfoLoading 4),
           .log (.InfoAST .Module)]⟩) := by
  constructor <;> rfl

/-- C2: after a valid header and any `n` sections decoded with success, a tag byte
above 0x0C makes `loadBinary` fail with `InvalidGrammar`, log the offset
`getOffset() - 1` taken after the tag byte, and call no decoder; on the in-memory
cursor the header followed by one such byte logs offset 8. A tag byte in
0x00..0x0C selects the arm of one section member, whose decoder is called, and the
switch returns what that decoder returns. -/
theorem loadBinary_unknown_tag (M : FileMgr σ) (D : SectionLoaders σ P Sym)
    (fuel n : Nat) (m : Module P Sym) (s0 : σ) (st0 st : LoadState σ P Sym)
    (b : Byte) (s : σ)
    (hh : loadHeader M m s0 = (.ok (), st0)) (hn : iterN M D n st0 = some st)
    (hb : M.readByte st.Mgr = (.ok b, s)) :
    (12 < b.val →
      loadBinary M D (n + (fuel + 1)) m s0 =
        some (.error .InvalidGrammar, ⟨st.Mod, s, st.Trace ++
          [.readByte, .log (.Code .InvalidGrammar),
           .log (.InfoLoading (offSub M.offBits (M.getOffset s) 1)),
           .log (.InfoAST .Module)]⟩)) ∧
    (b.val ≤ 12 → ∃ k : SecId, k.tag = b ∧
      (dispatch M D b ⟨st.Mod, s, st.Trace ++ [.readByte]⟩).1 = (loadSec D k st.Mod s).1 ∧
      (dispatch M D b ⟨st.Mod, s, st.Trace ++ [.readByte]⟩).2.Trace =
        st.Trace ++ .readByte :: .decode k ::
          (match (loadSec D k st.Mod s).1 with
           | .ok _ => []
           | .error _ => [.log (.InfoAST .Module)])) ∧
    (∀ (w : Nat) (Dv : SectionLoaders VecState P Sym) (c : Byte), 4 ≤ w → 12 < c.val →
      loadBinary (vecMgr w) Dv (fuel + 1) m ⟨header ++ [c], 0⟩ =
        some (.error .InvalidGrammar,
          ⟨{ m with Magic := WasmMagic, Version := WasmVersion }, ⟨header ++ [c], 9⟩,
          [.readBytes 4, .readBytes 4, .readByte, .log (.Code .InvalidGrammar),
           .log (.InfoLoading 8), .log (.InfoAST .Module)]⟩)) := by
  refine ⟨?_, ?_, ?_⟩
  · intro hgt
    rw [loadBinary_of_header M D _ m s0 st0 hh, loadSections_iterN M D (fuel + 1) n st0 st hn,
      loadSections_succ, hb]
    simp only
    rw [dispatch_default M D b hgt]
    simp
  · intro hle
    obtain ⟨k, hk⟩ := tag_of_le b hle
    refine ⟨k, hk, ?_⟩
    rw [← hk, dispatch_tag]
    unfold arm
    rcases hls : loadSec D k st.Mod s with ⟨r, m1, s1⟩
    cases r <;> simp
  · intro w Dv c hw hgt
    have h8 : (8 : Nat) < 2 ^ w :=
      lt_of_lt_of_le (by decide : (8 : Nat) < 2 ^ 4) (Nat.pow_le_pow_right (by decide) hw)
    have ho : offSub w (9 % 2 ^ w) 1 = 8 := by
      rw [offSub_mod (by decide : 1 ≤ 9)]; exact Nat.mod_eq_of_lt h8
    rw [loadBinary_of_header (vecMgr w) Dv _ m _ _ (vec_loadHeader w m [c]), loadSections_succ]
    have hrb : (vecMgr w).readByte ⟨header ++ [c], 8⟩ = (.ok c, ⟨header ++ [c], 9⟩) := by
      simp [vecMgr, header, WasmMagic, WasmVersion]
    simp only [hrb]
    rw [dispatch_default (vecMgr w) Dv c hgt]
    simp [vecMgr, ho]

/-- C2, witness: the header, one custom section `00 01 07`, then the tag byte 0x0D,
on the sample decoders; and the header, then the tag byte 0x00 of a custom section
whose decoder succeeds. -/
theorem loadBinary_unknown_tag_witness :
    loadBinary (vecMgr 32) sampleLoaders 2 ({} : Module Byte Nat)
        ⟨header ++ [0x00, 0x01, 0x07, 0x0D], 0⟩ =
      some (.error .InvalidGrammar,
        ⟨{ headerMod with CustomSec := some ⟨[0x07]⟩ },
         ⟨header ++ [0x00, 0x01, 0x07, 0x0D], 12⟩,
         [.readBytes 4, .readBytes 4, .readByte, .decode .CustomSec, .readByte,
          .log (.Code .InvalidGrammar), .log (.InfoLoading 11), .log (.InfoAST .Module)]⟩) ∧
    (∃ k : SecId, k.tag = 0x00 ∧
      (dispatch (vecMgr 32) sampleLoaders 0x00
        ⟨headerMod, ⟨header ++ [0x00, 0x01, 0x07, 0x0D], 9⟩,
         [.readBytes 4, .readBytes 4] ++ [.readByte]⟩).1 =
        (loadSec sampleLoaders k headerMod ⟨header ++ [0x00, 0x01, 0x07, 0x0D], 9⟩).1 ∧
      (dispatch (vecMgr 32) sampleLoaders 0x00
        ⟨headerMod, ⟨header ++ [0x00, 0x01, 0x07, 0x0D], 9⟩,
         [.readBytes 4, .readBytes 4] ++ [.readByte]⟩).2.Trace =
        [.readBytes 4, .readBytes 4] ++ .readByte :: .decode k ::
          (match (loadSec sampleLoaders k headerMod
              ⟨header ++ [0x00, 0x01, 0x07, 0x0D], 9⟩).1 with
           | .ok _ => []
           | .error _ => [.log (.InfoAST .Module)])) ∧
    loadBinary (vecMgr 32) sampleLoaders (0 + 1) ({} : Module Byte Nat)
        ⟨header ++ [0x0D], 0⟩ =
      some (.error .InvalidGrammar, ⟨headerMod, ⟨header ++ [0x0D], 9⟩,
        [.readBytes 4, .readBytes 4, .readByte, .log (.Code .InvalidGrammar),
         .log (.InfoLoading 8), .log (.InfoAST .Module)]⟩) :=
  ⟨(loadBinary_unknown_tag (vecMgr 32) sampleLoaders 0 1 ({} : Module Byte Nat)
      ⟨header ++ [0x00, 0x01, 0x07, 0x0D], 0⟩
      ⟨headerMod, ⟨header ++ [0x00, 0x01, 0x07, 0x0D], 8⟩, [.readBytes 4, .readBytes 4]⟩
      ⟨{ headerMod with CustomSec := some ⟨[0x07]⟩ },
        ⟨header ++ [0x00, 0x01, 0x07, 0x0D], 11⟩,
        [.readBytes 4, .readBytes 4, .readByte, .decode .CustomSec]⟩
      0x0D ⟨header ++ [0x00, 0x01, 0x07, 0x0D], 12⟩ (by rfl) (by rfl) (by rfl)).1 (by decide),
   (loadBinary_unknown_tag (vecMgr 32) sampleLoaders 0 0 ({} : Module Byte Nat)
      ⟨header ++ [0x00, 0x01, 0x07, 0x0D], 0⟩
      ⟨headerMod, ⟨header ++ [0x00, 0x01, 0x07, 0x0D], 8⟩, [.readBytes 4, .readBytes 4]⟩
      ⟨headerMod, ⟨header ++ [0x00, 0x01, 0x07, 0x0D], 8⟩, [.readBytes 4, .readBytes 4]⟩
      0x00 ⟨header ++ [0x00, 0x01, 0x07, 0x0D], 9⟩ (by rfl) (by rfl) (by rfl)).2.1
      (by decide),
   (loadBinary_unknown_tag (vecMgr 32) sampleLoaders 0 0 ({} : Module Byte Nat)
      ⟨header ++ [0x00, 0x01, 0x07, 0x0D], 0⟩
      ⟨headerMod, ⟨header ++ [0x00, 0x01, 0x07, 0x0D], 8⟩, [.readBytes 4, .readBytes 4]⟩
      ⟨headerMod, ⟨header ++ [0x00, 0x01, 0x07, 0x0D], 8⟩, [.readBytes 4, .readBytes 4]⟩
      0x00 ⟨header ++ [0x00, 0x01, 0x07, 0x0D], 9⟩ (by rfl) (by rfl) (by rfl)).2.2
      32 sampleLoaders 0x0D (by decide) (by decide)⟩

/-- C3: when the header is valid and the section loop ends at end of file with no
decoder error, `loadBinary` returns a result on the module the loop left; it
succeeds exactly when every data count section present declares the number of data
segments (zero for an absent data section), and fails with `InvalidGrammar`
otherwise. -/
theorem loadBinary_dataCount_check (M : FileMgr σ) (D : SectionLoaders σ P Sym)
    (fuel : Nat) (m : Module P Sym) (s0 : σ) (st0 st1 : LoadState σ P Sym)
    (hh : loadHeader M m s0 = (.ok (), st0))
    (hl : loadSections M D fuel st0 = some (.ok (), st1)) :
    ∃ r, loadBinary M D fuel m s0 = some r ∧ r.2.Mod = st1.Mod ∧ r.2.Mgr = st1.Mgr ∧
      (r.1 = .ok () ↔
        (st1.Mod.DataCountSec = none ∨
          ∃ dc, st1.Mod.DataCountSec = some dc ∧ dc.Content = dataSegments st1.Mod)) ∧
      (r.1 ≠ .ok () → r.1 = .error .InvalidGrammar) := by
  rw [loadBinary_of_header M D fuel m s0 st0 hh, hl]
  refine ⟨checkDataCount st1, rfl, ?_⟩
  unfold checkDataCount dataSegments
  cases hdc : st1.Mod.DataCountSec with
  | none => simp
  | some dc =>
    cases hd : st1.Mod.DataSec with
    | none =>
      by_cases hz : dc.Content = 0
      · simp [hz]
      · simp [hz]
    | some d =>
      by_cases hz : d.Content.length = dc.Content
      · simp [hz]
      · have hz2 : ¬ dc.Content = d.Content.length := fun h => hz h.symm
        simp [hz, hz2]

/-- C3, witness: on the sample decoders (a data count section is `0C n`, a
data section is `0B k` followed by `k` one-byte segments), count 2 with 2 segments
succeeds, with 1 or 3 segments fails; count 0 with no data section succeeds, count
1 with no data section fails. -/
theorem loadBinary_dataCount_check_witness :
    (∃ r, runSample 3 (header ++ [0x0C, 2, 0x0B, 2, 5, 6]) = some r ∧
      r.2.Mod = { headerMod with DataSec := some ⟨[5, 6]⟩, DataCountSec := some ⟨2⟩ } ∧
      r.2.Mgr = ⟨header ++ [0x0C, 2, 0x0B, 2, 5, 6], 14⟩ ∧
      (r.1 = .ok () ↔
        (({ headerMod with DataSec := some ⟨[5, 6]⟩, DataCountSec := some ⟨2⟩ } :
            Module Byte Nat).DataCountSec = none ∨
          ∃ dc, ({ headerMod with DataSec := some ⟨[5, 6]⟩, DataCountSec := some ⟨2⟩ } :
            Module Byte Nat).DataCountSec = some dc ∧
            dc.Content = dataSegments
              { headerMod with DataSec := some ⟨[5, 6]⟩, DataCountSec := some ⟨2⟩ })) ∧
      (r.1 ≠ .ok () → r.1 = .error .InvalidGrammar)) ∧
    (runSample 3 (header ++ [0x0C, 2, 0x0B, 2, 5, 6])).map (·.1) = some (.ok ()) ∧
    (runSample 3 (header ++ [0x0C, 2, 0x0B, 1, 5])).map (·.1) = some (.error .InvalidGrammar) ∧
    (runSample 3 (header ++ [0x0C, 2, 0x0B, 3, 5, 6, 7])).map (·.1) =
      some (.error .InvalidGrammar) ∧
    (runSample 2 (header ++ [0x0C, 0])).map (·.1) = some (.ok ()) ∧
    (runSample 2 (header ++ [0x0C, 1])).map (·.1) = some (.error .InvalidGrammar) :=
  ⟨loadBinary_dataCount_check (vecMgr 32) sampleLoaders 3 ({} : Module Byte Nat)
      ⟨header ++ [0x0C, 2, 0x0B, 2, 5, 6], 0⟩
      ⟨headerMod, ⟨header ++ [0x0C, 2, 0x0B, 2, 5, 6], 8⟩, [.readBytes 4, .readBytes 4]⟩
      ⟨{ headerMod with DataSec := some ⟨[5, 6]⟩, DataCountSec := some ⟨2⟩ },
        ⟨header ++ [0x0C, 2, 0x0B, 2, 5, 6], 14⟩,
        [.readBytes 4, .readBytes 4, .readByte, .decode .DataCountSec, .readByte,
         .decode .DataSec, .readByte]⟩ (by rfl) (by rfl),
   by rfl, by rfl, by rfl, by rfl, by rfl⟩

/-- C4: on the in-memory cursor, the 8-byte header alone makes `loadBinary` of an
empty `Module` succeed; it reads the two markers and one tag byte, calls no
decoder, and leaves all thirteen section members null. On any cursor, a tag-byte
read that reports `EndOfFile` ends the section loop with success. -/
theorem loadBinary_header_only (w : Nat) (D : SectionLoaders VecState P Sym) (fuel : Nat) :
    loadBinary (vecMgr w) D (fuel + 1) {} ⟨header, 0⟩ =
      some (.ok (), ⟨{ Magic := WasmMagic, Version := WasmVersion }, ⟨header, 8⟩,
        [.readBytes 4, .readBytes 4, .readByte]⟩) ∧
    (∀ k, Module.present ({ Magic := WasmMagic, Version := WasmVersion } : Module P Sym) k
      = false) ∧
    (∀ (M : FileMgr σ) (Da : SectionLoaders σ P Sym) (st : LoadState σ P Sym) (s : σ),
      M.readByte st.Mgr = (.error .EndOfFile, s) →
      loadSections M Da (fuel + 1) st =
        some (.ok (), ⟨st.Mod, s, st.Trace ++ [.readByte]⟩)) := by
  refine ⟨?_, ?_, ?_⟩
  · have hh := vec_loadHeader w ({} : Module P Sym) []
    simp only [List.append_nil] at hh
    rw [loadBinary_of_header (vecMgr w) D _ _ _ _ hh, loadSections_succ]
    have hrb : (vecMgr w).readByte ⟨header, 8⟩ = (.error .EndOfFile, ⟨header, 8⟩) := by
      simp [vecMgr, header, WasmMagic, WasmVersion]
    simp only [hrb]
    simp [checkDataCount]
  · intro k
    cases k <;> rfl
  · intro M Da st s hrb
    rw [loadSections_succ, hrb]
    simp

/-- C4, witness: the header alone on the sample decoders, and the loop at the end of
the header-only stream. -/
theorem loadBinary_header_only_witness :
    runSample 1 header =
      some (.ok (), ⟨headerMod, ⟨header, 8⟩, [.readBytes 4, .readBytes 4, .readByte]⟩) ∧
    loadSections (vecMgr 32) sampleLoaders 1
        ⟨headerMod, ⟨header, 8⟩, [.readBytes 4, .readBytes 4]⟩ =
      some (.ok (), ⟨headerMod, ⟨header, 8⟩, [.readBytes 4, .readBytes 4] ++ [.readByte]⟩) :=
  ⟨(@loadBinary_header_only VecState Byte Nat 32 sampleLoaders 0).1,
   (@loadBinary_header_only VecState Byte Nat 32 sampleLoaders 0).2.2 (vecMgr 32)
      sampleLoaders ⟨headerMod, ⟨header, 8⟩, [.readBytes 4, .readBytes 4]⟩ ⟨header, 8⟩
      (by rfl)⟩

/-- C8: with a valid header, the Custom member null and no data count section, two
custom sections in a row and then end of file make `loadBinary` succeed; the second
decoder call is made on the section the first call left in the member, and the
member holds what the second call returns. With a decoder that appends, that
content is what the first section decodes to followed by what the second decodes
to. -/
theorem loadBinary_two_custom (M : FileMgr σ) (D : SectionLoaders σ P Sym) (fuel : Nat)
    (m : Module P Sym) (s0 s1 s2 s3 s4 s5 : σ) (st0 : LoadState σ P Sym)
    (c1 c2 : CustomSection)
    (hh : loadHeader M m s0 = (.ok (), st0))
    (hc : st0.Mod.CustomSec = none) (hdc : st0.Mod.DataCountSec = none)
    (h1 : M.readByte st0.Mgr = (.ok 0x00, s1))
    (h2 : D.Custom {} s1 = (.ok (), c1, s2))
    (h3 : M.readByte s2 = (.ok 0x00, s3))
    (h4 : D.Custom c1 s3 = (.ok (), c2, s4))
    (h5 : M.readByte s4 = (.error .EndOfFile, s5)) :
    loadBinary M D (fuel + 3) m s0 =
      some (.ok (), ⟨{ st0.Mod with CustomSec := some c2 }, s5, st0.Trace ++
        [.readByte, .decode .CustomSec, .readByte, .decode .CustomSec, .readByte]⟩) ∧
    (Appends D.Custom →
      c2.Content = (D.Custom {} s1).2.1.Content ++ (D.Custom {} s3).2.1.Content) := by
  constructor
  · have hd1 : dispatch M D 0x00 ⟨st0.Mod, s1, st0.Trace ++ [.readByte]⟩ =
        (.ok (), ⟨{ st0.Mod with CustomSec := some c1 }, s2,
          st0.Trace ++ [.readByte] ++ [.decode .CustomSec]⟩) := by
      refine (dispatch_tag M D .CustomSec _).trans ?_
      simp [arm, loadSec, hc, h2]
    have hd2 : dispatch M D 0x00 ⟨{ st0.Mod with CustomSec := some c1 }, s3,
          st0.Trace ++ [.readByte] ++ [.decode .CustomSec] ++ [.readByte]⟩ =
        (.ok (), ⟨{ st0.Mod with CustomSec := some c2 }, s4,
          st0.Trace ++ [.readByte] ++ [.decode .CustomSec] ++ [.readByte] ++
            [.decode .CustomSec]⟩) := by
      refine (dispatch_tag M D .CustomSec _).trans ?_
      simp [arm, loadSec, h4]
    rw [loadBinary_of_header M D _ m s0 st0 hh, loadSections_succ, h1]
    simp only
    rw [hd1]
    simp only
    rw [loadSections_succ]
    simp only [h3]
    rw [hd2]
    simp only
    rw [loadSections_succ]
    simp only [h5]
    simp [checkDataCount, hdc]
  · intro happ
    have e1 := happ c1 s3
    rw [h4] at e1
    have e2 : c2 = ⟨c1.Content ++ (D.Custom {} s3).2.1.Content⟩ := by
      have := congrArg (fun r => r.2.1) e1
      simpa using this
    rw [h2]
    rw [e2]

/-- C8, witness: the header and the custom sections `00 02 05 06`, `00 01 09` on the
sample decoders; the Custom member ends with content `05 06 09`. -/
theorem loadBinary_two_custom_witness :
    runSample 3 twoCustom =
      some (.ok (), ⟨{ headerMod with CustomSec := some ⟨[5, 6, 9]⟩ }, ⟨twoCustom, 15⟩,
        [.readBytes 4, .readBytes 4] ++
        [.readByte, .decode .CustomSec, .readByte, .decode .CustomSec, .readByte]⟩) ∧
    ([5, 6, 9] : List Byte) = (sampleCustom {} ⟨twoCustom, 9⟩).2.1.Content ++
      (sampleCustom {} ⟨twoCustom, 13⟩).2.1.Content :=
  ⟨(loadBinary_two_custom (vecMgr 32) sampleLoaders 0 ({} : Module Byte Nat)
      ⟨twoCustom, 0⟩ ⟨twoCustom, 9⟩ ⟨twoCustom, 12⟩ ⟨twoCustom, 13⟩ ⟨twoCustom, 15⟩
      ⟨twoCustom, 15⟩ ⟨headerMod, ⟨twoCustom, 8⟩, [.readBytes 4, .readBytes 4]⟩
      ⟨[5, 6]⟩ ⟨[5, 6, 9]⟩ (by rfl) (by rfl) (by rfl) (by rfl) (by rfl) (by rfl) (by rfl)
      (by rfl)).1,
   (loadBinary_two_custom (vecMgr 32) sampleLoaders 0 ({} : Module Byte Nat)
      ⟨twoCustom, 0⟩ ⟨twoCustom, 9⟩ ⟨twoCustom, 12⟩ ⟨twoCustom, 13⟩ ⟨twoCustom, 15⟩
      ⟨twoCustom, 15⟩ ⟨headerMod, ⟨twoCustom, 8⟩, [.readBytes 4, .readBytes 4]⟩
      ⟨[5, 6]⟩ ⟨[5, 6, 9]⟩ (by rfl) (by rfl) (by rfl) (by rfl) (by rfl) (by rfl) (by rfl)
      (by rfl)).2 sampleCustom_appends⟩

/-- C9: with a valid header and after any `n` sections decoded with success, when the
decoder selected by the next tag byte returns the error `E`, `loadBinary` returns
`E`; the trace ends with that decoder call and the `InfoAST` line, so no further
tag byte is read, no further decoder is called, and the data count check, which
would log `InvalidGrammar`, is not run. -/
theorem loadBinary_decoder_error (M : FileMgr σ) (D : SectionLoaders σ P Sym)
    (fuel n : Nat) (m : Module P Sym) (s0 : σ) (st0 st : LoadState σ P Sym)
    (b : Byte) (s : σ) (k : SecId) (E : ErrCode)
    (hh : loadHeader M m s0 = (.ok (), st0)) (hn : iterN M D n st0 = some st)
    (hb : M.readByte st.Mgr = (.ok b, s)) (hk : k.tag = b)
    (he : (loadSec D k st.Mod s).1 = .error E) :
    loadBinary M D (n + (fuel + 1)) m s0 =
      some (.error E, ⟨(loadSec D k st.Mod s).2.1, (loadSec D k st.Mod s).2.2,
        st.Trace ++ [.readByte, .decode k, .log (.InfoAST .Module)]⟩) := by
  rw [loadBinary_of_header M D _ m s0 st0 hh, loadSections_iterN M D (fuel + 1) n st0 st hn,
    loadSections_succ, hb]
  simp only
  rw [← hk, dispatch_tag]
  unfold arm
  rcases hls : loadSec D k st.Mod s with ⟨r, m1, s1⟩
  rw [hls] at he
  simp only at he
  subst he
  simp

/-- C9, witness: the header, a data count section declaring 5 and a custom section
cut short, on the sample decoders: the custom decoder fails with `EndOfFile` and
`loadBinary` returns `EndOfFile`, although the data count check would fail. -/
theorem loadBinary_decoder_error_witness :
    runSample 2 cutCustom =
      some (.error .EndOfFile,
        ⟨{ headerMod with CustomSec := some ⟨[]⟩, DataCountSec := some ⟨5⟩ },
         ⟨cutCustom, 12⟩,
         [.readBytes 4, .readBytes 4, .readByte, .decode .DataCountSec] ++
           [.readByte, .decode .CustomSec, .log (.InfoAST .Module)]⟩) :=
  loadBinary_decoder_error (vecMgr 32) sampleLoaders 0 1 ({} : Module Byte Nat)
    ⟨cutCustom, 0⟩ ⟨headerMod, ⟨cutCustom, 8⟩, [.readBytes 4, .readBytes 4]⟩
    ⟨{ headerMod with DataCountSec := some ⟨5⟩ }, ⟨cutCustom, 10⟩,
      [.readBytes 4, .readBytes 4, .readByte, .decode .DataCountSec]⟩
    0x00 ⟨cutCustom, 11⟩ .CustomSec .EndOfFile (by rfl) (by rfl) (by rfl) (by rfl) (by rfl)

/-- C10: when the read of the magic, or of the version after a matching magic, fails
with `e`, `loadBinary` fails with `e`; when a tag-byte read, after any `n` sections
decoded with success, fails with an `e` other than `EndOfFile`, `loadBinary` fails
with `e`. On the in-memory cursor a stream shorter than the field read fails with
`EndOfFile`. -/
theorem loadBinary_read_error (M : FileMgr σ) (D : SectionLoaders σ P Sym) (fuel : Nat)
    (m : Module P Sym) (s0 : σ) :
    (∀ e s1, M.readBytes 4 s0 = (.error e, s1) →
      loadBinary M D fuel m s0 =
        some (.error e, ⟨m, s1,
          [.readBytes 4, .log (.Code e), .log (.InfoLoading (M.getOffset s1)),
           .log (.InfoAST .Module)]⟩)) ∧
    (∀ e s1 s2, M.readBytes 4 s0 = (.ok WasmMagic, s1) → M.readBytes 4 s1 = (.error e, s2) →
      loadBinary M D fuel m s0 =
        some (.error e, ⟨{ m with Magic := WasmMagic }, s2,
          [.readBytes 4, .readBytes 4, .log (.Code e), .log (.InfoLoading (M.getOffset s2)),
           .log (.InfoAST .Module)]⟩)) ∧
    (∀ n st0 st e s, loadHeader M m s0 = (.ok (), st0) → iterN M D n st0 = some st →
      M.readByte st.Mgr = (.error e, s) → e ≠ .EndOfFile →
      loadBinary M D (n + (fuel + 1)) m s0 =
        some (.error e, ⟨st.Mod, s, st.Trace ++
          [.readByte, .log (.Code e), .log (.InfoLoading (M.getOffset s)),
           .log (.InfoAST .Module)]⟩)) ∧
    (∀ (w : Nat) (Dv : SectionLoaders VecState P Sym) (bs : List Byte),
      (bs.length < 4 →
        (loadBinary (vecMgr w) Dv fuel m ⟨bs, 0⟩).map (·.1) = some (.error .EndOfFile)) ∧
      (bs.length < 8 → bs.take 4 = WasmMagic →
        (loadBinary (vecMgr w) Dv fuel m ⟨bs, 0⟩).map (·.1) = some (.error .EndOfFile))) := by
  refine ⟨?_, ?_, ?_, ?_⟩
  · intro e s1 h
    simp [loadBinary, loadHeader, h]
  · intro e s1 s2 h1 h2
    simp [loadBinary, loadHeader, h1, h2]
  · intro n st0 st e s hh hn hb hne
    rw [loadBinary_of_header M D _ m s0 st0 hh, loadSections_iterN M D (fuel + 1) n st0 st hn,
      loadSections_succ, hb]
    simp [hne]
  · intro w Dv bs
    constructor
    · intro hlen
      have hr := vec_readBytes_short w 4 ⟨bs, 0⟩ (by simpa using hlen)
      simp [loadBinary, loadHeader, hr]
    · intro hlen hmagic
      have h4 : 4 ≤ bs.length := by
        have := congrArg List.length hmagic
        simp [WasmMagic] at this
        omega
      have hr := vec_readBytes w 4 ⟨bs, 0⟩ (by simpa using h4)
      simp only [List.drop_zero, Nat.zero_add, hmagic] at hr
      have hr2 := vec_readBytes_short w 4 ⟨bs, 4⟩ (by simpa using hlen)
      simp [loadBinary, loadHeader, hr, hr2]

/-- C10, witness: the empty stream; the stream `00 61 73 6D 01`; and a cursor whose
device fails with error 7 past position 8, on the header followed by one byte. -/
theorem loadBinary_read_error_witness :
    runSample 1 [] =
      some (.error .EndOfFile, ⟨{}, ⟨[], 0⟩,
        [.readBytes 4, .log (.Code .EndOfFile), .log (.InfoLoading 0),
         .log (.InfoAST .Module)]⟩) ∧
    runSample 1 [0x00, 0x61, 0x73, 0x6D, 0x01] =
      some (.error .EndOfFile, ⟨{ Magic := WasmMagic }, ⟨[0x00, 0x61, 0x73, 0x6D, 0x01], 4⟩,
        [.readBytes 4, .readBytes 4, .log (.Code .EndOfFile), .log (.InfoLoading 4),
         .log (.InfoAST .Module)]⟩) ∧
    loadBinary (faultyMgr 32 8 (.Other 7)) sampleLoaders (0 + (0 + 1)) ({} : Module Byte Nat)
        ⟨header ++ [0x00], 0⟩ =
      some (.error (.Other 7), ⟨headerMod, ⟨header ++ [0x00], 8⟩,
        [.readBytes 4, .readBytes 4] ++ [.readByte, .log (.Code (.Other 7)),
          .log (.InfoLoading 8), .log (.InfoAST .Module)]⟩) ∧
    (runSample 1 [0x00, 0x61, 0x73]).map (·.1) = some (.error .EndOfFile) ∧
    (runSample 1 [0x00, 0x61, 0x73, 0x6D, 0x01, 0x00, 0x00]).map (·.1) =
      some (.error .EndOfFile) :=
  ⟨(loadBinary_read_error (vecMgr 32) sampleLoaders 1 ({} : Module Byte Nat) ⟨[], 0⟩).1
      .EndOfFile ⟨[], 0⟩ (by rfl),
   (loadBinary_read_error (vecMgr 32) sampleLoaders 1 ({} : Module Byte Nat)
      ⟨[0x00, 0x61, 0x73, 0x6D, 0x01], 0⟩).2.1
      .EndOfFile ⟨[0x00, 0x61, 0x73, 0x6D, 0x01], 4⟩ ⟨[0x00, 0x61, 0x73, 0x6D, 0x01], 4⟩
      (by rfl) (by rfl),
   (loadBinary_read_error (faultyMgr 32 8 (.Other 7)) sampleLoaders 0
      ({} : Module Byte Nat) ⟨header ++ [0x00], 0⟩).2.2.1 0
      ⟨headerMod, ⟨header ++ [0x00], 8⟩, [.readBytes 4, .readBytes 4]⟩
      ⟨headerMod, ⟨header ++ [0x00], 8⟩, [.readBytes 4, .readBytes 4]⟩
      (.Other 7) ⟨header ++ [0x00], 8⟩ (by rfl) (by rfl) (by rfl) (by decide),
   ((loadBinary_read_error (vecMgr 32) sampleLoaders 1 ({} : Module Byte Nat)
      ⟨[], 0⟩).2.2.2 32 sampleLoaders [0x00, 0x61, 0x73]).1 (by decide),
   ((loadBinary_read_error (vecMgr 32) sampleLoaders 1 ({} : Module Byte Nat)
      ⟨[], 0⟩).2.2.2 32 sampleLoaders [0x00, 0x61, 0x73, 0x6D, 0x01, 0x00, 0x00]).2
      (by decide) (by decide)⟩

/-- C5, as the code has it: for a Global import `d` of the import section whose
qualified name the provider does not resolve, `loadCompiled` fails with the error
of the first Global or Memory import in declaration order that it cannot resolve,
which is `d` or one declared before `d`: the error is `InvalidGlobalIdx` when that
first one is a Global import, `InvalidMemoryIdx` when it is a Memory import. So the
error is `InvalidGlobalIdx` whenever every Memory import declared before `d`
resolves. When every Global and Memory import resolves and each present Table and
Memory section has a first declaration, `loadCompiled` succeeds and `d` then holds
the symbol the provider returns for its qualified name. -/
theorem loadCompiled_global_import (X : String → String) (L : LDMgr Sym) (m : Module P Sym)
    (sec : Section (ImportDesc P Sym)) (pre post : List (ImportDesc P Sym))
    (d : ImportDesc P Sym)
    (hsec : m.ImportSec = some sec) (hc : sec.Content = pre ++ d :: post)
    (hd : d.ExtType = .Global) :
    (L.valid (L.getSymbol (FullName X d)) = false →
      ∃ (pre0 : List (ImportDesc P Sym)) (d0 : ImportDesc P Sym)
        (post0 : List (ImportDesc P Sym)) (m1 : Module P Sym) (l : List LogEntry),
        sec.Content = pre0 ++ d0 :: post0 ∧ (∀ x ∈ pre0, unresolved X L x = false) ∧
        unresolved X L d0 = true ∧ (d0 = d ∨ d0 ∈ pre) ∧
        loadCompiled X L m =
          some (.error (if d0.ExtType = .Global then .InvalidGlobalIdx
            else .InvalidMemoryIdx), m1, l)) ∧
    (L.valid (L.getSymbol (FullName X d)) = false →
      (∀ x ∈ pre, x.ExtType = .Memory → L.valid (L.getSymbol (FullName X x)) = true) →
        ∃ m1 l, loadCompiled X L m = some (.error .InvalidGlobalIdx, m1, l)) ∧
    ((∀ x ∈ sec.Content, unresolved X L x = false) → frontsExist m = true →
      ∃ m1, loadCompiled X L m = some (.ok (), m1, []) ∧
        m1.ImportSec = some ⟨pre.map (bindImport X L) ++
          { d with Symbol := L.getSymbol (FullName X d) } :: post.map (bindImport X L)⟩) := by
  have himp : importDescs m = pre ++ d :: post := by simp [importDescs, hsec, hc]
  have hfirst : L.valid (L.getSymbol (FullName X d)) = false →
      ∃ (pre0 : List (ImportDesc P Sym)) (d0 : ImportDesc P Sym)
        (post0 : List (ImportDesc P Sym)) (m1 : Module P Sym) (l : List LogEntry),
        sec.Content = pre0 ++ d0 :: post0 ∧ (∀ x ∈ pre0, unresolved X L x = false) ∧
        unresolved X L d0 = true ∧ (d0 = d ∨ d0 ∈ pre) ∧
        loadCompiled X L m =
          some (.error (if d0.ExtType = .Global then .InvalidGlobalIdx
            else .InvalidMemoryIdx), m1, l) := by
    intro hv
    have hud : unresolved X L d = true := by simp [unresolved, hd, hv]
    have hex : ∃ d0, (importDescs m).find? (unresolved X L) = some d0 := by
      cases hfind : (importDescs m).find? (unresolved X L) with
      | some d0 => exact ⟨d0, rfl⟩
      | none =>
        have := List.find?_eq_none.1 hfind d (by simp [himp])
        simp [hud] at this
    obtain ⟨d0, hd0⟩ := hex
    obtain ⟨pre0, post0, e0, hpre0, hp0⟩ := find?_split _ _ _ hd0
    obtain ⟨m1, l, h⟩ := loadCompiled_unresolved X L m d0 hd0
    have hwhere : d0 = d ∨ d0 ∈ pre := by
      rw [himp] at hd0
      exact find?_append_cons _ d post hud pre d0 hd0
    refine ⟨pre0, d0, post0, m1, l, ?_, hpre0, hp0, hwhere, h⟩
    rw [hc, ← himp]
    exact e0
  refine ⟨hfirst, ?_, ?_⟩
  · intro hv hmem
    obtain ⟨pre0, d0, post0, m1, l, _, _, hp0, hwhere, h⟩ := hfirst hv
    refine ⟨m1, l, ?_⟩
    have hG : d0.ExtType = .Global := by
      rcases hwhere with h1 | h1
      · rw [h1]
        exact hd
      · by_contra hne
        have hM : d0.ExtType = .Memory := by
          cases ht : d0.ExtType <;> simp_all [unresolved]
        have hr := hmem d0 h1 hM
        simp [unresolved, hM, hr] at hp0
    rw [h]
    simp [hG]
  · intro hres hfe
    have hres2 : ∀ x ∈ importDescs m, unresolved X L x = false := by
      intro x hx
      rw [himp, ← hc] at hx
      exact hres x hx
    refine ⟨linked X L m, loadCompiled_ok X L m hres2 hfe, ?_⟩
    simp [linked, hsec, hc, bindImport, hd]

/-- C5, witness: `memFirst` declares the Memory import `env.m` before the Global one,
`env.g`. With a provider that knows `env.m` only, the Memory import before `env.g`
resolves and the error is `InvalidGlobalIdx`; with a provider that knows no symbol
the first unresolved one is `env.m` or `env.g` and decides the error. On
`globalFirst`, where an unresolved Global import stands before an unresolved
Memory import and `env.g`, the error is `InvalidGlobalIdx`, that of the first. With a provider that knows `env.g`, `sampleModule`
links and the descriptor of `env.g` holds the provider's symbol 7. -/
theorem loadCompiled_global_import_witness :
    (∃ m1 l, loadCompiled id memLDMgr memFirst =
      some (.error .InvalidGlobalIdx, m1, l)) ∧
    (∃ (pre0 : List (ImportDesc Byte Nat)) (d0 : ImportDesc Byte Nat)
        (post0 : List (ImportDesc Byte Nat)) (m1 : Module Byte Nat) (l : List LogEntry),
        [(⟨"env", "m", .Memory, 0, 0⟩ : ImportDesc Byte Nat), ⟨"env", "g", .Global, 0, 0⟩] =
          pre0 ++ d0 :: post0 ∧
        (∀ x ∈ pre0, unresolved id emptyLDMgr x = false) ∧
        unresolved id emptyLDMgr d0 = true ∧
        (d0 = ⟨"env", "g", .Global, 0, 0⟩ ∨
          d0 ∈ [(⟨"env", "m", .Memory, 0, 0⟩ : ImportDesc Byte Nat)]) ∧
        loadCompiled id emptyLDMgr memFirst =
          some (.error (if d0.ExtType = .Global then .InvalidGlobalIdx
            else .InvalidMemoryIdx), m1, l)) ∧
    loadCompiled id emptyLDMgr globalFirst =
      some (.error .InvalidGlobalIdx, globalFirst,
        [.Code .InvalidGlobalIdx, .InfoAST .Desc_Import, .InfoAST .Sec_Import,
         .InfoAST .Module]) ∧
    (∃ (pre0 : List (ImportDesc Byte Nat)) (d0 : ImportDesc Byte Nat)
        (post0 : List (ImportDesc Byte Nat)) (m1 : Module Byte Nat) (l : List LogEntry),
        [(⟨"env", "a", .Global, 0, 0⟩ : ImportDesc Byte Nat), ⟨"env", "m", .Memory, 0, 0⟩,
          ⟨"env", "g", .Global, 0, 0⟩] = pre0 ++ d0 :: post0 ∧
        (∀ x ∈ pre0, unresolved id emptyLDMgr x = false) ∧
        unresolved id emptyLDMgr d0 = true ∧
        (d0 = ⟨"env", "g", .Global, 0, 0⟩ ∨
          d0 ∈ [(⟨"env", "a", .Global, 0, 0⟩ : ImportDesc Byte Nat),
            ⟨"env", "m", .Memory, 0, 0⟩]) ∧
        loadCompiled id emptyLDMgr globalFirst =
          some (.error (if d0.ExtType = .Global then .InvalidGlobalIdx
            else .InvalidMemoryIdx), m1, l)) ∧
    (∃ m1, loadCompiled id partLDMgr sampleModule = some (.ok (), m1, []) ∧
      m1.ImportSec = some ⟨[(⟨"env", "f", .Function, 0, 0⟩ : ImportDesc Byte Nat),
          ⟨"env", "t", .Table, 0, 0⟩].map (bindImport id partLDMgr) ++
        { (⟨"env", "g", .Global, 0, 0⟩ : ImportDesc Byte Nat) with
          Symbol := partLDMgr.getSymbol
            (FullName id (⟨"env", "g", .Global, 0, 0⟩ : ImportDesc Byte Nat)) } ::
        ([] : List (ImportDesc Byte Nat)).map (bindImport id partLDMgr)⟩) :=
  ⟨(loadCompiled_global_import id memLDMgr memFirst
      ⟨[⟨"env", "m", .Memory, 0, 0⟩, ⟨"env", "g", .Global, 0, 0⟩]⟩
      [⟨"env", "m", .Memory, 0, 0⟩] [] ⟨"env", "g", .Global, 0, 0⟩
      (by rfl) (by rfl) (by rfl)).2.1 (by rfl) (by decide),
   (loadCompiled_global_import id emptyLDMgr memFirst
      ⟨[⟨"env", "m", .Memory, 0, 0⟩, ⟨"env", "g", .Global, 0, 0⟩]⟩
      [⟨"env", "m", .Memory, 0, 0⟩] [] ⟨"env", "g", .Global, 0, 0⟩
      (by rfl) (by rfl) (by rfl)).1 (by rfl),
   by rfl,
   (loadCompiled_global_import id emptyLDMgr globalFirst
      ⟨[⟨"env", "a", .Global, 0, 0⟩, ⟨"env", "m", .Memory, 0, 0⟩,
        ⟨"env", "g", .Global, 0, 0⟩]⟩
      [⟨"env", "a", .Global, 0, 0⟩, ⟨"env", "m", .Memory, 0, 0⟩] []
      ⟨"env", "g", .Global, 0, 0⟩ (by rfl) (by rfl) (by rfl)).1 (by rfl),
   (loadCompiled_global_import id partLDMgr sampleModule
      ⟨[⟨"env", "f", .Function, 0, 0⟩, ⟨"env", "t", .Table, 0, 0⟩,
        ⟨"env", "g", .Global, 0, 0⟩]⟩
      [⟨"env", "f", .Function, 0, 0⟩, ⟨"env", "t", .Table, 0, 0⟩] []
      ⟨"env", "g", .Global, 0, 0⟩ (by rfl) (by rfl) (by rfl)).2.2 (by decide) (by rfl)⟩

/-- C5 fails as stated: `memFirst` holds the Global import `env.g`, the provider
knows no symbol, and `loadCompiled` fails with `InvalidMemoryIdx`, the error of
the Memory import declared before it; `emptyTable` holds the Global import `env.g`,
the provider supplies it, and `loadCompiled` has no result, as the table section
has no first declaration. -/
theorem loadCompiled_global_import_other_outcome :
    loadCompiled id emptyLDMgr memFirst =
      some (.error .InvalidMemoryIdx, memFirst,
        [.Code .InvalidMemoryIdx, .InfoAST .Desc_Import, .InfoAST .Sec_Import,
         .InfoAST .Module]) ∧
    loadCompiled id partLDMgr emptyTable = none := by
  constructor <;> rfl

/-- C6: when each present Table and Memory section has a first declaration,
`loadCompiled` returns a result; it fails exactly when some import descriptor of
kind Global or Memory has a qualified name the provider does not resolve, and the
error is that of the first such descriptor in declaration order: `InvalidGlobalIdx`
for a Global import, `InvalidMemoryIdx` for a Memory import. Nothing else of the
module or of the provider bears on the result. -/
theorem loadCompiled_fails_iff (X : String → String) (L : LDMgr Sym) (m : Module P Sym)
    (hfe : frontsExist m = true) :
    ∃ r m1 l, loadCompiled X L m = some (r, m1, l) ∧
      ((∃ e, r = .error e) ↔ ∃ d ∈ importDescs m, unresolved X L d = true) ∧
      ((∀ d ∈ importDescs m, unresolved X L d = false) → r = .ok ()) ∧
      (∀ pre d post, importDescs m = pre ++ d :: post →
        (∀ x ∈ pre, unresolved X L x = false) → unresolved X L d = true →
        r = .error (if d.ExtType = .Global then .InvalidGlobalIdx else .InvalidMemoryIdx)) := by
  cases hfind : (importDescs m).find? (unresolved X L) with
  | none =>
    have hres : ∀ d ∈ importDescs m, unresolved X L d = false := by
      intro d hd
      have := List.find?_eq_none.1 hfind d hd
      simpa using this
    refine ⟨.ok (), linked X L m, [], loadCompiled_ok X L m hres hfe, ?_, ?_, ?_⟩
    · constructor
      · rintro ⟨e, he⟩
        cases he
      · rintro ⟨d, hd, hu⟩
        rw [hres d hd] at hu
        cases hu
    · intro _
      rfl
    · intro pre d post hsplit hpre hd
      have := hres d (by rw [hsplit]; simp)
      rw [this] at hd
      cases hd
  | some d0 =>
    obtain ⟨m1, l, h⟩ := loadCompiled_unresolved X L m d0 hfind
    obtain ⟨pre0, post0, e0, hpre0, hp0⟩ := find?_split _ _ _ hfind
    refine ⟨.error (importError d0), m1, l, h, ?_, ?_, ?_⟩
    · constructor
      · intro _
        exact ⟨d0, by rw [e0]; simp, hp0⟩
      · intro _
        exact ⟨_, rfl⟩
    · intro hres
      have := hres d0 (by rw [e0]; simp)
      rw [this] at hp0
      cases hp0
    · intro pre d post hsplit hpre hd
      have hfd : (importDescs m).find? (unresolved X L) = some d := by
        rw [hsplit]
        exact find?_first _ pre d post hpre hd
      rw [hfd] at hfind
      have hdd : d = d0 := by simpa using hfind
      rw [hdd]
      rfl

/-- C6, witness: `sampleModuleBad` declares `env.f` (Function), `env.t` (Table),
`env.g` (Global, resolved), `env.m` (Memory, unresolved), `env.h` (Global,
unresolved): the result is the `InvalidMemoryIdx` of `env.m`. -/
theorem loadCompiled_fails_iff_witness :
    frontsExist sampleModuleBad = true ∧
    ∃ r m1 l, loadCompiled id partLDMgr sampleModuleBad = some (r, m1, l) ∧
      ((∃ e, r = .error e) ↔ ∃ d ∈ importDescs sampleModuleBad, unresolved id partLDMgr d = true) ∧
      ((∀ d ∈ importDescs sampleModuleBad, unresolved id partLDMgr d = false) → r = .ok ()) ∧
      (∀ pre d post, importDescs sampleModuleBad = pre ++ d :: post →
        (∀ x ∈ pre, unresolved id partLDMgr x = false) → unresolved id partLDMgr d = true →
        r = .error (if d.ExtType = .Global then .InvalidGlobalIdx else .InvalidMemoryIdx)) :=
  ⟨by rfl, loadCompiled_fails_iff id partLDMgr sampleModuleBad (by rfl)⟩

/-- C7: when `loadCompiled` succeeds, a second `loadCompiled` on the module it left,
with the same provider, succeeds and leaves that module as it is. -/
theorem loadCompiled_idempotent (X : String → String) (L : LDMgr Sym)
    (m m1 : Module P Sym) (l : List LogEntry)
    (h : loadCompiled X L m = some (.ok (), m1, l)) :
    loadCompiled X L m1 = some (.ok (), m1, l) := by
  obtain ⟨hres, hfe, hm1, hl⟩ := loadCompiled_ok_inv X L m m1 l h
  subst hm1
  subst hl
  have hres2 : ∀ d ∈ importDescs (linked X L m), unresolved X L d = false := by
    intro d hd
    rw [← importDescs_linked] at hd
    obtain ⟨d0, hd0, rfl⟩ := List.mem_map.1 hd
    rw [unresolved_bindImport]
    exact hres d0 hd0
  rw [loadCompiled_ok X L (linked X L m) hres2 (frontsExist_linked X L m hfe), linked_idem]

/-- C7, witness: `sampleModule` linked with a provider that knows `env.g`, `globals`
and `table`: the import `env.g` holds 7, the globals hold 100 and 101, the table
holds 50, and a second call leaves this module as it is. -/
theorem loadCompiled_idempotent_witness :
    loadCompiled id partLDMgr sampleModule = some (.ok (), sampleLinked, []) ∧
    loadCompiled id partLDMgr sampleLinked = some (.ok (), sampleLinked, []) :=
  ⟨by rfl, loadCompiled_idempotent id partLDMgr sampleModule sampleLinked [] (by rfl)⟩

/-- C20: when the import section is `pre ++ d :: post`, every lookup needed in `pre`
succeeds and `d` is a Global or Memory import the provider does not resolve,
`loadCompiled` fails with the error of `d`; the descriptors of `pre` hold the
provider's symbols (Function and Table imports as before), `d` and `post` are as
before the call, and every other member of the module is as before the call. -/
theorem loadCompiled_failure_state (X : String → String) (L : LDMgr Sym) (m : Module P Sym)
    (sec : Section (ImportDesc P Sym)) (pre post : List (ImportDesc P Sym))
    (d : ImportDesc P Sym)
    (hsec : m.ImportSec = some sec) (hc : sec.Content = pre ++ d :: post)
    (hpre : ∀ x ∈ pre, unresolved X L x = false) (hd : unresolved X L d = true) :
    loadCompiled X L m =
      some (.error (if d.ExtType = .Global then .InvalidGlobalIdx else .InvalidMemoryIdx),
        { m with ImportSec := some ⟨pre.map (bindImport X L) ++ d :: post⟩ },
        [.Code (if d.ExtType = .Global then .InvalidGlobalIdx else .InvalidMemoryIdx),
         .InfoAST .Desc_Import, .InfoAST .Sec_Import, .InfoAST .Module]) := by
  unfold loadCompiled linkImportSec
  rw [hsec]
  simp only
  rw [hc, linkImports_split X L d post hd pre hpre]
  rfl

/-- C20, witness: `sampleModuleBad` with a provider that knows `env.g` and lacks
`env.m`: the call fails at `env.m` with `InvalidMemoryIdx`, `env.g` before it holds 7,
`env.m` and `env.h` hold 0 as before, and the globals, the table and the memory are as
before. -/
theorem loadCompiled_failure_state_witness :
    loadCompiled id partLDMgr sampleModuleBad =
      some (.error .InvalidMemoryIdx,
        { sampleModule with
          ImportSec := some ⟨[⟨"env", "f", .Function, 0, 0⟩, ⟨"env", "t", .Table, 0, 0⟩,
            ⟨"env", "g", .Global, 0, 7⟩, ⟨"env", "m", .Memory, 0, 0⟩,
            ⟨"env", "h", .Global, 0, 0⟩]⟩ },
        [.Code .InvalidMemoryIdx, .InfoAST .Desc_Import, .InfoAST .Sec_Import,
         .InfoAST .Module]) :=
  loadCompiled_failure_state id partLDMgr sampleModuleBad
    ⟨[⟨"env", "f", .Function, 0, 0⟩, ⟨"env", "t", .Table, 0, 0⟩,
      ⟨"env", "g", .Global, 0, 0⟩, ⟨"env", "m", .Memory, 0, 0⟩,
      ⟨"env", "h", .Global, 0, 0⟩]⟩
    [⟨"env", "f", .Function, 0, 0⟩, ⟨"env", "t", .Table, 0, 0⟩, ⟨"env", "g", .Global, 0, 0⟩]
    [⟨"env", "h", .Global, 0, 0⟩] ⟨"env", "m", .Memory, 0, 0⟩
    (by rfl) (by rfl) (by decide) (by rfl)

/-- C19: when each present Table and Memory section has a first declaration,
`loadCompiled` returns a result for every provider; and `loadCompiled` has no
result exactly when every import resolves and a present Table or Memory section is
empty. -/
theorem loadCompiled_front (X : String → String) (L : LDMgr Sym) (m : Module P Sym) :
    (frontsExist m = true → ∃ r, loadCompiled X L m = some r) ∧
    (loadCompiled X L m = none ↔
      (frontsExist m = false ∧ ∀ d ∈ importDescs m, unresolved X L d = false)) := by
  have key : ∀ d, (importDescs m).find? (unresolved X L) = some d →
      ∃ r, loadCompiled X L m = some r := by
    intro d hd
    obtain ⟨m1, l, h⟩ := loadCompiled_unresolved X L m d hd
    exact ⟨_, h⟩
  have hnone : (importDescs m).find? (unresolved X L) = none →
      ∀ d ∈ importDescs m, unresolved X L d = false := by
    intro hfind d hd
    have := List.find?_eq_none.1 hfind d hd
    simpa using this
  constructor
  · intro hfe
    cases hfind : (importDescs m).find? (unresolved X L) with
    | some d => exact key d hfind
    | none => exact ⟨_, loadCompiled_ok X L m (hnone hfind) hfe⟩
  · constructor
    · intro h
      cases hfind : (importDescs m).find? (unresolved X L) with
      | some d =>
        obtain ⟨r, hr⟩ := key d hfind
        rw [hr] at h
        cases h
      | none =>
        refine ⟨?_, hnone hfind⟩
        cases hfe : frontsExist m with
        | false => rfl
        | true =>
          rw [loadCompiled_ok X L m (hnone hfind) hfe] at h
          cases h
    · rintro ⟨hfe, hres⟩
      cases hlc : loadCompiled X L m with
      | none => rfl
      | some r =>
        obtain ⟨r0, m1, l⟩ := r
        rcases loadCompiled_cases X L m m1 r0 l hlc with ⟨hr, _, _⟩ | ⟨e, hr, hl⟩
        · subst hr
          have := (loadCompiled_ok_inv X L m m1 l hlc).2.1
          rw [hfe] at this
          cases this
        · have h1 := linkImportSec_ok X L m hres
          rw [h1] at hl
          cases hl

/-- C19, witness: `sampleModule` has a first table and a first memory and
`loadCompiled` returns a result; `emptyTable` has a table section with no table,
its import resolves, and `loadCompiled` has no result. -/
theorem loadCompiled_front_witness :
    (∃ r, loadCompiled id emptyLDMgr sampleModule = some r) ∧
    loadCompiled id partLDMgr emptyTable = none :=
  ⟨(loadCompiled_front id emptyLDMgr sampleModule).1 (by rfl),
   (loadCompiled_front id partLDMgr emptyTable).2.2 ⟨by rfl, by decide⟩⟩

/-- C14: when `loadCompiled` succeeds, a present global section whose symbol
`globals` the provider resolves has, at every index `i`, the declaration it had
with the symbol `globals.index(i)`; a present type section with `types` resolved has
at `i` the declaration it had with `types.index(i).deref()`; a present code section
with `codes` resolved has at `i` the segment it had with `codes.index(i).deref()`. -/
theorem loadCompiled_arrays (X : String → String) (L : LDMgr Sym) (m m1 : Module P Sym)
    (l : List LogEntry) (h : loadCompiled X L m = some (.ok (), m1, l)) :
    (∀ sec, m.GlobalSec = some sec → L.valid (L.getSymbol "globals") = true →
      ∃ sec1, m1.GlobalSec = some sec1 ∧ ∀ i : Nat, sec1.Content[i]? =
        (sec.Content[i]?).map
          (fun d => { d with Symbol := L.index (L.getSymbol "globals") i })) ∧
    (∀ sec, m.TypeSec = some sec → L.valid (L.getSymbol "types") = true →
      ∃ sec1, m1.TypeSec = some sec1 ∧ ∀ i : Nat, sec1.Content[i]? =
        (sec.Content[i]?).map
          (fun d => { d with Symbol := L.deref (L.index (L.getSymbol "types") i) })) ∧
    (∀ sec, m.CodeSec = some sec → L.valid (L.getSymbol "codes") = true →
      ∃ sec1, m1.CodeSec = some sec1 ∧ ∀ i : Nat, sec1.Content[i]? =
        (sec.Content[i]?).map
          (fun d => { d with Symbol := L.deref (L.index (L.getSymbol "codes") i) })) := by
  obtain ⟨_, _, hm1, _⟩ := loadCompiled_ok_inv X L m m1 l h
  subst hm1
  refine ⟨?_, ?_, ?_⟩
  · intro sec hs hv
    refine ⟨bindGlobals L sec, by simp [linked, hs], ?_⟩
    intro i
    simp [bindGlobals, hv, setSymbols_getElem?]
  · intro sec hs hv
    refine ⟨bindTypes L sec, by simp [linked, hs], ?_⟩
    intro i
    simp [bindTypes, hv, setSymbols_getElem?]
  · intro sec hs hv
    refine ⟨bindCodes L sec, by simp [linked, hs], ?_⟩
    intro i
    simp [bindCodes, hv, setSymbols_getElem?]

/-- C14, witness: `declModule` linked with a provider whose `globals`, `types` and
`codes` are 100, 200 and 300: the globals hold 100 and 101, the type holds 400, the
code segments hold 600 and 602. -/
theorem loadCompiled_arrays_witness :
    loadCompiled id arrayLDMgr declModule =
      some (.ok (),
        { TypeSec := some ⟨[⟨5, 400⟩]⟩
          GlobalSec := some ⟨[⟨1, 100⟩, ⟨2, 101⟩]⟩
          CodeSec := some ⟨[⟨8, 600⟩, ⟨9, 602⟩]⟩ }, []) ∧
    (∃ sec1, ({ TypeSec := some ⟨[⟨5, 400⟩]⟩
                GlobalSec := some ⟨[⟨1, 100⟩, ⟨2, 101⟩]⟩
                CodeSec := some ⟨[⟨8, 600⟩, ⟨9, 602⟩]⟩ } : Module Byte Nat).GlobalSec =
        some sec1 ∧ ∀ i : Nat, sec1.Content[i]? =
        (([⟨1, 0⟩, ⟨2, 0⟩] : List (Decl Byte Nat))[i]?).map
          (fun d => { d with Symbol := arrayLDMgr.index (arrayLDMgr.getSymbol "globals") i })) :=
  ⟨by rfl,
   (loadCompiled_arrays id arrayLDMgr declModule
      { TypeSec := some ⟨[⟨5, 400⟩]⟩
        GlobalSec := some ⟨[⟨1, 100⟩, ⟨2, 101⟩]⟩
        CodeSec := some ⟨[⟨8, 600⟩, ⟨9, 602⟩]⟩ } [] (by rfl)).1
      ⟨[⟨1, 0⟩, ⟨2, 0⟩]⟩ (by rfl) (by rfl)⟩

/-- C15, as the code has it: when `loadCompiled` succeeds, the first declaration of a
present table section holds what the lookup of `table` returned, resolved or not,
and the declarations after it are as before; the same holds for a present
memory section and `mem`. So the section is as before the call exactly when its
first declaration already held what the lookup returns. -/
theorem loadCompiled_singletons (X : String → String) (L : LDMgr Sym) (m m1 : Module P Sym)
    (l : List LogEntry) (h : loadCompiled X L m = some (.ok (), m1, l)) :
    (∀ sec, m.TableSec = some sec → ∃ d rest, sec.Content = d :: rest ∧
      m1.TableSec = some ⟨{ d with Symbol := L.getSymbol "table" } :: rest⟩ ∧
      (m1.TableSec = m.TableSec ↔ d.Symbol = L.getSymbol "table")) ∧
    (∀ sec, m.MemorySec = some sec → ∃ d rest, sec.Content = d :: rest ∧
      m1.MemorySec = some ⟨{ d with Symbol := L.getSymbol "mem" } :: rest⟩ ∧
      (m1.MemorySec = m.MemorySec ↔ d.Symbol = L.getSymbol "mem")) := by
  obtain ⟨_, hfe, hm1, _⟩ := loadCompiled_ok_inv X L m m1 l h
  subst hm1
  have hf := (frontsExist_iff m).1 hfe
  constructor
  · intro sec hs
    cases hc : sec.Content with
    | nil => exact absurd hc (hf.1 sec hs)
    | cons d rest =>
      refine ⟨d, rest, rfl, by simp [linked, hs, bindFront, hc], ?_⟩
      obtain ⟨c⟩ := sec
      simp only at hc
      subst hc
      obtain ⟨b, sy⟩ := d
      simp [linked, hs, bindFront]
      constructor
      · intro e; exact e.symm
      · intro e; exact e.symm
  · intro sec hs
    cases hc : sec.Content with
    | nil => exact absurd hc (hf.2 sec hs)
    | cons d rest =>
      refine ⟨d, rest, rfl, by simp [linked, hs, bindFront, hc], ?_⟩
      obtain ⟨c⟩ := sec
      simp only at hc
      subst hc
      obtain ⟨b, sy⟩ := d
      simp [linked, hs, bindFront]
      constructor
      · intro e; exact e.symm
      · intro e; exact e.symm

/-- C15, witness: `sampleModule` linked with a provider that knows `table` (50) and
lacks `mem`: the table holds 50, the memory holds the null symbol 0 it held
before. -/
theorem loadCompiled_singletons_witness :
    (∃ d rest, ([⟨3, 0⟩] : List (Decl Byte Nat)) = d :: rest ∧
      sampleLinked.TableSec = some ⟨{ d with Symbol := partLDMgr.getSymbol "table" } :: rest⟩ ∧
      (sampleLinked.TableSec = sampleModule.TableSec ↔
        d.Symbol = partLDMgr.getSymbol "table")) ∧
    (∃ d rest, ([⟨4, 0⟩] : List (Decl Byte Nat)) = d :: rest ∧
      sampleLinked.MemorySec = some ⟨{ d with Symbol := partLDMgr.getSymbol "mem" } :: rest⟩ ∧
      (sampleLinked.MemorySec = sampleModule.MemorySec ↔
        d.Symbol = partLDMgr.getSymbol "mem")) :=
  ⟨(loadCompiled_singletons id partLDMgr sampleModule sampleLinked [] (by rfl)).1
      ⟨[⟨3, 0⟩]⟩ (by rfl),
   (loadCompiled_singletons id partLDMgr sampleModule sampleLinked [] (by rfl)).2
      ⟨[⟨4, 0⟩]⟩ (by rfl)⟩

/-- C15 fails as stated: `boundTable` holds a first table bound to 50 and a memory
bound to 70; the provider lacks `table` and `mem`; after `loadCompiled` the first
table and the memory hold the null symbol 0, not the symbols they held before. -/
theorem loadCompiled_singletons_overwritten :
    emptyLDMgr.valid (emptyLDMgr.getSymbol "table") = false ∧
    emptyLDMgr.valid (emptyLDMgr.getSymbol "mem") = false ∧
    loadCompiled id emptyLDMgr boundTable =
      some (.ok (),
        { TableSec := some ⟨[⟨3, 0⟩, ⟨4, 60⟩]⟩
          MemorySec := some ⟨[⟨5, 0⟩]⟩ }, []) := by
  refine ⟨?_, ?_, ?_⟩ <;> rfl

/-- C11: whatever `loadCompiled` returns, success or error, the module it leaves is
the module it was given up to bound symbols: the markers, the members present, the
declarations of every section in their order and every decoded field are the
same, and every Function and Table import holds the symbol it held. It does return
when each present Table and Memory section has a first declaration. -/
theorem loadCompiled_frame (X : String → String) (L : LDMgr Sym) (m : Module P Sym) :
    (∀ r m1 l, loadCompiled X L m = some (r, m1, l) →
      m1.decoded = m.decoded ∧ passiveSymbols m1 = passiveSymbols m) ∧
    (frontsExist m = true → ∃ r m1 l, loadCompiled X L m = some (r, m1, l)) := by
  have hg : ∀ (d : ImportDesc P Sym) (sym : Sym),
      d.ExtType = .Global ∨ d.ExtType = .Memory →
      (fun d : ImportDesc P Sym =>
        match d.ExtType with
        | .Function => some d.Symbol
        | .Table => some d.Symbol
        | _ => none) { d with Symbol := sym } =
      (fun d : ImportDesc P Sym =>
        match d.ExtType with
        | .Function => some d.Symbol
        | .Table => some d.Symbol
        | _ => none) d := by
    intro d sym ht
    rcases ht with ht | ht <;> simp [ht]
  constructor
  · intro r m1 l h
    rcases loadCompiled_cases X L m m1 r l h with ⟨_, hm1, _⟩ | ⟨e, _, hl⟩
    · subst hm1
      refine ⟨linked_decoded X L m, ?_⟩
      unfold passiveSymbols
      rw [← importDescs_linked, List.map_map]
      apply List.map_congr_left
      intro d _
      unfold bindImport
      cases ht : d.ExtType <;> simp [ht, Function.comp]
    · unfold linkImportSec at hl
      cases hs : m.ImportSec with
      | none =>
        rw [hs] at hl
        cases hl
      | some sec =>
        rw [hs] at hl
        simp only [Prod.mk.injEq] at hl
        obtain ⟨_, hm1, _⟩ := hl
        subst hm1
        constructor
        · simp [Module.decoded, hs, linkImports_decoded]
        · simp only [passiveSymbols, importDescs, hs]
          exact linkImports_passive X L _ hg sec.Content
  · intro hfe
    obtain ⟨r, hr⟩ := (show ∃ r, loadCompiled X L m = some r from by
      cases hfind : (importDescs m).find? (unresolved X L) with
      | some d =>
        obtain ⟨m1, l, h⟩ := loadCompiled_unresolved X L m d hfind
        exact ⟨_, h⟩
      | none =>
        refine ⟨_, loadCompiled_ok X L m ?_ hfe⟩
        intro d hd
        have := List.find?_eq_none.1 hfind d hd
        simpa using this)
    exact ⟨r.1, r.2.1, r.2.2, hr⟩

/-- C11, witness: the successful link of `sampleModule` and the failed link of
`sampleModuleBad` both leave the decoded module and the symbols of the Function and
Table imports as they were. -/
theorem loadCompiled_frame_witness :
    (sampleLinked.decoded = sampleModule.decoded ∧
      passiveSymbols sampleLinked = passiveSymbols sampleModule) ∧
    (({ sampleModule with
        ImportSec := some ⟨[⟨"env", "f", .Function, 0, 0⟩, ⟨"env", "t", .Table, 0, 0⟩,
          ⟨"env", "g", .Global, 0, 7⟩, ⟨"env", "m", .Memory, 0, 0⟩,
          ⟨"env", "h", .Global, 0, 0⟩]⟩ } : Module Byte Nat).decoded =
        sampleModuleBad.decoded ∧
      passiveSymbols ({ sampleModule with
        ImportSec := some ⟨[⟨"env", "f", .Function, 0, 0⟩, ⟨"env", "t", .Table, 0, 0⟩,
          ⟨"env", "g", .Global, 0, 7⟩, ⟨"env", "m", .Memory, 0, 0⟩,
          ⟨"env", "h", .Global, 0, 0⟩]⟩ } : Module Byte Nat) =
        passiveSymbols sampleModuleBad) ∧
    (∃ r m1 l, loadCompiled id partLDMgr sampleModule = some (r, m1, l)) :=
  ⟨(loadCompiled_frame id partLDMgr sampleModule).1 (.ok ()) sampleLinked [] (by rfl),
   (loadCompiled_frame id partLDMgr sampleModuleBad).1 (.error .InvalidMemoryIdx) _
     [.Code .InvalidMemoryIdx, .InfoAST .Desc_Import, .InfoAST .Sec_Import,
      .InfoAST .Module] (by rfl),
   (loadCompiled_frame id partLDMgr sampleModule).2 (by rfl)⟩

/-- C16: when the header check fails (a failed read or a mismatch of the magic or of
the version), `loadBinary` returns that failure at once: its trace is one or two
`readBytes(4)` followed by log lines, so no tag byte is read and no decoder is
called, and every section member is as before the call. Whatever `loadBinary`
returns, a decoder call in its trace means that both reads returned their
constants. On the in-memory cursor a failed header check leaves the read position
at 8 or below. -/
theorem loadBinary_header_first (M : FileMgr σ) (D : SectionLoaders σ P Sym) (fuel : Nat)
    (m : Module P Sym) (s : σ) :
    (∀ e st, loadHeader M m s = (.error e, st) →
      loadBinary M D fuel m s = some (.error e, st) ∧
      (∀ k, st.Mod.slot k = m.slot k) ∧
      (∃ ls : List LogEntry, st.Trace = .readBytes 4 :: ls.map Event.log ∨
        st.Trace = .readBytes 4 :: .readBytes 4 :: ls.map Event.log) ∧
      .readByte ∉ st.Trace ∧ ∀ k, .decode k ∉ st.Trace) ∧
    (∀ r st k, loadBinary M D fuel m s = some (r, st) → .decode k ∈ st.Trace →
      ∃ s1 s2, M.readBytes 4 s = (.ok WasmMagic, s1) ∧
        M.readBytes 4 s1 = (.ok WasmVersion, s2)) ∧
    (∀ (w : Nat) (bs : List Byte) e (stv : LoadState VecState P Sym),
      loadHeader (vecMgr w) m ⟨bs, 0⟩ = (.error e, stv) →
      stv.Mgr.Code = bs ∧ stv.Mgr.Pos ≤ 8) := by
  have hfail : ∀ e st, loadHeader M m s = (.error e, st) →
      (∀ k, st.Mod.slot k = m.slot k) ∧
      (∃ ls : List LogEntry, st.Trace = .readBytes 4 :: ls.map Event.log ∨
        st.Trace = .readBytes 4 :: .readBytes 4 :: ls.map Event.log) ∧
      .readByte ∉ st.Trace ∧ ∀ k, .decode k ∉ st.Trace := by
    intro e st h
    obtain ⟨h1, ls, h2⟩ := loadHeader_error_inv M m s e st h
    refine ⟨h1, ⟨ls, h2⟩, ?_, ?_⟩
    · rcases h2 with h2 | h2 <;> simp [h2]
    · intro k
      rcases h2 with h2 | h2 <;> simp [h2]
  refine ⟨?_, ?_, ?_⟩
  · intro e st h
    refine ⟨?_, hfail e st h⟩
    unfold loadBinary
    rw [h]
  · intro r st k h hin
    rcases hh : loadHeader M m s with ⟨r0, st0⟩
    cases r0 with
    | error e =>
      have h1 : loadBinary M D fuel m s = some (.error e, st0) := by
        unfold loadBinary
        rw [hh]
      rw [h1] at h
      simp only [Option.some.injEq, Prod.mk.injEq] at h
      obtain ⟨_, h⟩ := h
      subst h
      exact absurd hin ((hfail e st0 hh).2.2.2 k)
    | ok u =>
      obtain ⟨s1, h1, h2, _, _⟩ := loadHeader_ok_inv M m s st0 hh
      exact ⟨s1, st0.Mgr, h1, h2⟩
  · intro w bs e stv h
    have hm := loadHeader_mgr (vecMgr w) m ⟨bs, 0⟩
    rw [h] at hm
    simp only at hm
    have a := vec_readBytes_state w 4 ⟨bs, 0⟩
    have b := vec_readBytes_state w 4 ((vecMgr w).readBytes 4 ⟨bs, 0⟩).2
    simp only at a
    rcases hm with hm | hm
    · rw [hm]
      exact ⟨a.1, by omega⟩
    · rw [hm]
      exact ⟨b.1.trans a.1, by omega⟩

/-- C16, witness: a wrong magic and a stream cut in the version, on the sample
decoders; and the custom decoder call of `twoCustom` comes after both markers
matched. -/
theorem loadBinary_header_first_witness :
    (runSample 1 [1, 2, 3, 4] =
        some (.error .InvalidGrammar, ⟨{ Magic := [1, 2, 3, 4] }, ⟨[1, 2, 3, 4], 4⟩,
          [.readBytes 4, .log (.Code .InvalidGrammar), .log (.InfoLoading 0),
           .log (.InfoAST .Module)]⟩) ∧
      (∀ k, ({ Magic := [1, 2, 3, 4] } : Module Byte Nat).slot k =
        ({} : Module Byte Nat).slot k) ∧
      (∃ ls : List LogEntry,
        [Event.readBytes 4, .log (.Code .InvalidGrammar), .log (.InfoLoading 0),
           .log (.InfoAST .Module)] = .readBytes 4 :: ls.map Event.log ∨
        [Event.readBytes 4, .log (.Code .InvalidGrammar), .log (.InfoLoading 0),
           .log (.InfoAST .Module)] = .readBytes 4 :: .readBytes 4 :: ls.map Event.log) ∧
      Event.readByte ∉ [Event.readBytes 4, .log (.Code .InvalidGrammar),
        .log (.InfoLoading 0), .log (.InfoAST .Module)] ∧
      ∀ k, Event.decode k ∉ [Event.readBytes 4, .log (.Code .InvalidGrammar),
        .log (.InfoLoading 0), .log (.InfoAST .Module)]) ∧
    (∃ s1 s2, (vecMgr 32).readBytes 4 ⟨twoCustom, 0⟩ = (.ok WasmMagic, s1) ∧
      (vecMgr 32).readBytes 4 s1 = (.ok WasmVersion, s2)) ∧
    ((⟨[0x00, 0x61, 0x73, 0x6D, 0x01], 4⟩ : VecState).Code = [0x00, 0x61, 0x73, 0x6D, 0x01] ∧
      (⟨[0x00, 0x61, 0x73, 0x6D, 0x01], 4⟩ : VecState).Pos ≤ 8) :=
  ⟨(loadBinary_header_first (vecMgr 32) sampleLoaders 1 ({} : Module Byte Nat)
      ⟨[1, 2, 3, 4], 0⟩).1 .InvalidGrammar
      ⟨{ Magic := [1, 2, 3, 4] }, ⟨[1, 2, 3, 4], 4⟩,
        [.readBytes 4, .log (.Code .InvalidGrammar), .log (.InfoLoading 0),
         .log (.InfoAST .Module)]⟩ (by rfl),
   (loadBinary_header_first (vecMgr 32) sampleLoaders 3 ({} : Module Byte Nat)
      ⟨twoCustom, 0⟩).2.1 (.ok ())
      ⟨{ headerMod with CustomSec := some ⟨[5, 6, 9]⟩ }, ⟨twoCustom, 15⟩,
        [.readBytes 4, .readBytes 4, .readByte, .decode .CustomSec, .readByte,
         .decode .CustomSec, .readByte]⟩ .CustomSec (by rfl) (by decide),
   (loadBinary_header_first (vecMgr 32) sampleLoaders 1 ({} : Module Byte Nat)
      ⟨[], 0⟩).2.2 32 [0x00, 0x61, 0x73, 0x6D, 0x01] .EndOfFile
      ⟨{ Magic := WasmMagic }, ⟨[0x00, 0x61, 0x73, 0x6D, 0x01], 4⟩,
        [.readBytes 4, .readBytes 4, .log (.Code .EndOfFile), .log (.InfoLoading 4),
         .log (.InfoAST .Module)]⟩ (by rfl)⟩

/-- C17: the tags of the thirteen members are 0x00..0x0C in the order Custom, Type,
Import, Function, Table, Memory, Global, Export, Start, Element, Code, Data,
DataCount, no two members share a tag, and the switch on the tag of `k` runs the arm
of `k`. That arm returns what the decoder of `k` returns on the section member `k`
points to, or on a new empty section when the member is null; member `k` then
points to the section that decoder left; every other member is as before; the only
decoder call added to the trace is that of `k`. Over a whole `loadBinary`, a member
that was non-null stays non-null. -/
theorem dispatch_frame (M : FileMgr σ) (D : SectionLoaders σ P Sym) (k : SecId)
    (st : LoadState σ P Sym) :
    ([SecId.CustomSec, .TypeSec, .ImportSec, .FunctionSec, .TableSec, .MemorySec,
        .GlobalSec, .ExportSec, .StartSec, .ElementSec, .CodeSec, .DataSec,
        .DataCountSec].map SecId.tag =
      [0x00, 0x01, 0x02, 0x03, 0x04, 0x05, 0x06, 0x07, 0x08, 0x09, 0x0A, 0x0B, 0x0C]) ∧
    (∀ j : SecId, j.tag = k.tag → j = k) ∧
    dispatch M D k.tag st = arm D k st ∧
    (dispatch M D k.tag st).1 =
      (D.decoder k ((st.Mod.slot k).getD (SecTy.empty k)) st.Mgr).1 ∧
    (dispatch M D k.tag st).2.Mod.slot k =
      some (D.decoder k ((st.Mod.slot k).getD (SecTy.empty k)) st.Mgr).2.1 ∧
    (∀ j, j ≠ k → (dispatch M D k.tag st).2.Mod.slot j = st.Mod.slot j) ∧
    (∀ j, .decode j ∈ (dispatch M D k.tag st).2.Trace ↔ (j = k ∨ .decode j ∈ st.Trace)) ∧
    (∀ fuel (m : Module P Sym) (s : σ) r st1, loadBinary M D fuel m s = some (r, st1) →
      ∀ j, m.present j = true → st1.Mod.present j = true) := by
  refine ⟨by rfl, ?_, dispatch_tag M D k st, ?_, ?_, ?_, ?_, ?_⟩
  · intro j h
    cases j <;> cases k <;> first | rfl | (exact absurd h (by decide))
  · rw [dispatch_tag, arm_eq]
    exact loadSec_fst D k st.Mod st.Mgr
  · rw [dispatch_tag, arm_eq]
    exact loadSec_slot_self D k st.Mod st.Mgr
  · intro j hj
    rw [dispatch_tag, arm_eq]
    exact loadSec_slot_other D k j hj st.Mod st.Mgr
  · intro j
    rw [dispatch_tag, arm_eq]
    simp only
    cases (loadSec D k st.Mod st.Mgr).1 with
    | ok u =>
      simp only [List.mem_append, List.mem_singleton, Event.decode.injEq]
      tauto
    | error e =>
      simp only [List.mem_append, List.mem_cons, Event.decode.injEq, List.mem_singleton,
        reduceCtorEq, List.mem_nil_iff, or_false]
      tauto
  · intro fuel m s r st1 h j hj
    have hs := loadBinary_slots M D fuel m s r st1 h j
    by_cases hin : Event.decode j ∈ st1.Trace
    · exact hs.1 hin
    · rw [present_eq_slot, hs.2 hin, ← present_eq_slot]
      exact hj

/-- C17, witness: the tag 0x00 on a module whose Custom member holds the byte 1, with
the stream `01 07` ahead: the sample decoder is called on that section, which then
holds `01 07`; the Type member stays null; and a whole `loadBinary` of the header
and `00 01 07` keeps the Custom member non-null. -/
theorem dispatch_frame_witness :
    (dispatch (vecMgr 32) sampleLoaders 0x00
        ⟨customMod, ⟨header ++ [0x00, 1, 7], 9⟩, [.readByte]⟩).2.Mod.slot .CustomSec =
      some (sampleCustom ⟨[1]⟩ ⟨header ++ [0x00, 1, 7], 9⟩).2.1 ∧
    (sampleCustom ⟨[1]⟩ ⟨header ++ [0x00, 1, 7], 9⟩).2.1 = ⟨[1, 7]⟩ ∧
    (dispatch (vecMgr 32) sampleLoaders 0x00
        ⟨customMod, ⟨header ++ [0x00, 1, 7], 9⟩, [.readByte]⟩).2.Mod.slot .TypeSec =
      customMod.slot .TypeSec ∧
    (∀ j : SecId, j.tag = SecId.CustomSec.tag → j = .CustomSec) ∧
    customLoaded.present .CustomSec = true :=
  ⟨(dispatch_frame (vecMgr 32) sampleLoaders .CustomSec
      ⟨customMod, ⟨header ++ [0x00, 1, 7], 9⟩, [.readByte]⟩).2.2.2.2.1,
   by rfl,
   (dispatch_frame (vecMgr 32) sampleLoaders .CustomSec
      ⟨customMod, ⟨header ++ [0x00, 1, 7], 9⟩, [.readByte]⟩).2.2.2.2.2.1 .TypeSec
      (by decide),
   (dispatch_frame (vecMgr 32) sampleLoaders .CustomSec
      ⟨customMod, ⟨header ++ [0x00, 1, 7], 9⟩, [.readByte]⟩).2.1,
   (dispatch_frame (vecMgr 32) sampleLoaders .CustomSec
      ⟨customMod, ⟨header ++ [0x00, 1, 7], 9⟩, [.readByte]⟩).2.2.2.2.2.2.2 2 customMod
      ⟨header ++ [0x00, 1, 7], 0⟩ (.ok ())
      ⟨customLoaded, ⟨header ++ [0x00, 1, 7], 11⟩,
        [.readBytes 4, .readBytes 4, .readByte, .decode .CustomSec, .readByte]⟩
      (by rfl) .CustomSec (by rfl)⟩

/-- C12, as the code has it: when `loadBinary` returns an error, the module is left
as loaded up to the failure. A section member whose decoder was not called before
the failure is as before the call, so an absent one is still absent; the member of
every decoder that was called, the failing one included, is non-null. -/
theorem loadBinary_error_state (M : FileMgr σ) (D : SectionLoaders σ P Sym) (fuel : Nat)
    (m : Module P Sym) (s : σ) (e : ErrCode) (st : LoadState σ P Sym)
    (h : loadBinary M D fuel m s = some (.error e, st)) :
    ∀ k, (.decode k ∈ st.Trace → st.Mod.present k = true) ∧
      (.decode k ∉ st.Trace → st.Mod.slot k = m.slot k) :=
  loadBinary_slots M D fuel m s (.error e) st h

/-- C12, witness: on `cutCustom` the custom decoder is called and fails; the Custom
member is non-null after the call, and the Type member, whose decoder was not
called, is as before. -/
theorem loadBinary_error_state_witness :
    ({ headerMod with CustomSec := some ⟨[]⟩, DataCountSec := some ⟨5⟩ } :
        Module Byte Nat).present .CustomSec = true ∧
    ({ headerMod with CustomSec := some ⟨[]⟩, DataCountSec := some ⟨5⟩ } :
        Module Byte Nat).slot .TypeSec = ({} : Module Byte Nat).slot .TypeSec :=
  ⟨((loadBinary_error_state (vecMgr 32) sampleLoaders 2 ({} : Module Byte Nat)
      ⟨cutCustom, 0⟩ .EndOfFile
      ⟨{ headerMod with CustomSec := some ⟨[]⟩, DataCountSec := some ⟨5⟩ },
        ⟨cutCustom, 12⟩,
        [.readBytes 4, .readBytes 4, .readByte, .decode .DataCountSec, .readByte,
         .decode .CustomSec, .log (.InfoAST .Module)]⟩ (by rfl)) .CustomSec).1 (by decide),
   ((loadBinary_error_state (vecMgr 32) sampleLoaders 2 ({} : Module Byte Nat)
      ⟨cutCustom, 0⟩ .EndOfFile
      ⟨{ headerMod with CustomSec := some ⟨[]⟩, DataCountSec := some ⟨5⟩ },
        ⟨cutCustom, 12⟩,
        [.readBytes 4, .readBytes 4, .readByte, .decode .DataCountSec, .readByte,
         .decode .CustomSec, .log (.InfoAST .Module)]⟩ (by rfl)) .TypeSec).2 (by decide)⟩

/-- C12 fails as stated: `loadBinary` of an empty module on `cutCustom` returns the
error `EndOfFile` of the custom decoder and leaves the Custom and DataCount members
non-null, which were null before the call; and on the stream `01 02 03 04` it
returns `InvalidGrammar` and leaves these four bytes in `Magic`. -/
theorem loadBinary_error_leaves_sections :
    ({} : Module Byte Nat).present .CustomSec = false ∧
    ({} : Module Byte Nat).present .DataCountSec = false ∧
    (runSample 2 cutCustom).map
        (fun r => (r.1, r.2.Mod.present .CustomSec, r.2.Mod.present .DataCountSec)) =
      some (.error .EndOfFile, true, true) ∧
    (runSample 1 [1, 2, 3, 4]).map (fun r => (r.1, r.2.Mod.Magic)) =
      some (.error .InvalidGrammar, [1, 2, 3, 4]) := by
  refine ⟨?_, ?_, ?_, ?_⟩ <;> rfl

/-- C13: when `loadBinary` succeeds, the header was read, some `n` sections were
decoded one after the other, and the tag read after them reported `EndOfFile`,
which is the last call on the cursor; the trace is the two header reads, then for
each of `n` members in order one tag read and one call of its decoder, then the last
tag read. On the in-memory cursor the read position is then at or past the last
byte of the input. And when the input is the header followed by a sequence of
sections, each a tag byte and the payload that the decoder of that tag consumes, the
members dispatched are the tags of that sequence, one tag read and one decoder call
for each entry in the order of the input, and the cursor is left exactly at the last
position of the input. -/
theorem loadBinary_success_consumes (M : FileMgr σ) (D : SectionLoaders σ P Sym)
    (fuel : Nat) (m : Module P Sym) (s0 : σ) :
    (∀ st, loadBinary M D fuel m s0 = some (.ok (), st) →
      ∃ (st0 : LoadState σ P Sym) (n : Nat) (stn : LoadState σ P Sym) (ks : List SecId),
        loadHeader M m s0 = (.ok (), st0) ∧ iterN M D n st0 = some stn ∧
        M.readByte stn.Mgr = (.error .EndOfFile, st.Mgr) ∧ st.Mod = stn.Mod ∧
        ks.length = n ∧
        st.Trace = [.readBytes 4, .readBytes 4] ++
          ks.flatMap (fun k => [.readByte, .decode k]) ++ [.readByte]) ∧
    (∀ (w : Nat) (Dv : SectionLoaders VecState P Sym) (bs : List Byte)
      (stv : LoadState VecState P Sym),
      loadBinary (vecMgr w) Dv fuel m ⟨bs, 0⟩ = some (.ok (), stv) →
      stv.Mgr.Code.length ≤ stv.Mgr.Pos ∧ (Forward Dv → stv.Mgr.Code = bs)) ∧
    (∀ (w : Nat) (Dv : SectionLoaders VecState P Sym) (entries : List (SecId × List Byte))
      (stv : LoadState VecState P Sym),
      payloadsAt Dv (header ++ encodeSections entries) 8 entries →
      loadBinary (vecMgr w) Dv fuel m ⟨header ++ encodeSections entries, 0⟩ =
        some (.ok (), stv) →
      stv.Trace = [.readBytes 4, .readBytes 4] ++
          entries.flatMap (fun e => [.readByte, .decode e.1]) ++ [.readByte] ∧
        stv.Mgr = ⟨header ++ encodeSections entries,
          (header ++ encodeSections entries).length⟩) := by
  refine ⟨?_, ?_, ?_⟩
  · intro st h
    obtain ⟨st0, n, stn, ks, h1, _, h2, h3, h4, h5, h6⟩ :=
      loadBinary_ok_inv M D fuel m s0 st h
    exact ⟨st0, n, stn, ks, h1, h2, h3, h4, h5, h6⟩
  · intro w Dv bs stv h
    obtain ⟨st0, n, stn, ks, h1, _, h2, h3, _, _, _⟩ :=
      loadBinary_ok_inv (vecMgr w) Dv fuel m ⟨bs, 0⟩ stv h
    obtain ⟨e1, _, e3⟩ := vec_readByte_error w stn.Mgr stv.Mgr _ h3
    rw [e1]
    refine ⟨e3, ?_⟩
    intro hD
    have hf := iterN_forward w Dv hD n st0 stn h2
    rw [hf.1, vec_loadHeader_ok_mgr w m bs st0 h1]
  · intro w Dv entries stv hpay h
    exact loadBinary_layout w Dv fuel m entries stv hpay h

/-- C13, witness: `twoCustom` (15 bytes) is the header followed by the two sections
`00 | 02 05 06` and `00 | 01 09`, whose payloads the sample custom decoder consumes
from positions 9 and 13. The load succeeds: two custom sections are decoded, the
third tag read reports `EndOfFile`, the members dispatched are Custom, Custom, and
the cursor is left at position 15. -/
theorem loadBinary_success_consumes_witness :
    (∃ (st0 : LoadState VecState Byte Nat) (n : Nat) (stn : LoadState VecState Byte Nat)
        (ks : List SecId),
        loadHeader (vecMgr 32) ({} : Module Byte Nat) ⟨twoCustom, 0⟩ = (.ok (), st0) ∧
        iterN (vecMgr 32) sampleLoaders n st0 = some stn ∧
        (vecMgr 32).readByte stn.Mgr = (.error .EndOfFile, ⟨twoCustom, 15⟩) ∧
        ({ headerMod with CustomSec := some ⟨[5, 6, 9]⟩ } : Module Byte Nat) = stn.Mod ∧
        ks.length = n ∧
        [Event.readBytes 4, .readBytes 4, .readByte, .decode .CustomSec, .readByte,
          .decode .CustomSec, .readByte] = [.readBytes 4, .readBytes 4] ++
          ks.flatMap (fun k => [.readByte, .decode k]) ++ [.readByte]) ∧
    (twoCustom.length ≤ 15 ∧ twoCustom = twoCustom) ∧
    twoCustom = header ++ encodeSections [(.CustomSec, [2, 5, 6]), (.CustomSec, [1, 9])] ∧
    payloadsAt sampleLoaders
      (header ++ encodeSections [(.CustomSec, [2, 5, 6]), (.CustomSec, [1, 9])]) 8
      [(.CustomSec, [2, 5, 6]), (.CustomSec, [1, 9])] ∧
    ([Event.readBytes 4, .readBytes 4, .readByte, .decode .CustomSec, .readByte,
        .decode .CustomSec, .readByte] = [.readBytes 4, .readBytes 4] ++
        [(SecId.CustomSec, ([2, 5, 6] : List Byte)), (.CustomSec, [1, 9])].flatMap
          (fun e => [.readByte, .decode e.1]) ++ [.readByte] ∧
      (⟨twoCustom, 15⟩ : VecState) =
        ⟨header ++ encodeSections [(.CustomSec, [2, 5, 6]), (.CustomSec, [1, 9])],
          (header ++ encodeSections [(.CustomSec, [2, 5, 6]), (.CustomSec, [1, 9])]).length⟩) :=
  ⟨(loadBinary_success_consumes (vecMgr 32) sampleLoaders 3 ({} : Module Byte Nat)
      ⟨twoCustom, 0⟩).1
      ⟨{ headerMod with CustomSec := some ⟨[5, 6, 9]⟩ }, ⟨twoCustom, 15⟩,
        [.readBytes 4, .readBytes 4, .readByte, .decode .CustomSec, .readByte,
         .decode .CustomSec, .readByte]⟩ (by rfl),
   ⟨((loadBinary_success_consumes (vecMgr 32) sampleLoaders 3 ({} : Module Byte Nat)
      ⟨twoCustom, 0⟩).2.1 32 sampleLoaders twoCustom
      ⟨{ headerMod with CustomSec := some ⟨[5, 6, 9]⟩ }, ⟨twoCustom, 15⟩,
        [.readBytes 4, .readBytes 4, .readByte, .decode .CustomSec, .readByte,
         .decode .CustomSec, .readByte]⟩ (by rfl)).1,
    ((loadBinary_success_consumes (vecMgr 32) sampleLoaders 3 ({} : Module Byte Nat)
      ⟨twoCustom, 0⟩).2.1 32 sampleLoaders twoCustom
      ⟨{ headerMod with CustomSec := some ⟨[5, 6, 9]⟩ }, ⟨twoCustom, 15⟩,
        [.readBytes 4, .readBytes 4, .readByte, .decode .CustomSec, .readByte,
         .decode .CustomSec, .readByte]⟩ (by rfl)).2 sampleLoaders_forward⟩,
   by rfl,
   ⟨fun sec => (sampleCustom_state sec _).trans (by rfl),
    fun sec => (sampleCustom_state sec _).trans (by rfl), trivial⟩,
   (loadBinary_success_consumes (vecMgr 32) sampleLoaders 3 ({} : Module Byte Nat)
      ⟨twoCustom, 0⟩).2.2 32 sampleLoaders [(.CustomSec, [2, 5, 6]), (.CustomSec, [1, 9])]
      ⟨{ headerMod with CustomSec := some ⟨[5, 6, 9]⟩ }, ⟨twoCustom, 15⟩,
        [.readBytes 4, .readBytes 4, .readByte, .decode .CustomSec, .readByte,
         .decode .CustomSec, .readByte]⟩
      ⟨fun sec => (sampleCustom_state sec _).trans (by rfl),
       fun sec => (sampleCustom_state sec _).trans (by rfl), trivial⟩ (by rfl)⟩

/-- C18: on the in-memory cursor, with decoders that return, leave the input as it is
and never move the read position backwards, `loadBinary` returns a result on every
input: any fuel above the number of bytes after the 8-byte header gives the same
result. A pass of the loop that reads a tag byte after `n` sections were decoded
has `n + 1` at most the number of bytes after the header. -/
theorem loadBinary_terminates (w : Nat) (D : SectionLoaders VecState P Sym)
    (hD : Forward D) (m : Module P Sym) (bs : List Byte) :
    (∀ fuel, bs.length - 8 < fuel →
      ∃ r, loadBinary (vecMgr w) D fuel m ⟨bs, 0⟩ = some r ∧
        loadBinary (vecMgr w) D (bs.length - 8 + 1) m ⟨bs, 0⟩ = some r) ∧
    (∀ st0 n stn b s, loadHeader (vecMgr w) m ⟨bs, 0⟩ = (.ok (), st0) →
      iterN (vecMgr w) D n st0 = some stn → (vecMgr w).readByte stn.Mgr = (.ok b, s) →
      n + 1 ≤ bs.length - 8) := by
  have hmin : ∃ r, loadBinary (vecMgr w) D (bs.length - 8 + 1) m ⟨bs, 0⟩ = some r := by
    unfold loadBinary
    rcases hh : loadHeader (vecMgr w) m ⟨bs, 0⟩ with ⟨r0, st0⟩
    cases r0 with
    | error e => exact ⟨_, rfl⟩
    | ok u =>
      simp only
      have hmgr := vec_loadHeader_ok_mgr w m bs st0 hh
      obtain ⟨r, hr⟩ := loadSections_total w D hD (bs.length - 8 + 1) st0
        (by rw [hmgr]; simp only; omega)
      rw [hr]
      obtain ⟨r1, st1⟩ := r
      cases r1 <;> exact ⟨_, rfl⟩
  constructor
  · intro fuel hf
    obtain ⟨r, hr⟩ := hmin
    refine ⟨r, ?_, hr⟩
    have e : fuel = (bs.length - 8 + 1) + (fuel - (bs.length - 8 + 1)) := by omega
    rw [e]
    exact loadBinary_mono (vecMgr w) D _ m _ r hr _
  · intro st0 n stn b s hh hit hrb
    have hmgr := vec_loadHeader_ok_mgr w m bs st0 hh
    obtain ⟨hc, hp⟩ := iterN_forward w D hD n st0 stn hit
    obtain ⟨_, hlt⟩ := vec_readByte_ok w stn.Mgr s b hrb
    rw [hc, hmgr] at hlt
    rw [hmgr] at hp
    simp only at hlt hp
    omega

/-- C18, witness: `twoCustom` has 7 bytes after the header; with fuel 8 on the sample
decoders `loadBinary` returns, and the second pass of the loop reads its tag at
position 12. -/
theorem loadBinary_terminates_witness :
    (∃ r, runSample 8 twoCustom = some r ∧
      loadBinary (vecMgr 32) sampleLoaders (twoCustom.length - 8 + 1)
        ({} : Module Byte Nat) ⟨twoCustom, 0⟩ = some r) ∧
    1 + 1 ≤ twoCustom.length - 8 :=
  ⟨(loadBinary_terminates 32 sampleLoaders sampleLoaders_forward ({} : Module Byte Nat)
      twoCustom).1 8 (by decide),
   (loadBinary_terminates 32 sampleLoaders sampleLoaders_forward ({} : Module Byte Nat)
      twoCustom).2 ⟨headerMod, ⟨twoCustom, 8⟩, [.readBytes 4, .readBytes 4]⟩ 1
      ⟨{ headerMod with CustomSec := some ⟨[5, 6]⟩ }, ⟨twoCustom, 12⟩,
        [.readBytes 4, .readBytes 4, .readByte, .decode .CustomSec]⟩
      0x00 ⟨twoCustom, 13⟩ (by rfl) (by rfl) (by rfl)⟩

end Claims

end AST
end SSVM
